import Mathlib

/-!
# Binary image classifier: a two-layer perceptron, its training step and its weight file

Shallow embedding of `src/main.cpp` (training program) and `src/test.cpp` (inference program).

Modelling conventions.

* `double` is an element of a field `R`; the exponential `std::exp` is a parameter
  `exp : R → R`.  Statements that need analytic facts about `exp` are made over `ℝ` with
  `Real.exp`.  Rounding of IEEE arithmetic is not modelled.
* `std::vector<double>` is `List R`; `v[i]` is `vget v i`, `v[i] = x` is `v.set i x`.
  `std::vector<std::vector<double>>` is `List (List R)` with `mget` and `mset`.
* `for (int i = 0; i < n; i++) body` is `forLoop n body`, a state transformer.
* The compile-time constants `INPUT_SIZE`, `HIDDEN_SIZE`, `NUM_CLASSES` are parameters
  `I H O` of the network functions; the reference values are kept as definitions.
* A weight file is the sequence of the numbers on its lines.  `operator<<` on a `double`
  appends the number denoted by the printed text; `operator>>` pops the next number, and on an
  exhausted stream leaves its target untouched.
-/

namespace Classifier

variable {R : Type}

/-! ## Loops and vectors -/

/-- Counted loop `for (int i = 0; i < n; i++) body(i)`, iterations run in increasing order. -/
def forLoop {σ : Type} : Nat → (Nat → σ → σ) → σ → σ
  | 0, _, s => s
  | n + 1, body, s => body n (forLoop n body s)

/-- Vector read `v[i]`. -/
def vget [Zero R] (v : List R) (i : Nat) : R := v.getD i 0

/-- Matrix read `w[i][j]`. -/
def mget [Zero R] (w : List (List R)) (i j : Nat) : R := (w.getD i []).getD j 0

/-- Matrix write `w[i][j] = x`. -/
def mset (w : List (List R)) (i j : Nat) (x : R) : List (List R) :=
  w.set i ((w.getD i []).set j x)

/-! ## Constants of `main.cpp` -/

def IMG_SIZE : Nat := 32
def INPUT_SIZE : Nat := IMG_SIZE * IMG_SIZE
def HIDDEN_SIZE : Nat := 64
def NUM_CLASSES : Nat := 1
def LEARNING_RATE [Field R] : R := 0.01
def EPOCHS : Nat := 500

/-! ## Activation -/

/-- The function `sigmoid` of both programs: `1.0 / (1.0 + std::exp(-z))`. -/
def sigmoid [Field R] (exp : R → R) (z : R) : R := 1 / (1 + exp (-z))

/-- The function `sigmoid_derivative`: `a * (1 - a)`. -/
def sigmoid_derivative [Field R] (a : R) : R := a * (1 - a)

/-- `std::exp` on doubles where its result underflows: for `x ≤ -746` the exact exponential is
below `2^-1075`, half the least positive `double`, and `std::exp` returns `0.0`.  Elsewhere the
value `e x` of a given exponential is taken; rounding is not modelled. -/
def expUnderflow [LinearOrderedField R] (e : R → R) (x : R) : R :=
  if x ≤ -746 then 0 else e x

/-! ## The network -/

/-- The four parameter entities of `struct NeuralNetwork`. -/
structure NeuralNetwork (R : Type) where
  w_input_hidden : List (List R)
  b_hidden : List R
  w_hidden_output : List (List R)
  b_output : List R

/-- A matrix with `n` rows, each of length `m`. -/
def IsMat (n m : Nat) (w : List (List R)) : Prop :=
  w.length = n ∧ ∀ row ∈ w, row.length = m

/-- The store has shape `(I, H, O)`. -/
def WellShaped (I H O : Nat) (nn : NeuralNetwork R) : Prop :=
  IsMat I H nn.w_input_hidden ∧ nn.b_hidden.length = H ∧
  IsMat H O nn.w_hidden_output ∧ nn.b_output.length = O

/-- The method `NeuralNetwork::forward`; `hidden` and `output` are the caller's buffers,
returned after the writes. -/
def forward [Field R] (exp : R → R) (I H O : Nat) (nn : NeuralNetwork R)
    (input hidden output : List R) : List R × List R :=
  let hidden := forLoop H (fun j hidden =>
    let sum := forLoop I (fun i sum => sum + vget input i * mget nn.w_input_hidden i j)
      (vget nn.b_hidden j)
    hidden.set j (sigmoid exp sum)) hidden
  let output := forLoop O (fun k output =>
    let sum := forLoop H (fun j sum => sum + vget hidden j * mget nn.w_hidden_output j k)
      (vget nn.b_output k)
    output.set k (sigmoid exp sum)) output
  (hidden, output)

/-- The method `NeuralNetwork::loss`. -/
def loss [Field R] (output target : List R) : R :=
  let sum := forLoop output.length
    (fun i sum => sum + (vget output i - vget target i) * (vget output i - vget target i)) 0
  sum / (output.length : R)

/-- The method `NeuralNetwork::trainSample`: returns the loss and the mutated store. -/
def trainSample [Field R] (exp : R → R) (I H O : Nat) (nn : NeuralNetwork R)
    (input target : List R) : R × NeuralNetwork R :=
  let fwd := forward exp I H O nn input (List.replicate H 0) (List.replicate O 0)
  let hidden := fwd.1
  let output := fwd.2
  let L := loss output target
  let delta_output := forLoop O (fun k d =>
    d.set k ((vget output k - vget target k) * sigmoid_derivative (vget output k)))
    (List.replicate O 0)
  let delta_hidden := forLoop H (fun j d =>
    let sum := forLoop O (fun k sum => sum + vget delta_output k * mget nn.w_hidden_output j k) 0
    d.set j (sum * sigmoid_derivative (vget hidden j))) (List.replicate H 0)
  let w_hidden_output := forLoop H (fun j w => forLoop O (fun k w =>
    mset w j k (mget w j k - LEARNING_RATE * vget delta_output k * vget hidden j)) w)
    nn.w_hidden_output
  let nn := { nn with w_hidden_output := w_hidden_output }
  let b_output := forLoop O (fun j b =>
    b.set j (vget b j - LEARNING_RATE * vget delta_output j)) nn.b_output
  let nn := { nn with b_output := b_output }
  let w_input_hidden := forLoop I (fun i w => forLoop H (fun j w =>
    mset w i j (mget w i j - LEARNING_RATE * vget delta_hidden j * vget input i)) w)
    nn.w_input_hidden
  let nn := { nn with w_input_hidden := w_input_hidden }
  let b_hidden := forLoop H (fun j b =>
    b.set j (vget b j - LEARNING_RATE * vget delta_hidden j)) nn.b_hidden
  let nn := { nn with b_hidden := b_hidden }
  (L, nn)

/-- The all-zero store of shape `(I, H, O)`: what the constructor of `test.cpp` builds. -/
def zeroNN [Zero R] (I H O : Nat) : NeuralNetwork R :=
  { w_input_hidden := List.replicate I (List.replicate H 0)
    b_hidden := List.replicate H 0
    w_hidden_output := List.replicate H (List.replicate O 0)
    b_output := List.replicate O 0 }

/-- A store of shape `(2, 2, 1)` with all weights and hidden biases zero and `b2[0] = 800`. -/
def saturatedStore [Field R] : NeuralNetwork R :=
  { w_input_hidden := [[0, 0], [0, 0]]
    b_hidden := [0, 0]
    w_hidden_output := [[0], [0]]
    b_output := [800] }

/-! ## The weight file -/

/-- The statement `myfile << x << "\n"`: appends one line; a stream that failed to open drops
the write. -/
def put (opened : Bool) (myfile : List R) (x : R) : List R :=
  if opened then myfile ++ [x] else myfile

/-- The function `saveNN` of `main.cpp`.  `fmt x` is the number denoted by the text that
`operator<<` prints for `x`; `opened` tells whether `std::ofstream myfile(filename)` opened the
destination.  Returns the lines written (`none` when no file was opened) and the console
output. -/
def saveNN [Zero R] (fmt : R → R) (opened : Bool) (nn : NeuralNetwork R) :
    Option (List R) × List String :=
  let myfile : List R := []
  let myfile := forLoop nn.w_input_hidden.length (fun i myfile =>
    forLoop (nn.w_input_hidden.getD i []).length (fun j myfile =>
      put opened myfile (fmt (mget nn.w_input_hidden i j))) myfile) myfile
  let myfile := forLoop nn.b_hidden.length (fun i myfile =>
    put opened myfile (fmt (vget nn.b_hidden i))) myfile
  let myfile := forLoop nn.w_hidden_output.length (fun i myfile =>
    forLoop (nn.w_hidden_output.getD i []).length (fun j myfile =>
      put opened myfile (fmt (mget nn.w_hidden_output i j))) myfile) myfile
  let myfile := forLoop nn.b_output.length (fun i myfile =>
    put opened myfile (fmt (vget nn.b_output i))) myfile
  (if opened then some myfile else none, ["Network save complete."])

/-- The piece of text that one `operator>>(double&)` meets in the weight file after skipping
white space. -/
inductive Token (R : Type) where
  /-- A decimal numeral whose magnitude does not exceed the largest `double`; `x` is the
  `double` it converts to. -/
  | num (x : R) : Token R
  /-- A decimal numeral whose magnitude exceeds the largest `double` (such as `1e999`); `x` is
  the value the extraction stores, `numeric_limits<double>::max()` or `lowest()`. -/
  | huge (x : R) : Token R
  /-- Text that does not start a decimal numeral. -/
  | bad : Token R

/-- The state of `std::ifstream myfile` that the reads depend on: the tokens not yet consumed
and `failbit`. -/
structure Ifstream (R : Type) where
  rest : List (Token R)
  failbit : Bool

/-- The largest finite `double`, `numeric_limits<double>::max()`. -/
def DBL_MAX [Field R] : R := 2 ^ 1024 - 2 ^ 971

/-- The statement `myfile >> x`.  With `failbit` set the extraction does nothing.  On an
exhausted stream it sets `failbit` and `x` keeps its value.  A numeral within range is stored
and consumed.  A numeral beyond the range of `double` stores the largest (or lowest) `double`
and sets `failbit`; text that is no numeral stores `0` and sets `failbit`.  Nothing clears
`failbit`, so every later extraction does nothing. -/
def extract [Zero R] (x : R) (s : Ifstream R) : R × Ifstream R :=
  if s.failbit then (x, s)
  else
    match s.rest with
    | [] => (x, ⟨[], true⟩)
    | Token.num v :: rest => (v, ⟨rest, false⟩)
    | Token.huge v :: rest => (v, ⟨rest, true⟩)
    | Token.bad :: rest => (0, ⟨rest, true⟩)

/-- The function `loadNN` of `test.cpp`.  `file` is what opening `filename` yields: `none` when
it cannot be opened, otherwise the tokens of the file in order.  The stream state is never
tested after the reads.  Returns the store after the reads and the console output. -/
def loadNN [Zero R] (filename : String) (file : Option (List (Token R)))
    (nn : NeuralNetwork R) : NeuralNetwork R × List String :=
  match file with
  | none => (nn, ["Cannont open file: " ++ filename])
  | some tokens =>
    let myfile : Ifstream R := ⟨tokens, false⟩
    let st := forLoop nn.w_input_hidden.length (fun i st =>
      forLoop (st.1.getD i []).length (fun j st =>
        let r := extract (mget st.1 i j) st.2
        (mset st.1 i j r.1, r.2)) st) (nn.w_input_hidden, myfile)
    let nn := { nn with w_input_hidden := st.1 }
    let st := forLoop nn.b_hidden.length (fun i st =>
      let r := extract (vget st.1 i) st.2
      (st.1.set i r.1, r.2)) (nn.b_hidden, st.2)
    let nn := { nn with b_hidden := st.1 }
    let st := forLoop nn.w_hidden_output.length (fun i st =>
      forLoop (st.1.getD i []).length (fun j st =>
        let r := extract (mget st.1 i j) st.2
        (mset st.1 i j r.1, r.2)) st) (nn.w_hidden_output, st.2)
    let nn := { nn with w_hidden_output := st.1 }
    let st := forLoop nn.b_output.length (fun i st =>
      let r := extract (vget st.1 i) st.2
      (st.1.set i r.1, r.2)) (nn.b_output, st.2)
    let nn := { nn with b_output := st.1 }
    (nn, ["Network loaded successfully"])

/-- Round to the nearest integer, ties to even. -/
def roundHalfEven (q : ℚ) : ℤ :=
  let f := ⌊q⌋
  let d := q - f
  if d < 1 / 2 then f else if 1 / 2 < d then f + 1 else if f % 2 = 0 then f else f + 1

/-- Default `std::ostream` formatting of a `double` (`precision()` is 6 and no float-field flag
is set, so the text is that of `%g`): the number denoted by the printed text, which is the
value rounded to 6 significant decimal digits. -/
def streamRound6 (q : ℚ) : ℚ :=
  if q = 0 then 0 else
    let e := Int.log 10 |q|
    (roundHalfEven (q * 10 ^ (5 - e)) : ℚ) / 10 ^ (5 - e)

/-- A store of shape `(1, 1, 1)` whose only input weight is `1 + 2^-20`, a value a `double`
holds exactly. -/
def roundTripStore : NeuralNetwork ℚ :=
  { w_input_hidden := [[1048577 / 1048576]]
    b_hidden := [0]
    w_hidden_output := [[0]]
    b_output := [0] }

/-! ## Specification-side descriptions of the weight file -/

/-- The flat parameter order of the specification: `W1` row-major, `b1`, `W2` row-major,
`b2`. -/
def flatParams (nn : NeuralNetwork R) : List R :=
  nn.w_input_hidden.flatten ++ nn.b_hidden ++ nn.w_hidden_output.flatten ++ nn.b_output

/-- The text that `saveNN` writes, as the tokens read back from it: every line is a numeral
within the range of `double` (the values of a store are finite). -/
def written (lines : Option (List R)) : Option (List (Token R)) :=
  lines.map (List.map Token.num)

/-- The values that successive extractions from a file deliver: the numerals up to the first
token that makes an extraction fail, and the value stored by that failing extraction. -/
def delivered [Zero R] : List (Token R) → List R
  | [] => []
  | Token.num v :: rest => v :: delivered rest
  | Token.huge v :: _ => [v]
  | Token.bad :: _ => [0]

/-- The values that successive extractions from a stream deliver. -/
def Ifstream.values [Zero R] (s : Ifstream R) : List R :=
  if s.failbit then [] else delivered s.rest

/-- Reading `v.length` numbers from `s` into `v`: the numbers present overwrite a prefix of
`v`, the rest of `v` stays; the second component is the unread rest of the stream. -/
def fill (v s : List R) : List R × List R :=
  (s.take v.length ++ v.drop s.length, s.drop v.length)

/-- Left-to-right traversal threading a state. -/
def mapAcc {α σ : Type} (f : α → σ → α × σ) : List α → σ → List α × σ
  | [], s => ([], s)
  | x :: l, s => ((f x s).1 :: (mapAcc f l (f x s).2).1, (mapAcc f l (f x s).2).2)

/-! ## Closed forms the specification states for the training step -/

/-- Spec formula (§4.3 step 3): `δ_out[k] = (output[k] - target[k]) * output[k] * (1 - output[k])`. -/
def specDeltaOut [Field R] (output target : List R) (k : Nat) : R :=
  (vget output k - vget target k) * vget output k * (1 - vget output k)

/-- Spec formula (§4.3 step 4):
`δ_hid[j] = (Σ_k δ_out[k] * W2[j][k]) * hidden[j] * (1 - hidden[j])`. -/
def specDeltaHid [Field R] (O : Nat) (W2 : List (List R)) (hidden output target : List R)
    (j : Nat) : R :=
  (∑ k in Finset.range O, specDeltaOut output target k * mget W2 j k) *
    vget hidden j * (1 - vget hidden j)

/-! ## The training program `main.cpp`: data set and epochs -/

/-- Lines 48-51 of `loadDataset`: the resized gray image `resized` (rows of `uchar` values,
`resized.at<uchar>(r,c)` is `(resized.getD r []).getD c 0`) is flattened row-major and
divided by `255.0`. -/
def pixels [Field R] (resized : List (List Nat)) : List R :=
  forLoop IMG_SIZE (fun r input =>
    forLoop IMG_SIZE (fun c input =>
      input.set (r * IMG_SIZE + c) ((((resized.getD r []).getD c 0 : Nat) : R) / 255))
      input) (List.replicate INPUT_SIZE 0)

/-- The function `loadDataset` of `main.cpp`.  The file system is `fs`: `fs folder` is `none`
when the folder does not exist, otherwise its directory entries in iteration order; an entry
is `none` when `cv::imread` yields an empty image, otherwise the image after `cvtColor` and
`resize`.  Returns `X`, `Y` after the appends, and the console output. -/
def loadDataset [Field R] (path : String)
    (fs : String → Option (List (Option (List (List Nat)))))
    (X Y : List (List R)) : List (List R) × List (List R) × List String :=
  let categories : List String := ["class_a", "class_b"]
  forLoop categories.length (fun class_index st =>
    let folder := path ++ "/" ++ categories.getD class_index ""
    match fs folder with
    | none => (st.1, st.2.1, st.2.2 ++ ["Warning: folder " ++ folder ++ " does not exist!"])
    | some entries =>
      let r := entries.foldl (fun (acc : List (List R) × List (List R) × Nat) img_file =>
        match img_file with
        | none => acc
        | some resized =>
          (acc.1 ++ [pixels resized],
           acc.2.1 ++ [List.replicate NUM_CLASSES (if class_index = 0 then 1 else 0)],
           acc.2.2 + 1)) (st.1, st.2.1, 0)
      if r.2.2 > 0 then
        (r.1, r.2.1, st.2.2 ++ ["Folder " ++ folder ++ " loaded with class_index " ++
          toString class_index ++ " (" ++ toString r.2.2 ++ " images)"])
      else (r.1, r.2.1, st.2.2)) (X, Y, [])

/-- Lines 222-225 of `main`: one pass over the data set; returns `total_loss` and the
store. -/
def trainEpoch [Field R] (exp : R → R) (I H O : Nat) (X Y : List (List R))
    (nn : NeuralNetwork R) : R × NeuralNetwork R :=
  forLoop X.length (fun i st =>
    let r := trainSample exp I H O st.2 (X.getD i []) (Y.getD i [])
    (st.1 + r.1, r.2)) (0, nn)

/-- Lines 221-233 of `main`: the epoch loop.  Returns the store after the last epoch and the
console log, one pair `(epoch, total_loss / X.size())` per printed line. -/
def trainEpochs [Field R] (exp : R → R) (I H O : Nat) (X Y : List (List R))
    (nn : NeuralNetwork R) : NeuralNetwork R × List (Nat × R) :=
  forLoop EPOCHS (fun epoch st =>
    let r := trainEpoch exp I H O X Y st.1
    if epoch % 50 = 0 then (r.2, st.2 ++ [(epoch, r.1 / (X.length : R))])
    else (r.2, st.2)) (nn, [])

/-! ## The inference program `test.cpp` -/

namespace Test

def IMG_SIZE : Nat := 32
def INPUT_SIZE : Nat := IMG_SIZE * IMG_SIZE
def HIDDEN_SIZE : Nat := 64
def NUM_CLASSES : Nat := 1

/-- The function `sigmoid` of `test.cpp`. -/
def sigmoid [Field R] (exp : R → R) (z : R) : R := 1 / (1 + exp (-z))

/-- The method `NeuralNetwork::forward` of `test.cpp`. -/
def forward [Field R] (exp : R → R) (I H O : Nat) (nn : NeuralNetwork R)
    (input hidden output : List R) : List R × List R :=
  let hidden := forLoop H (fun j hidden =>
    let sum := forLoop I (fun i sum => sum + vget input i * mget nn.w_input_hidden i j)
      (vget nn.b_hidden j)
    hidden.set j (sigmoid exp sum)) hidden
  let output := forLoop O (fun k output =>
    let sum := forLoop H (fun j sum => sum + vget hidden j * mget nn.w_hidden_output j k)
      (vget nn.b_output k)
    output.set k (sigmoid exp sum)) output
  (hidden, output)

/-- The function `loadIMG` of `test.cpp`: `none` is the `exit(1)` on an empty image. -/
def loadIMG [Field R] (img : Option (List (List Nat))) (X : List R) : Option (List R) :=
  match img with
  | none => none
  | some resized =>
    some (forLoop IMG_SIZE (fun r X =>
      forLoop IMG_SIZE (fun c X =>
        X.set (r * IMG_SIZE + c) ((((resized.getD r []).getD c 0 : Nat) : R) / 255)) X) X)

/-- The function `main` of `test.cpp` after the argument loop: `file` is what opening
`network_file` yields, `img` what decoding `image_file` yields.  Returns the exit status, the
console output and the value printed as the prediction. -/
def main [Field R] (exp : R → R) (network_file image_file : String)
    (file : Option (List (Token R))) (img : Option (List (List Nat))) :
    Nat × List String × Option R :=
  if network_file.isEmpty || image_file.isEmpty then
    (1, ["Usage: -n network.csv -i img.png"], none)
  else
    match loadIMG img (List.replicate INPUT_SIZE 0) with
    | none => (1, ["Cannont find the img: " ++ image_file], none)
    | some X =>
      let nn : NeuralNetwork R := zeroNN INPUT_SIZE HIDDEN_SIZE NUM_CLASSES
      let ld := loadNN network_file file nn
      let fwd := forward exp INPUT_SIZE HIDDEN_SIZE NUM_CLASSES ld.1 X
        (List.replicate HIDDEN_SIZE 0) (List.replicate NUM_CLASSES 0)
      (0, ld.2 ++ ["Predecit: "], some (vget fwd.2 0))

end Test

/-! ## Specification-side descriptions of training runs -/

/-- Successive `trainSample` calls on the samples of a list, in order. -/
def trainSeq [Field R] (exp : R → R) (I H O : Nat) (samples : List (List R × List R))
    (nn : NeuralNetwork R) : NeuralNetwork R :=
  samples.foldl (fun nn s => (trainSample exp I H O nn s.1 s.2).2) nn

/-- The store after `n` calls of `trainSample` on one and the same sample. -/
def trainRepeated [Field R] (exp : R → R) (I H O : Nat) (input target : List R)
    (n : Nat) (nn : NeuralNetwork R) : NeuralNetwork R :=
  forLoop n (fun _ nn => (trainSample exp I H O nn input target).2) nn

/-- All hidden units carry identical parameters. -/
def HiddenSymmetric [Zero R] (I H O : Nat) (nn : NeuralNetwork R) : Prop :=
  ∀ j < H, ∀ j' < H,
    (∀ i < I, mget nn.w_input_hidden i j = mget nn.w_input_hidden i j') ∧
    vget nn.b_hidden j = vget nn.b_hidden j' ∧
    (∀ k < O, mget nn.w_hidden_output j k = mget nn.w_hidden_output j' k)

/-- Mean over the data set of the loss of the forward pass under a store. -/
def meanLoss [Field R] (exp : R → R) (I H O : Nat) (X Y : List (List R))
    (nn : NeuralNetwork R) : R :=
  (forLoop X.length (fun i total =>
    total + loss (forward exp I H O nn (X.getD i []) (List.replicate H 0)
      (List.replicate O 0)).2 (Y.getD i [])) 0) / (X.length : R)

/-- The decodable images of a folder, in iteration order; none for a missing folder. -/
def decodable (fs : String → Option (List (Option (List (List Nat))))) (folder : String) :
    List (List (List Nat)) :=
  match fs folder with
  | none => []
  | some entries => entries.filterMap id

/-! ## Fixed-point enclosures -/

/-- Fixed-point scale: the natural number `n` stands for the real number `n / scale`. -/
def scale : Nat := 1000000000000000

/-- Division rounded up. -/
@[irreducible]
def cdiv (a b : Nat) : Nat := Nat.div (Nat.add (Nat.sub b 1) a) b

/-- An upper bound `(p - q) / scale` of a real, as a difference of two naturals. -/
structure Bd where
  p : Nat
  q : Nat

/-- Upper bounds of a signed real and of its negative. -/
structure Sg where
  u : Bd
  n : Bd

/-- Bounds `lo / scale` and `hi / scale` of a nonnegative real. -/
structure Pv where
  lo : Nat
  hi : Nat

/-- Bound of a sum. -/
def Bd.add (a b : Bd) : Bd := ⟨Nat.add a.p b.p, Nat.add a.q b.q⟩

/-- Bound of a hundredth. -/
def Bd.div100 (a : Bd) : Bd := ⟨cdiv a.p 100, Nat.div a.q 100⟩

/-- Bound of the product with a nonnegative real. -/
def Bd.pmul (y : Pv) (a : Bd) : Bd :=
  ⟨cdiv (Nat.mul y.hi a.p) scale, Nat.div (Nat.mul y.lo a.q) scale⟩

/-- Enclosure of a sum. -/
def Sg.add (x y : Sg) : Sg := ⟨x.u.add y.u, x.n.add y.n⟩

/-- Enclosure of a difference. -/
def Sg.sub (x y : Sg) : Sg := ⟨x.u.add y.n, x.n.add y.u⟩

/-- Enclosure of a hundredth. -/
def Sg.div100 (x : Sg) : Sg := ⟨x.u.div100, x.n.div100⟩

/-- Enclosure of the product of a nonnegative real with a signed real. -/
def Sg.pmul (y : Pv) (x : Sg) : Sg := ⟨x.u.pmul y, x.n.pmul y⟩

/-- Enclosure of the product of two nonnegative reals. -/
def Pv.mul (x y : Pv) : Pv :=
  ⟨Nat.div (Nat.mul x.lo y.lo) scale, cdiv (Nat.mul x.hi y.hi) scale⟩

/-- Enclosure of `1 - x` for `x ≤ 1`. -/
def Pv.oneSub (x : Pv) : Pv := ⟨Nat.sub scale x.hi, Nat.sub scale x.lo⟩

/-- Enclosure of a sum of nonnegative reals. -/
def Pv.add (x y : Pv) : Pv := ⟨Nat.add x.lo y.lo, Nat.add x.hi y.hi⟩

/-- A nonnegative real as a signed one. -/
def Pv.toSg (x : Pv) : Sg := ⟨⟨x.hi, 0⟩, ⟨0, x.lo⟩⟩

/-- One Horner step `acc ↦ 1 + x * acc / m` at the point `x = (P - M) / scale`, where
`k = scale * m`. -/
@[irreducible]
def hstep (P M k acc : Nat) : Nat :=
  Nat.sub (Nat.add scale (Nat.div (Nat.mul P acc) k)) (Nat.div (Nat.mul M acc) k)

/-- The Horner scheme for `Σ_{m ≤ 5} x^m / m!` at the point `x = (P - M) / scale`. -/
@[irreducible]
def expPM (P M : Nat) : Nat :=
  hstep P M 1000000000000000 (hstep P M 2000000000000000 (hstep P M 3000000000000000
    (hstep P M 4000000000000000 (hstep P M 5000000000000000 scale))))

/-- The bound is at most `1/256`. -/
def Bd.small (a : Bd) : Bool := Nat.ble (Nat.mul 256 a.p) (Nat.add scale (Nat.mul 256 a.q))

/-- Enclosure of the sigmoid of a signed real of size at most `1/256`; outside that range the
trivial enclosure `[0, 1]`. -/
@[irreducible]
def sigN (z : Sg) : Pv :=
  cond (z.u.small && z.n.small)
    ⟨Nat.div 1000000000000000000000000000000
        (Nat.add 1000000000000003 (expPM (Nat.sub z.n.p z.n.q) (Nat.sub z.n.q z.n.p))),
      cdiv 1000000000000000000000000000000
        (Nat.add scale (Nat.sub (expPM (Nat.sub z.u.q z.u.p) (Nat.sub z.u.p z.u.q)) 3))⟩
    ⟨0, scale⟩

/-- The Horner scheme over a field. -/
def hornerF [Field R] (x : R) : Nat → R → R
  | 0, acc => acc
  | m + 1, acc => hornerF x m (1 + x * acc / ((m : R) + 1))

/-- The real `x` is at most `(p - q) / scale`. -/
def Bd.Mem (a : Bd) (x : ℝ) : Prop := x * (scale : ℝ) + (a.q : ℝ) ≤ (a.p : ℝ)

/-- Both bounds of a signed enclosure hold. -/
def Sg.Mem (s : Sg) (x : ℝ) : Prop := s.u.Mem x ∧ s.n.Mem (-x)

/-- Both bounds of a nonnegative enclosure hold. -/
def Pv.Mem (a : Pv) (x : ℝ) : Prop :=
  (a.lo : ℝ) ≤ x * (scale : ℝ) ∧ x * (scale : ℝ) ≤ (a.hi : ℝ)

/-! ## The two-sample training run of shape `(2, 2, 1)`, reduced to five numbers -/

/-- The five numbers of a store of shape `(2, 2, 1)` whose two hidden units are identical:
`a1 = W1[0][j]`, `a2 = W1[1][j]`, `c = b1[j]`, `w = W2[j][0]`, `d = b2[0]`. -/
structure Sym5 (R : Type) where
  a1 : R
  a2 : R
  c : R
  w : R
  d : R

/-- The store described by five numbers. -/
def Sym5.toNN (p : Sym5 R) : NeuralNetwork R :=
  { w_input_hidden := [[p.a1, p.a1], [p.a2, p.a2]]
    b_hidden := [p.c, p.c]
    w_hidden_output := [[p.w], [p.w]]
    b_output := [p.d] }

/-- Output activation of `Sym5.toNN p` on the unit input that selects the weight row `a`. -/
def symOutput [Field R] (exp : R → R) (p : Sym5 R) (a : R) : R :=
  sigmoid exp (p.d + (sigmoid exp (p.c + a) * p.w + sigmoid exp (p.c + a) * p.w))

/-- The effect of `trainSample` on the five numbers, for the sample `([1, 0], [1])`
(`first = true`) or `([0, 1], [0])` (`first = false`). -/
def symStep [Field R] (exp : R → R) (first : Bool) (p : Sym5 R) : Sym5 R :=
  let a := if first then p.a1 else p.a2
  let t : R := if first then 1 else 0
  let h := sigmoid exp (p.c + a)
  let o := symOutput exp p a
  let delta := (o - t) * (o * (1 - o))
  let dh := delta * p.w * (h * (1 - h))
  { a1 := if first then p.a1 - dh / 100 else p.a1
    a2 := if first then p.a2 else p.a2 - dh / 100
    c := p.c - dh / 100
    w := p.w - delta / 100 * h
    d := p.d - delta / 100 }

/-- One epoch over the two samples, on the five numbers. -/
def symEpoch [Field R] (exp : R → R) (p : Sym5 R) : Sym5 R :=
  symStep exp false (symStep exp true p)

/-- `n` epochs on the five numbers. -/
def symIter [Field R] (exp : R → R) : Nat → Sym5 R → Sym5 R
  | 0, p => p
  | n + 1, p => symIter exp n (symEpoch exp p)

/-- Enclosures of the five numbers. -/
structure Box where
  a1 : Sg
  a2 : Sg
  c : Sg
  w : Sg
  d : Sg

/-- Enclosure of the output activation, from an enclosure `h` of the hidden activation. -/
def outH (b : Box) (h : Pv) : Pv :=
  sigN (b.d.add ((Sg.pmul h b.w).add (Sg.pmul h b.w)))

/-- Enclosure of `symOutput`. -/
def outN (b : Box) (a : Sg) : Pv := outH b (sigN (b.c.add a))

/-- Enclosure of `x * (1 - x)`. -/
def sqd (o : Pv) : Pv := o.mul o.oneSub

/-- The parameters after a step with `delta = -m`, where `g` encloses
`m * w * h * (1 - h) / 100` and `m` encloses `m / 100`. -/
def updFirst (b : Box) (h : Pv) (g m : Sg) : Box :=
  ⟨b.a1.add g, b.a2, b.c.add g, b.w.add (Sg.pmul h m), b.d.add m⟩

/-- The parameters after a step with `delta = m`, where `g` encloses
`m * w * h * (1 - h) / 100` and `m` encloses `m / 100`. -/
def updSecond (b : Box) (h : Pv) (g m : Sg) : Box :=
  ⟨b.a1, b.a2.sub g, b.c.sub g, b.w.sub (Sg.pmul h m), b.d.sub m⟩

/-- Enclosure of a step, from enclosures of the hidden activation and of `|delta|`. -/
def stepM (first : Bool) (b : Box) (h m : Pv) : Box :=
  cond first (updFirst b h (Sg.pmul (m.mul (sqd h)) b.w).div100 m.toSg.div100)
    (updSecond b h (Sg.pmul (m.mul (sqd h)) b.w).div100 m.toSg.div100)

/-- Enclosure of a step, from enclosures of the hidden and the output activation. -/
def stepO (first : Bool) (b : Box) (h o : Pv) : Box :=
  stepM first b h ((cond first o.oneSub o).mul (sqd o))

/-- Enclosure of `symStep`. -/
def stepN (first : Bool) (b : Box) : Box :=
  stepO first b (sigN (b.c.add (cond first b.a1 b.a2)))
    (outN b (cond first b.a1 b.a2))

/-- Enclosure of `symIter`. -/
def iterN : Nat → Box → Box
  | 0, b => b
  | n + 1, b => iterN n (stepN false (stepN true b))

/-- Enclosure of the summed squared error of the two samples. -/
def totN (b : Box) : Pv :=
  ((outN b b.a1).oneSub.mul (outN b b.a1).oneSub).add ((outN b b.a2).mul (outN b b.a2))

/-- The exact enclosure of zero. -/
def Sg.zero : Sg := ⟨⟨0, 0⟩, ⟨0, 0⟩⟩

/-- The all-zero parameters. -/
def box0 : Box := ⟨Sg.zero, Sg.zero, Sg.zero, Sg.zero, Sg.zero⟩

/-- The second bound is at least as wide as the first. -/
def Bd.leb (a b : Bd) : Bool := Nat.ble a.p b.p && Nat.ble b.q a.q

/-- Both bounds of the second enclosure are at least as wide as those of the first. -/
def Sg.leb (a b : Sg) : Bool := a.u.leb b.u && a.n.leb b.n

/-- Every enclosure of the second box is at least as wide as that of the first. -/
def Box.leb (b e : Box) : Bool :=
  b.a1.leb e.a1 && b.a2.leb e.a2 && b.c.leb e.c && b.w.leb e.w && b.d.leb e.d

/-- All five numbers lie in their enclosures. -/
def Box.Mem (b : Box) (p : Sym5 ℝ) : Prop :=
  b.a1.Mem p.a1 ∧ b.a2.Mem p.a2 ∧ b.c.Mem p.c ∧ b.w.Mem p.w ∧ b.d.Mem p.d

/-- Enclosures of the five numbers after `25 * k` epochs from the all-zero parameters, for
`k ≤ 20`. -/
def checkpoint : Nat → Box
  | 0 => box0
  | 1 =>
    ⟨⟨⟨58594922798, 58648980396⟩, ⟨58648980420, 58594922773⟩⟩,
      ⟨⟨58702258987, 63535532478⟩, ⟨63535532503, 58702258963⟩⟩,
      ⟨⟨117297181785, 122184512874⟩, ⟨122184512923, 117297181736⟩⟩,
      ⟨⟨15625143797510, 15639436291350⟩, ⟨15639436291391, 15625143797469⟩⟩,
      ⟨⟨31250324510774, 31278945734064⟩, ⟨31278945734093, 31250324510744⟩⟩⟩
  | 2 =>
    ⟨⟨⟨239267421152, 239484587849⟩, ⟨239484587899, 239267421102⟩⟩,
      ⟨⟨239695494161, 249252884719⟩, ⟨249252884770, 239695494111⟩⟩,
      ⟨⟨478962915313, 488737472568⟩, ⟨488737472669, 478962915213⟩⟩,
      ⟨⟨31250576263412, 31278470125056⟩, ⟨31278470125139, 31250576263326⟩⟩,
      ⟨⟨62501304394856, 62557237814231⟩, ⟨62557237814299, 62501304394786⟩⟩⟩
  | 3 =>
    ⟨⟨⟨542024513927, 542508567506⟩, ⟨542508567583, 542024513850⟩⟩,
      ⟨⟨542971802639, 557149440276⟩, ⟨557149440352, 542971802564⟩⟩,
      ⟨⟨1084996316566, 1099658007782⟩, ⟨1099658007935, 1084996316414⟩⟩,
      ⟨⟨46876281278333, 46917117559678⟩, ⟨46917117559810, 46876281278196⟩⟩,
      ⟨⟨93752909079174, 93834906679767⟩, ⟨93834906679878, 93752909079056⟩⟩⟩
  | 4 =>
    ⟨⟨⟨966872758109, 967722447765⟩, ⟨967722447869, 966872758007⟩⟩,
      ⟨⟨968523742218, 987222796873⟩, ⟨987222796976, 968523742115⟩⟩,
      ⟨⟨1935396500327, 1954945244638⟩, ⟨1954945244845, 1935396500122⟩⟩,
      ⟨⟨62502243476521, 62555393904982⟩, ⟨62555393905168, 62502243476324⟩⟩,
      ⟨⟨125005109417404, 125111981353992⟩, ⟨125111981354158, 125005109417232⟩⟩⟩
  | 5 =>
    ⟨⟨⟨1513818275662, 1515127555700⟩, ⟨1515127555831, 1513818275533⟩⟩,
      ⟨⟨1516344304642, 1539470751216⟩, ⟨1539470751348, 1516344304513⟩⟩,
      ⟨⟨3030162580304, 3054598306916⟩, ⟨3054598307179, 3030162580046⟩⟩,
      ⟨⟨78128448210606, 78193313756761⟩, ⟨78193313757013, 78128448210346⟩⟩,
      ⟨⟨156257877623242, 156388489510114⟩, ⟨156388489510348, 156257877623003⟩⟩⟩
  | 6 =>
    ⟨⟨⟨2182866778883, 2184725031559⟩, ⟨2184725031724, 2182866778728⟩⟩,
      ⟨⟨2186426890348, 2213891284747⟩, ⟨2213891284909, 2186426890190⟩⟩,
      ⟨⟨4369293669231, 4398616316306⟩, ⟨4398616316633, 4369293668918⟩⟩,
      ⟨⟨93754881518038, 93830891030047⟩, ⟨93830891030372, 93754881517707⟩⟩,
      ⟨⟨187511187206797, 187664457533980⟩, ⟨187664457534300, 187511187206477⟩⟩⟩
  | 7 =>
    ⟨⟨⟨2974023594341, 2976515842328⟩, ⟨2976515842523, 2974023594157⟩⟩,
      ⟨⟨2978765284625, 3010482550292⟩, ⟨3010482550484, 2978765284437⟩⟩,
      ⟨⟨5952788878966, 5986998392620⟩, ⟨5986998393007, 5952788878594⟩⟩,
      ⟨⟨109381530089076, 109468138990769⟩, ⟨109468138991181, 109381530088660⟩⟩,
      ⟨⟨218765012913972, 218939910583937⟩, ⟨218939910584358, 218765012913550⟩⟩⟩
  | 8 =>
    ⟨⟨⟨3887293685470, 3890500794409⟩, ⟨3890500794634, 3887293685254⟩⟩,
      ⟨⟨3893353635111, 3929242859546⟩, ⟨3929242859770, 3893353634892⟩⟩,
      ⟨⟨7780647320581, 7819743653955⟩, ⟨7819743654404, 7780647320146⟩⟩,
      ⟨⟨125008381236283, 125105070285965⟩, ⟨125105070286472, 125008381235772⟩⟩,
      ⟨⟨250019330668683, 250214872647902⟩, ⟨250214872648445, 250019330668141⟩⟩⟩
  | 9 =>
    ⟨⟨⟨4922681673890, 4926680545514⟩, ⟨4926680545777, 4922681673640⟩⟩,
      ⟨⟨4930186430545, 4970170671359⟩, ⟨4970170671621, 4930186430291⟩⟩,
      ⟨⟨9852868104435, 9896851216873⟩, ⟨9896851217398, 9852868103931⟩⟩,
      ⟨⟨140635422865455, 140741696972557⟩, ⟨140741696973174, 140635422864836⟩⟩,
      ⟨⟨281274117517794, 281489366597800⟩, ⟨281489366598491, 281274117517110⟩⟩⟩
  | 10 =>
    ⟨⟨⟨6080191859536, 6085055615800⟩, ⟨6085055616106, 6080191859246⟩⟩,
      ⟨⟨6089258480710, 6133264580769⟩, ⟨6133264581071, 6089258480419⟩⟩,
      ⟨⟨12169450340246, 12218320196569⟩, ⟨12218320197177, 12169450339665⟩⟩,
      ⟨⟨156262643447906, 156378030544826⟩, ⟨156378030545563, 156262643447158⟩⟩,
      ⟨⟨312529351578633, 312763414241464⟩, ⟨312763414242325, 312529351577774⟩⟩⟩
  | 11 =>
    ⟨⟨⟨7359828239634, 7365626398275⟩, ⟨7365626398622, 7359828239306⟩⟩,
      ⟨⟨7370564897513, 7418523308723⟩, ⟨7418523309065, 7370564897178⟩⟩,
      ⟨⟨14730393137147, 14784149706998⟩, ⟨14784149707687, 14730393136484⟩⟩,
      ⟨⟨171890031994043, 172014081960580⟩, ⟨172014081961462, 171890031993150⟩⟩,
      ⟨⟨343785011988953, 344037036372136⟩, ⟨344037036373199, 343785011987884⟩⟩⟩
  | 12 =>
    ⟨⟨⟨8761594526633, 8768393168510⟩, ⟨8768393168902, 8761594526259⟩⟩,
      ⟨⟨8774101077116, 8825945692467⟩, ⟨8825945692856, 8774101076735⟩⟩,
      ⟨⟨17535695603749, 17594338860977⟩, ⟨17594338861758, 17535695602994⟩⟩,
      ⟨⟨187517578028192, 187649861666135⟩, ⟨187649861667182, 187517578027137⟩⟩,
      ⟨⟨375041078859244, 375310252815664⟩, ⟨375310252816974, 375041078857928⟩⟩⟩
  | 13 =>
    ⟨⟨⟨10285494165088, 10293356093762⟩, ⟨10293356094204, 10285494164664⟩⟩,
      ⟨⟨10299862683089, 10355530676572⟩, ⟨10355530677012, 10299862682658⟩⟩,
      ⟨⟨20585356848177, 20648886770334⟩, ⟨20648886771216, 20585356847322⟩⟩,
      ⟨⟨203145271564606, 203285379620106⟩, ⟨203285379621345, 203145271563362⟩⟩,
      ⟨⟨406297533227294, 406583082475517⟩, ⟨406583082477123, 406297533225684⟩⟩⟩
  | 14 =>
    ⟨⟨⟨11931530347616, 11940515241466⟩, ⟨11940515241962, 11931530347136⟩⟩,
      ⟨⟨11947845630512, 12007277304507⟩, ⟨12007277305008, 11947845630024⟩⟩,
      ⟨⟨23879375978128, 23947792545973⟩, ⟨23947792546970, 23879375977160⟩⟩,
      ⟨⟨218773103084564, 218920645316124⟩, ⟨218920645317579, 218773103083102⟩⟩,
      ⟨⟨437554357014845, 437855543375708⟩, ⟨437855543377657, 437554357012893⟩⟩⟩
  | 15 =>
    ⟨⟨⟨13699706029933, 13709870587172⟩, ⟨13709870587729, 13699706029388⟩⟩,
      ⟨⟨13718046070978, 13781184710816⟩, ⟨13781184711380, 13718046070423⟩⟩,
      ⟨⟨27417752100911, 27491055297988⟩, ⟨27491055299109, 27417752099811⟩⟩,
      ⟨⟨234401063514583, 234555667804456⟩, ⟨234555667806163, 234401063512870⟩⟩,
      ⟨⟨468811532986319, 469127652701707⟩, ⟨469127652704063, 468811532983961⟩⟩⟩
  | 16 =>
    ⟨⟨⟨15590023945036, 15601422021970⟩, ⟨15601422022601, 15590023944416⟩⟩,
      ⟨⟨15610460378435, 15677252113753⟩, ⟨15677252114391, 15610460377804⟩⟩,
      ⟨⟨31200484323471, 31278674135723⟩, ⟨31278674136992, 31200484322220⟩⟩,
      ⟨⟨250029144205623, 250190455712659⟩, ⟨250190455714660, 250029144203614⟩⟩,
      ⟨⟨500069044709433, 500399426839472⟩, ⟨500399426842311, 500069044706593⟩⟩⟩
  | 17 =>
    ⟨⟨⟨17602486616566, 17615169359421⟩, ⟨17615169360137, 17602486615864⟩⟩,
      ⟨⟨17625085135857, 17695478808447⟩, ⟨17695478809171, 17625085135139⟩⟩,
      ⟨⟨35227571752423, 35310648167868⟩, ⟨35310648169308, 35227571751003⟩⟩,
      ⟨⟨265657336913263, 265825017265260⟩, ⟨265825017267603, 265657336910915⟩⟩,
      ⟨⟨531326876517687, 531670881412667⟩, ⟨531670881416077, 531326876514280⟩⟩⟩
  | 18 =>
    ⟨⟨⟨19737096371441, 19751112341995⟩, ⟨19751112342808, 19737096370641⟩⟩,
      ⟨⟨19761917122654, 19835864160508⟩, ⟨19835864161332, 19761917121836⟩⟩,
      ⟨⟨39499013494095, 39586976502503⟩, ⟨39586976504140, 39499013492477⟩⟩,
      ⟨⟨281285633778824, 281459360302510⟩, ⟨281459360305251, 281285633776080⟩⟩,
      ⟨⟨562585013474598, 562942031318140⟩, ⟨562942031322226, 562585013470521⟩⟩⟩
  | 19 =>
    ⟨⟨⟨21993855351727, 22009250647106⟩, ⟨22009250648035, 21993855350813⟩⟩,
      ⟨⟨22020953302809, 22098407600055⟩, ⟨22098407600997, 22020953301878⟩⟩,
      ⟨⟨44014808654536, 44107658247161⟩, ⟨44107658249032, 44014808652691⟩⟩,
      ⟨⟨296914027311357, 297093492298283⟩, ⟨297093492301483, 296914027308151⟩⟩,
      ⟨⟨593843441339605, 594212890759767⟩, ⟨594212890764646, 593843441334736⟩⟩⟩
  | 20 =>
    ⟨⟨⟨24372765525852, 24389583892734⟩, ⟨24389583893797, 24372765524802⟩⟩,
      ⟨⟨24402190813698, 24483108616165⟩, ⟨24483108617247, 24402190812628⟩⟩,
      ⟨⟨48774956339550, 48872692508899⟩, ⟨48872692511044, 48774956337430⟩⟩,
      ⟨⟨312542510370480, 312727420377119⟩, ⟨312727420380862, 312542510366734⟩⟩,
      ⟨⟨625102146535566, 625483473280694⟩, ⟨625483473286507, 625102146529765⟩⟩⟩
  | _ => box0

/-! ## Loop lemmas -/

theorem forLoop_sum [AddCommMonoid R] (f : Nat → R) (b : R) (n : Nat) :
    forLoop n (fun i s => s + f i) b = b + ∑ i in Finset.range n, f i := by
  induction n with
  | zero => simp [forLoop]
  | succ n ih => simp [forLoop, ih, Finset.sum_range_succ, add_assoc]

theorem vget_set [Zero R] (v : List R) (i j : Nat) (x : R) (hi : i < v.length) :
    vget (v.set i x) j = if j = i then x else vget v j := by
  unfold vget
  by_cases h : j = i
  · subst h; simp [List.getD_eq_getElem?_getD, hi]
  · simp [List.getD_eq_getElem?_getD, List.getElem?_set, h, Ne.symm h]

theorem length_forLoop_set (g : Nat → List R → R) (v0 : List R) (n : Nat) :
    (forLoop n (fun j v => v.set j (g j v)) v0).length = v0.length := by
  induction n with
  | zero => rfl
  | succ n ih => simp [forLoop, ih]

/-- A loop writing entry `j` at iteration `j`: entry `j < n` holds the value written at
iteration `j`, later entries are untouched. -/
theorem vget_forLoop_set [Zero R] (g : Nat → List R → R) (v0 : List R) (n j : Nat)
    (hn : n ≤ v0.length) :
    vget (forLoop n (fun j v => v.set j (g j v)) v0) j =
      if j < n then g j (forLoop j (fun j v => v.set j (g j v)) v0) else vget v0 j := by
  induction n with
  | zero => simp [forLoop]
  | succ n ih =>
    have hlen := length_forLoop_set g v0 n
    simp only [forLoop]
    rw [vget_set _ _ _ _ (by omega), ih (by omega)]
    by_cases h : j = n
    · subst h; simp
    · have : j < n + 1 ↔ j < n := by omega
      simp [h, this]

theorem IsMat_mset {n m : Nat} {w : List (List R)} (hw : IsMat n m w) (i j : Nat) (x : R) :
    IsMat n m (mset w i j x) := by
  by_cases hi : i < w.length
  · obtain ⟨h1, h2⟩ := hw
    refine ⟨by simp [mset, h1], ?_⟩
    intro row hrow
    rcases List.mem_or_eq_of_mem_set hrow with h | h
    · exact h2 row h
    · subst h
      rw [List.length_set, List.getD_eq_getElem _ _ hi]
      exact h2 _ (List.getElem_mem _)
  · have : mset w i j x = w := List.set_eq_of_length_le (by omega)
    rw [this]; exact hw

theorem mget_mset [Zero R] {n m : Nat} {w : List (List R)} (hw : IsMat n m w) (i j : Nat)
    (x : R) (hi : i < n) (hj : j < m) (a b : Nat) :
    mget (mset w i j x) a b = if a = i ∧ b = j then x else mget w a b := by
  obtain ⟨h1, h2⟩ := hw
  have hrow : (w.getD i []).length = m := by
    rw [List.getD_eq_getElem _ _ (by omega)]
    exact h2 _ (List.getElem_mem _)
  unfold mget mset
  by_cases ha : a = i
  · subst ha
    have : (w.set a ((w.getD a []).set j x)).getD a [] = (w.getD a []).set j x := by
      simp [List.getD_eq_getElem?_getD, h1, hi]
    rw [this]
    have := vget_set (w.getD a []) j b x (by omega)
    simp only [vget] at this
    rw [this]
    simp
  · have : (w.set i ((w.getD i []).set j x)).getD a [] = w.getD a [] := by
      simp [List.getD_eq_getElem?_getD, List.getElem?_set, Ne.symm ha]
    rw [this]
    simp [ha]

/-- The doubly nested update loop `for i < n: for j < m: w[i][j] = F i j w[i][j]`. -/
theorem mget_forLoop_inner [Zero R] {n m : Nat} (F : Nat → R → R) (i : Nat) (hi : i < n)
    (w : List (List R)) (hw : IsMat n m w) (c : Nat) (hc : c ≤ m) :
    IsMat n m (forLoop c (fun j w => mset w i j (F j (mget w i j))) w) ∧
    ∀ a b, mget (forLoop c (fun j w => mset w i j (F j (mget w i j))) w) a b =
      if a = i ∧ b < c then F b (mget w a b) else mget w a b := by
  induction c with
  | zero => exact ⟨hw, by simp [forLoop]⟩
  | succ c ih =>
    obtain ⟨ih1, ih2⟩ := ih (by omega)
    refine ⟨IsMat_mset ih1 _ _ _, ?_⟩
    intro a b
    simp only [forLoop]
    rw [mget_mset ih1 i c _ hi (by omega), ih2, ih2]
    by_cases ha : a = i
    · by_cases hb : b = c
      · subst ha; subst hb; simp
      · have : b < c + 1 ↔ b < c := by omega
        simp [ha, hb, this]
    · simp [ha]

theorem mget_forLoop_nested [Zero R] {n m : Nat} (F : Nat → Nat → R → R)
    (w : List (List R)) (hw : IsMat n m w) (r : Nat) (hr : r ≤ n) :
    IsMat n m (forLoop r (fun i w => forLoop m (fun j w => mset w i j (F i j (mget w i j))) w) w) ∧
    ∀ a b, mget (forLoop r (fun i w =>
        forLoop m (fun j w => mset w i j (F i j (mget w i j))) w) w) a b =
      if a < r ∧ b < m then F a b (mget w a b) else mget w a b := by
  induction r with
  | zero => exact ⟨hw, by simp [forLoop]⟩
  | succ r ih =>
    obtain ⟨ih1, ih2⟩ := ih (by omega)
    have hin := mget_forLoop_inner (F r) r (show r < n by omega) _ ih1 m le_rfl
    refine ⟨hin.1, ?_⟩
    intro a b
    simp only [forLoop]
    rw [hin.2, ih2]
    by_cases ha : a = r
    · subst ha; simp
    · have : a < r + 1 ↔ a < r := by omega
      simp [ha, this]

/-! ## Closed forms of the source loops -/

theorem forward_length [Field R] (exp : R → R) (I H O : Nat) (nn : NeuralNetwork R)
    (input hidden output : List R) :
    (forward exp I H O nn input hidden output).1.length = hidden.length ∧
    (forward exp I H O nn input hidden output).2.length = output.length := by
  constructor
  · exact length_forLoop_set (fun j _ => sigmoid exp (forLoop I
      (fun i sum => sum + vget input i * mget nn.w_input_hidden i j) (vget nn.b_hidden j))) hidden H
  · exact length_forLoop_set (fun k _ => sigmoid exp (forLoop H (fun j sum => sum +
      vget (forward exp I H O nn input hidden output).1 j * mget nn.w_hidden_output j k)
      (vget nn.b_output k))) output O

theorem forward_hidden [Field R] (exp : R → R) (I H O : Nat) (nn : NeuralNetwork R)
    (input hidden output : List R) (hh : H ≤ hidden.length) (j : Nat) (hj : j < H) :
    vget (forward exp I H O nn input hidden output).1 j =
      sigmoid exp (vget nn.b_hidden j +
        ∑ i in Finset.range I, vget input i * mget nn.w_input_hidden i j) := by
  have := vget_forLoop_set (fun j _ => sigmoid exp (forLoop I
      (fun i sum => sum + vget input i * mget nn.w_input_hidden i j) (vget nn.b_hidden j)))
      hidden H j hh
  simp only [hj, if_true] at this
  rw [forLoop_sum] at this
  exact this

theorem forward_output [Field R] (exp : R → R) (I H O : Nat) (nn : NeuralNetwork R)
    (input hidden output : List R) (ho : O ≤ output.length) (k : Nat) (hk : k < O) :
    vget (forward exp I H O nn input hidden output).2 k =
      sigmoid exp (vget nn.b_output k + ∑ j in Finset.range H,
        vget (forward exp I H O nn input hidden output).1 j * mget nn.w_hidden_output j k) := by
  have := vget_forLoop_set (fun k _ => sigmoid exp (forLoop H (fun j sum => sum +
      vget (forward exp I H O nn input hidden output).1 j * mget nn.w_hidden_output j k)
      (vget nn.b_output k))) output O k ho
  simp only [hk, if_true] at this
  rw [forLoop_sum] at this
  exact this

theorem loss_eq [Field R] (output target : List R) :
    loss output target = (∑ k in Finset.range output.length,
      (vget output k - vget target k) * (vget output k - vget target k)) / (output.length : R) := by
  simp [loss, forLoop_sum]

theorem delta_output_loop [Field R] (output target : List R) (O k : Nat) (hk : k < O) :
    vget (forLoop O (fun k d => d.set k
      ((vget output k - vget target k) * sigmoid_derivative (vget output k)))
      (List.replicate O 0)) k = specDeltaOut output target k := by
  have := vget_forLoop_set (fun k _ =>
    (vget output k - vget target k) * sigmoid_derivative (vget output k))
    (List.replicate O 0) O k (by simp)
  simp only [hk, if_true] at this
  rw [this, specDeltaOut, sigmoid_derivative, mul_assoc]

theorem delta_hidden_loop [Field R] (W2 : List (List R)) (hidden output target dO : List R)
    (O H j : Nat) (hj : j < H) (hdO : ∀ k < O, vget dO k = specDeltaOut output target k) :
    vget (forLoop H (fun j d => d.set j
      (forLoop O (fun k sum => sum + vget dO k * mget W2 j k) 0 *
        sigmoid_derivative (vget hidden j))) (List.replicate H 0)) j =
      specDeltaHid O W2 hidden output target j := by
  have := vget_forLoop_set (fun j _ =>
    forLoop O (fun k sum => sum + vget dO k * mget W2 j k) 0 *
      sigmoid_derivative (vget hidden j)) (List.replicate H 0) H j (by simp)
  simp only [hj, if_true] at this
  rw [this, forLoop_sum, zero_add, specDeltaHid, sigmoid_derivative, mul_assoc]
  congr 1
  exact Finset.sum_congr rfl (fun k hk => by rw [hdO k (Finset.mem_range.mp hk)])

/-- Entries of a vector after `for j < n: b[j] -= e j`. -/
theorem vget_forLoop_sub [Field R] (e : Nat → R) (b : List R) (n j : Nat) (hn : n ≤ b.length)
    (hj : j < n) :
    vget (forLoop n (fun j b => b.set j (vget b j - e j)) b) j = vget b j - e j := by
  have h := vget_forLoop_set (fun j b => vget b j - e j) b n j hn
  simp only [hj, if_true] at h
  rw [h]
  have h2 := vget_forLoop_set (fun j b => vget b j - e j) b j j (by omega)
  simp only [lt_irrefl, if_false] at h2
  rw [h2]

/-! ## The training step, entry by entry -/

theorem trainSample_loss [Field R] (exp : R → R) (I H O : Nat) (nn : NeuralNetwork R)
    (input target : List R) :
    (trainSample exp I H O nn input target).1 =
      loss (forward exp I H O nn input (List.replicate H 0) (List.replicate O 0)).2 target := rfl

theorem trainSample_w_hidden_output [Field R] (exp : R → R) (I H O : Nat)
    (nn : NeuralNetwork R) (input target : List R) (hw : IsMat H O nn.w_hidden_output) :
    IsMat H O (trainSample exp I H O nn input target).2.w_hidden_output ∧
    ∀ j k, j < H → k < O →
      mget (trainSample exp I H O nn input target).2.w_hidden_output j k =
        mget nn.w_hidden_output j k - LEARNING_RATE *
          specDeltaOut (forward exp I H O nn input (List.replicate H 0)
            (List.replicate O 0)).2 target k *
          vget (forward exp I H O nn input (List.replicate H 0) (List.replicate O 0)).1 j := by
  let fwd := forward exp I H O nn input (List.replicate H 0) (List.replicate O 0)
  let dO := forLoop O (fun k d => d.set k
    ((vget fwd.2 k - vget target k) * sigmoid_derivative (vget fwd.2 k))) (List.replicate O 0)
  have h := mget_forLoop_nested (fun j k x => x - LEARNING_RATE * vget dO k * vget fwd.1 j)
    nn.w_hidden_output hw H le_rfl
  refine ⟨h.1, ?_⟩
  intro j k hj hk
  have h2 := h.2 j k
  simp only [hj, hk, and_self, if_true] at h2
  rw [← delta_output_loop fwd.2 target O k hk]
  exact h2

theorem trainSample_b_output [Field R] (exp : R → R) (I H O : Nat)
    (nn : NeuralNetwork R) (input target : List R) (hb : nn.b_output.length = O) :
    (trainSample exp I H O nn input target).2.b_output.length = O ∧
    ∀ k, k < O →
      vget (trainSample exp I H O nn input target).2.b_output k =
        vget nn.b_output k - LEARNING_RATE *
          specDeltaOut (forward exp I H O nn input (List.replicate H 0)
            (List.replicate O 0)).2 target k := by
  let fwd := forward exp I H O nn input (List.replicate H 0) (List.replicate O 0)
  let dO := forLoop O (fun k d => d.set k
    ((vget fwd.2 k - vget target k) * sigmoid_derivative (vget fwd.2 k))) (List.replicate O 0)
  constructor
  · exact (length_forLoop_set (fun j b => vget b j - LEARNING_RATE * vget dO j)
      nn.b_output O).trans hb
  · intro k hk
    have h := vget_forLoop_sub (fun j => LEARNING_RATE * vget dO j) nn.b_output O k
      (by omega) hk
    rw [← delta_output_loop fwd.2 target O k hk]
    exact h

theorem trainSample_w_input_hidden [Field R] (exp : R → R) (I H O : Nat)
    (nn : NeuralNetwork R) (input target : List R) (hw : IsMat I H nn.w_input_hidden) :
    IsMat I H (trainSample exp I H O nn input target).2.w_input_hidden ∧
    ∀ i j, i < I → j < H →
      mget (trainSample exp I H O nn input target).2.w_input_hidden i j =
        mget nn.w_input_hidden i j - LEARNING_RATE *
          specDeltaHid O nn.w_hidden_output
            (forward exp I H O nn input (List.replicate H 0) (List.replicate O 0)).1
            (forward exp I H O nn input (List.replicate H 0) (List.replicate O 0)).2 target j *
          vget input i := by
  let fwd := forward exp I H O nn input (List.replicate H 0) (List.replicate O 0)
  let dO := forLoop O (fun k d => d.set k
    ((vget fwd.2 k - vget target k) * sigmoid_derivative (vget fwd.2 k))) (List.replicate O 0)
  let dH := forLoop H (fun j d => d.set j
      (forLoop O (fun k sum => sum + vget dO k * mget nn.w_hidden_output j k) 0 *
        sigmoid_derivative (vget fwd.1 j))) (List.replicate H 0)
  have h := mget_forLoop_nested (fun i j x => x - LEARNING_RATE * vget dH j * vget input i)
    nn.w_input_hidden hw I le_rfl
  refine ⟨h.1, ?_⟩
  intro i j hi hj
  have h2 := h.2 i j
  simp only [hi, hj, and_self, if_true] at h2
  rw [← delta_hidden_loop nn.w_hidden_output fwd.1 fwd.2 target dO O H j hj
    (fun k hk => delta_output_loop fwd.2 target O k hk)]
  exact h2

theorem trainSample_b_hidden [Field R] (exp : R → R) (I H O : Nat)
    (nn : NeuralNetwork R) (input target : List R) (hb : nn.b_hidden.length = H) :
    (trainSample exp I H O nn input target).2.b_hidden.length = H ∧
    ∀ j, j < H →
      vget (trainSample exp I H O nn input target).2.b_hidden j =
        vget nn.b_hidden j - LEARNING_RATE *
          specDeltaHid O nn.w_hidden_output
            (forward exp I H O nn input (List.replicate H 0) (List.replicate O 0)).1
            (forward exp I H O nn input (List.replicate H 0) (List.replicate O 0)).2
            target j := by
  let fwd := forward exp I H O nn input (List.replicate H 0) (List.replicate O 0)
  let dO := forLoop O (fun k d => d.set k
    ((vget fwd.2 k - vget target k) * sigmoid_derivative (vget fwd.2 k))) (List.replicate O 0)
  let dH := forLoop H (fun j d => d.set j
      (forLoop O (fun k sum => sum + vget dO k * mget nn.w_hidden_output j k) 0 *
        sigmoid_derivative (vget fwd.1 j))) (List.replicate H 0)
  constructor
  · exact (length_forLoop_set (fun j b => vget b j - LEARNING_RATE * vget dH j)
      nn.b_hidden H).trans hb
  · intro j hj
    have h := vget_forLoop_sub (fun j => LEARNING_RATE * vget dH j) nn.b_hidden H j
      (by omega) hj
    rw [← delta_hidden_loop nn.w_hidden_output fwd.1 fwd.2 target dO O H j hj
      (fun k hk => delta_output_loop fwd.2 target O k hk)]
    exact h

theorem vget_replicate_zero [Zero R] (n k : Nat) : vget (List.replicate n (0 : R)) k = 0 := by
  unfold vget
  by_cases h : k < n
  · rw [List.getD_eq_getElem _ _ (by simpa using h)]; simp
  · rw [List.getD_eq_default _ _ (by simpa using h)]

theorem mget_replicate_zero [Zero R] (n m j k : Nat) :
    mget (List.replicate n (List.replicate m (0 : R))) j k = 0 := by
  unfold mget
  by_cases h : j < n
  · have : (List.replicate n (List.replicate m (0 : R))).getD j [] = List.replicate m 0 := by
      rw [List.getD_eq_getElem _ _ (by simpa using h)]; simp
    rw [this]; exact vget_replicate_zero m k
  · have : (List.replicate n (List.replicate m (0 : R))).getD j [] = [] :=
      List.getD_eq_default _ _ (by simpa using h)
    rw [this]; rfl

theorem wellShaped_zeroNN [Zero R] (I H O : Nat) : WellShaped I H O (zeroNN I H O : NeuralNetwork R) := by
  refine ⟨⟨by simp [zeroNN], ?_⟩, by simp [zeroNN], ⟨by simp [zeroNN], ?_⟩, by simp [zeroNN]⟩
  · intro row hrow
    simp only [zeroNN] at hrow
    rw [List.eq_of_mem_replicate hrow]; simp
  · intro row hrow
    simp only [zeroNN] at hrow
    rw [List.eq_of_mem_replicate hrow]; simp

/-- With all parameters zero every output activation is `sigmoid 0`. -/
theorem forward_zeroNN_output [Field R] (exp : R → R) (I H O : Nat) (input : List R)
    (k : Nat) (hk : k < O) :
    vget (forward exp I H O (zeroNN I H O) input (List.replicate H 0) (List.replicate O 0)).2 k =
      sigmoid exp 0 := by
  rw [forward_output exp I H O _ input _ _ (by simp) k hk]
  simp [zeroNN, vget_replicate_zero, mget_replicate_zero]

/-! ## Writing the weight file -/

theorem range_map_getD {α β : Type} (l : List α) (d : α) (g : α → β) :
    (List.range l.length).map (fun i => g (l.getD i d)) = l.map g := by
  apply List.ext_getElem (by simp)
  intro n h1 h2
  simp only [List.length_map, List.length_range] at h1
  simp [List.getElem?_eq_getElem h1]

theorem forLoop_put (g : Nat → R) (f0 : List R) (n : Nat) :
    forLoop n (fun i f => put true f (g i)) f0 = f0 ++ (List.range n).map g := by
  induction n with
  | zero => simp [forLoop]
  | succ n ih =>
    simp only [forLoop, ih]
    simp [put, List.range_succ]

theorem forLoop_append {α : Type} (h : Nat → List α) (f0 : List α) (n : Nat) :
    forLoop n (fun i f => f ++ h i) f0 = f0 ++ ((List.range n).map h).flatten := by
  induction n with
  | zero => simp [forLoop]
  | succ n ih => simp [forLoop, ih, List.range_succ]

theorem forLoop_put_vec [Zero R] (fmt : R → R) (v f0 : List R) :
    forLoop v.length (fun i f => put true f (fmt (vget v i))) f0 = f0 ++ v.map fmt := by
  rw [forLoop_put]
  exact congrArg _ (range_map_getD v 0 fmt)

theorem forLoop_put_mat [Zero R] (fmt : R → R) (w : List (List R)) (f0 : List R) :
    forLoop w.length (fun i f => forLoop (w.getD i []).length (fun j f =>
      put true f (fmt (mget w i j))) f) f0 = f0 ++ w.flatten.map fmt := by
  have hin : (fun i f => forLoop (w.getD i []).length (fun j f =>
      put true f (fmt (mget w i j))) f) = fun i f => f ++ (w.getD i []).map fmt := by
    funext i f
    exact forLoop_put_vec fmt (w.getD i []) f
  rw [hin, forLoop_append, range_map_getD w [] (fun row => row.map fmt), List.map_flatten]

/-- The lines `saveNN` writes into an opened file: the flat parameter sequence, each number as
printed. -/
theorem saveNN_opened [Zero R] (fmt : R → R) (nn : NeuralNetwork R) :
    saveNN fmt true nn = (some ((flatParams nn).map fmt), ["Network save complete."]) := by
  simp only [saveNN, forLoop_put_vec, forLoop_put_mat, flatParams, List.map_append,
    List.nil_append, if_true, List.append_assoc]

/-! ## Reading the weight file -/

theorem mapAcc_length {α σ : Type} (f : α → σ → α × σ) (l : List α) (s : σ) :
    (mapAcc f l s).1.length = l.length := by
  induction l generalizing s with
  | nil => rfl
  | cons x l ih => simp [mapAcc, ih]

theorem mapAcc_append {α σ : Type} (f : α → σ → α × σ) (a b : List α) (s : σ) :
    mapAcc f (a ++ b) s =
      ((mapAcc f a s).1 ++ (mapAcc f b (mapAcc f a s).2).1, (mapAcc f b (mapAcc f a s).2).2) := by
  induction a generalizing s with
  | nil => rfl
  | cons x a ih => simp [mapAcc, ih]

theorem set_append_length {α : Type} (a b : List α) (x y : α) :
    (a ++ x :: b).set a.length y = a ++ y :: b := by
  induction a with
  | nil => rfl
  | cons z a ih => simp [ih]

theorem getD_append_length {α : Type} (a b : List α) (x d : α) :
    (a ++ x :: b).getD a.length d = x := by
  induction a with
  | nil => rfl
  | cons z a ih => simpa using ih

/-- An index loop that rewrites entry `i` from its old value and a threaded state is the
left-to-right traversal `mapAcc`. -/
theorem forLoop_mapAcc {α σ : Type} (f : α → σ → α × σ) (d : α) (l : List α) (s : σ) (n : Nat)
    (hn : n ≤ l.length) :
    forLoop n (fun i st => (st.1.set i (f (st.1.getD i d) st.2).1, (f (st.1.getD i d) st.2).2))
        (l, s) =
      ((mapAcc f (l.take n) s).1 ++ l.drop n, (mapAcc f (l.take n) s).2) := by
  induction n with
  | zero => simp [forLoop, mapAcc]
  | succ n ih =>
    have hlt : n < l.length := by omega
    have hlen : (mapAcc f (l.take n) s).1.length = n := by
      rw [mapAcc_length]; simp; omega
    simp only [forLoop]
    rw [ih (by omega)]
    have hdrop : l.drop n = l[n] :: l.drop (n + 1) := List.drop_eq_getElem_cons hlt
    have htake : l.take (n + 1) = l.take n ++ [l[n]] := by
      rw [List.take_succ, List.getElem?_eq_getElem hlt]; rfl
    have hget : ((mapAcc f (l.take n) s).1 ++ l.drop n).getD n d = l[n] := by
      rw [hdrop]
      have := getD_append_length (mapAcc f (l.take n) s).1 (l.drop (n + 1)) l[n] d
      rwa [hlen] at this
    have hset : ∀ y, ((mapAcc f (l.take n) s).1 ++ l.drop n).set n y =
        (mapAcc f (l.take n) s).1 ++ y :: l.drop (n + 1) := by
      intro y
      rw [hdrop]
      have := set_append_length (mapAcc f (l.take n) s).1 (l.drop (n + 1)) l[n] y
      rwa [hlen] at this
    simp only [hget, hset]
    rw [htake, mapAcc_append]
    simp [mapAcc]

theorem forLoop_mapAcc_full {α σ : Type} (f : α → σ → α × σ) (d : α) (l : List α) (s : σ) :
    forLoop l.length
        (fun i st => (st.1.set i (f (st.1.getD i d) st.2).1, (f (st.1.getD i d) st.2).2))
        (l, s) = mapAcc f l s := by
  rw [forLoop_mapAcc f d l s l.length le_rfl]
  simp

theorem fill_append (a b s : List R) :
    fill (a ++ b) s = ((fill a s).1 ++ (fill b (fill a s).2).1, (fill b (fill a s).2).2) := by
  simp only [fill, List.length_append, List.length_drop, Prod.mk.injEq]
  constructor
  · by_cases h : s.length ≤ a.length
    · rw [List.take_of_length_le (by omega), List.take_of_length_le h,
        List.drop_append_of_le_length h, List.drop_of_length_le (l := s) h]
      simp [Nat.sub_eq_zero_of_le h]
    · rw [List.take_add, List.drop_of_length_le (l := a) (by omega),
        List.drop_append_eq_append_drop, List.drop_of_length_le (l := a) (by omega)]
      simp
  · rw [List.drop_drop, Nat.add_comm]

theorem fill_cons (x : R) (v s : List R) :
    fill (x :: v) s = (s.head?.getD x :: (fill v s.tail).1, (fill v s.tail).2) := by
  cases s with
  | nil => simp [fill]
  | cons t s => simp [fill]

/-- One extraction stores the next delivered value, or leaves `x` when there is none, and the
stream then delivers the remaining values. -/
theorem extract_values [Zero R] (x : R) (s : Ifstream R) :
    (extract x s).1 = s.values.head?.getD x ∧ (extract x s).2.values = s.values.tail := by
  obtain ⟨rest, f⟩ := s
  cases f with
  | true => simp [extract, Ifstream.values]
  | false =>
    cases rest with
    | nil => simp [extract, Ifstream.values, delivered]
    | cons t rest =>
      cases t with
      | num v => simp [extract, Ifstream.values, delivered]
      | huge v => simp [extract, Ifstream.values, delivered]
      | bad => simp [extract, Ifstream.values, delivered]

theorem mapAcc_extract [Zero R] (v : List R) (s : Ifstream R) :
    (mapAcc extract v s).1 = (fill v s.values).1 ∧
    (mapAcc extract v s).2.values = (fill v s.values).2 := by
  induction v generalizing s with
  | nil => simp [mapAcc, fill]
  | cons x v ih =>
    obtain ⟨h1, h2⟩ := extract_values x s
    obtain ⟨i1, i2⟩ := ih (extract x s).2
    rw [h2] at i1 i2
    simp only [mapAcc, fill_cons, h1, i1, i2, and_self]

theorem mapAcc_mapAcc_extract [Zero R] (w : List (List R)) (s : Ifstream R) :
    (mapAcc (mapAcc extract) w s).1 = (mapAcc fill w s.values).1 ∧
    (mapAcc (mapAcc extract) w s).2.values = (mapAcc fill w s.values).2 := by
  induction w generalizing s with
  | nil => simp [mapAcc]
  | cons row w ih =>
    obtain ⟨h1, h2⟩ := mapAcc_extract row s
    obtain ⟨i1, i2⟩ := ih (mapAcc extract row s).2
    rw [h2] at i1 i2
    simp only [mapAcc, h1, i1, i2, and_self]

theorem delivered_map_num [Zero R] (s : List R) : delivered (s.map Token.num) = s := by
  induction s with
  | nil => rfl
  | cons x s ih => simp [delivered, ih]

theorem mapAcc_fill (w : List (List R)) (s : List R) :
    (mapAcc fill w s).1.flatten = (fill w.flatten s).1 ∧
    (mapAcc fill w s).2 = (fill w.flatten s).2 ∧
    (mapAcc fill w s).1.map List.length = w.map List.length := by
  induction w generalizing s with
  | nil => simp [mapAcc, fill]
  | cons row w ih =>
    obtain ⟨h1, h2, h3⟩ := ih (fill row s).2
    refine ⟨?_, ?_, ?_⟩
    · simp only [mapAcc, List.flatten_cons, h1, fill_append]
    · simp only [mapAcc, List.flatten_cons, h2, fill_append]
    · simp only [mapAcc, List.map_cons, h3]
      simp [fill]
      omega

theorem set_getElem_same {α : Type} (l : List α) (i : Nat) (h : i < l.length) :
    l.set i l[i] = l := by
  apply List.ext_getElem (by simp)
  intro n h1 h2
  rw [List.getElem_set]
  split
  · next h3 => subst h3; rfl
  · rfl

theorem readVec_eq [Zero R] (v : List R) (s : Ifstream R) :
    forLoop v.length (fun i st =>
      let r := extract (vget st.1 i) st.2
      (st.1.set i r.1, r.2)) (v, s) = mapAcc extract v s :=
  forLoop_mapAcc_full extract 0 v s

theorem forLoop_row [Zero R] (i : Nat) (w : List (List R)) (s : Ifstream R)
    (hi : i < w.length) (c : Nat) :
    forLoop c (fun j st =>
      let r := extract (mget st.1 i j) st.2
      (mset st.1 i j r.1, r.2)) (w, s) =
    (w.set i (forLoop c (fun j st =>
        let r := extract (vget st.1 j) st.2
        (st.1.set j r.1, r.2)) (w.getD i [], s)).1,
      (forLoop c (fun j st =>
        let r := extract (vget st.1 j) st.2
        (st.1.set j r.1, r.2)) (w.getD i [], s)).2) := by
  induction c with
  | zero =>
    simp only [forLoop]
    rw [List.getD_eq_getElem _ _ hi, set_getElem_same]
  | succ c ih =>
    simp only [forLoop]
    rw [ih]
    have hget : ∀ row : List R, (w.set i row).getD i [] = row := by
      intro row
      rw [List.getD_eq_getElem _ _ (by simpa using hi)]
      simp
    simp only [mset, mget, vget, hget, List.set_set]

theorem readMat_eq [Zero R] (w : List (List R)) (s : Ifstream R) :
    forLoop w.length (fun i st =>
      forLoop (st.1.getD i []).length (fun j st =>
        let r := extract (mget st.1 i j) st.2
        (mset st.1 i j r.1, r.2)) st) (w, s) = mapAcc (mapAcc extract) w s := by
  have hbody : (fun i (st : List (List R) × Ifstream R) =>
      forLoop (st.1.getD i []).length (fun j st =>
        let r := extract (mget st.1 i j) st.2
        (mset st.1 i j r.1, r.2)) st) =
      fun i st => (st.1.set i (mapAcc extract (st.1.getD i []) st.2).1,
        (mapAcc extract (st.1.getD i []) st.2).2) := by
    funext i st
    obtain ⟨w, s⟩ := st
    by_cases hi : i < w.length
    · rw [forLoop_row i w s hi, readVec_eq]
    · have h1 : w.getD i [] = [] := List.getD_eq_default _ _ (by omega)
      simp only [h1, List.length_nil, forLoop, mapAcc]
      rw [List.set_eq_of_length_le (by omega)]
  rw [hbody]
  exact forLoop_mapAcc_full (mapAcc extract) [] w s

/-- The store after `loadNN` on an opened file, field by field, in terms of the values that
the extractions deliver. -/
theorem loadNN_opened [Zero R] (filename : String) (tokens : List (Token R))
    (nn : NeuralNetwork R) :
    loadNN filename (some tokens) nn =
      ({ w_input_hidden := (mapAcc fill nn.w_input_hidden (delivered tokens)).1
         b_hidden := (fill nn.b_hidden (mapAcc fill nn.w_input_hidden (delivered tokens)).2).1
         w_hidden_output := (mapAcc fill nn.w_hidden_output
           (fill nn.b_hidden (mapAcc fill nn.w_input_hidden (delivered tokens)).2).2).1
         b_output := (fill nn.b_output (mapAcc fill nn.w_hidden_output
           (fill nn.b_hidden (mapAcc fill nn.w_input_hidden (delivered tokens)).2).2).2).1 },
       ["Network loaded successfully"]) := by
  have e0 : (⟨tokens, false⟩ : Ifstream R).values = delivered tokens := by
    simp [Ifstream.values]
  obtain ⟨a1, a2⟩ := mapAcc_mapAcc_extract nn.w_input_hidden ⟨tokens, false⟩
  rw [e0] at a1 a2
  obtain ⟨b1, b2⟩ := mapAcc_extract nn.b_hidden
    (mapAcc (mapAcc extract) nn.w_input_hidden ⟨tokens, false⟩).2
  rw [a2] at b1 b2
  obtain ⟨c1, c2⟩ := mapAcc_mapAcc_extract nn.w_hidden_output
    (mapAcc extract nn.b_hidden (mapAcc (mapAcc extract) nn.w_input_hidden ⟨tokens, false⟩).2).2
  rw [b2] at c1 c2
  obtain ⟨d1, _⟩ := mapAcc_extract nn.b_output
    (mapAcc (mapAcc extract) nn.w_hidden_output (mapAcc extract nn.b_hidden
      (mapAcc (mapAcc extract) nn.w_input_hidden ⟨tokens, false⟩).2).2).2
  rw [c2] at d1
  simp only [loadNN, readMat_eq, readVec_eq, a1, b1, c1, d1]

/-- After `loadNN` on an opened file the flat parameter sequence is the old one with the
delivered values written over its prefix; the shape of every entity is unchanged. -/
theorem loadNN_flat [Zero R] (filename : String) (tokens : List (Token R))
    (nn : NeuralNetwork R) :
    flatParams (loadNN filename (some tokens) nn).1 =
      (delivered tokens).take (flatParams nn).length ++
        (flatParams nn).drop (delivered tokens).length ∧
    (loadNN filename (some tokens) nn).1.w_input_hidden.map List.length =
      nn.w_input_hidden.map List.length ∧
    (loadNN filename (some tokens) nn).1.b_hidden.length = nn.b_hidden.length ∧
    (loadNN filename (some tokens) nn).1.w_hidden_output.map List.length =
      nn.w_hidden_output.map List.length ∧
    (loadNN filename (some tokens) nn).1.b_output.length = nn.b_output.length := by
  rw [loadNN_opened]
  generalize delivered tokens = s
  have h1 := mapAcc_fill nn.w_input_hidden s
  have h2 := mapAcc_fill nn.w_hidden_output (fill nn.b_hidden (mapAcc fill nn.w_input_hidden s).2).2
  refine ⟨?_, h1.2.2, ?_, h2.2.2, ?_⟩
  · have : s.take (flatParams nn).length ++ (flatParams nn).drop s.length =
        (fill (flatParams nn) s).1 := rfl
    rw [this]
    rw [h1.2.1] at h2
    simp only [flatParams, fill_append, List.flatten_append, h1.1, h1.2.1, h2.1, h2.2.1,
      List.append_assoc]
  · simp [fill]; omega
  · simp [fill]; omega

/-- The same for a file of numerals within range: the numbers of the file are written over
the prefix. -/
theorem loadNN_flat_num [Zero R] (filename : String) (s : List R) (nn : NeuralNetwork R) :
    flatParams (loadNN filename (some (s.map Token.num)) nn).1 =
      s.take (flatParams nn).length ++ (flatParams nn).drop s.length := by
  rw [(loadNN_flat filename _ nn).1, delivered_map_num]

/-! ## Positions in the flat parameter order -/

theorem IsMat_cons {n m : Nat} {row : List R} {w : List (List R)} (h : IsMat n m (row :: w)) :
    row.length = m ∧ IsMat (n - 1) m w ∧ n = (n - 1) + 1 := by
  obtain ⟨h1, h2⟩ := h
  simp only [List.length_cons] at h1
  refine ⟨h2 row (by simp), ⟨by omega, fun r hr => h2 r (by simp [hr])⟩, by omega⟩

theorem IsMat_flatten_length {n m : Nat} {w : List (List R)} (h : IsMat n m w) :
    w.flatten.length = n * m := by
  induction w generalizing n with
  | nil => obtain ⟨h1, _⟩ := h; simp at h1; subst h1; simp
  | cons row w ih =>
    obtain ⟨hr, hw, hn⟩ := IsMat_cons h
    have e : n * m = (n - 1) * m + m := by
      conv_lhs => rw [hn]
      exact Nat.succ_mul _ _
    rw [List.flatten_cons, List.length_append, ih hw, hr, e, Nat.add_comm]

theorem flatten_getElem? [Zero R] {n m : Nat} {w : List (List R)} (h : IsMat n m w)
    (i j : Nat) (hi : i < n) (hj : j < m) :
    w.flatten[i * m + j]? = some (mget w i j) := by
  induction w generalizing n i with
  | nil => obtain ⟨h1, _⟩ := h; simp at h1; omega
  | cons row w ih =>
    obtain ⟨hr, hw, hn⟩ := IsMat_cons h
    cases i with
    | zero =>
      simp only [Nat.zero_mul, Nat.zero_add, List.flatten_cons, mget, List.getD_cons_zero]
      rw [List.getElem?_append_left (by omega), List.getD_eq_getElem _ _ (by omega),
        List.getElem?_eq_getElem (by omega)]
    | succ i =>
      have hidx : (i + 1) * m + j - row.length = i * m + j := by
        rw [hr, Nat.succ_mul]; omega
      rw [List.flatten_cons, List.getElem?_append_right (by rw [hr, Nat.succ_mul]; omega), hidx,
        ih hw i (by omega)]
      simp [mget]

theorem IsMat_of_map_length {n m : Nat} {w w' : List (List R)} (h : IsMat n m w)
    (hl : w'.map List.length = w.map List.length) : IsMat n m w' := by
  obtain ⟨h1, h2⟩ := h
  constructor
  · have := congrArg List.length hl
    simp only [List.length_map] at this
    omega
  · intro row hrow
    have hmem : row.length ∈ w'.map List.length := List.mem_map_of_mem _ hrow
    rw [hl, List.mem_map] at hmem
    obtain ⟨r0, hr0, hlen⟩ := hmem
    rw [← hlen]; exact h2 r0 hr0

theorem flatParams_length {I H O : Nat} {nn : NeuralNetwork R} (h : WellShaped I H O nn) :
    (flatParams nn).length = I * H + H + H * O + O := by
  obtain ⟨h1, h2, h3, h4⟩ := h
  simp [flatParams, IsMat_flatten_length h1, IsMat_flatten_length h3, h2, h4]
  omega

/-- Where each entity sits in the flat order. -/
theorem flatParams_getElem? [Zero R] {I H O : Nat} {nn : NeuralNetwork R}
    (h : WellShaped I H O nn) :
    (∀ i < I, ∀ j < H, (flatParams nn)[i * H + j]? = some (mget nn.w_input_hidden i j)) ∧
    (∀ j < H, (flatParams nn)[I * H + j]? = some (vget nn.b_hidden j)) ∧
    (∀ j < H, ∀ k < O,
      (flatParams nn)[I * H + H + j * O + k]? = some (mget nn.w_hidden_output j k)) ∧
    (∀ k < O, (flatParams nn)[I * H + H + H * O + k]? = some (vget nn.b_output k)) := by
  obtain ⟨h1, h2, h3, h4⟩ := h
  have l1 := IsMat_flatten_length h1
  have l3 := IsMat_flatten_length h3
  have hlt : ∀ i < I, ∀ j < H, i * H + j < I * H := by
    intro i hi j hj
    calc i * H + j < i * H + H := by omega
      _ = (i + 1) * H := by rw [Nat.succ_mul]
      _ ≤ I * H := Nat.mul_le_mul_right H hi
  have hlt2 : ∀ j < H, ∀ k < O, j * O + k < H * O := by
    intro j hj k hk
    calc j * O + k < j * O + O := by omega
      _ = (j + 1) * O := by rw [Nat.succ_mul]
      _ ≤ H * O := Nat.mul_le_mul_right O hj
  refine ⟨?_, ?_, ?_, ?_⟩
  · intro i hi j hj
    have := hlt i hi j hj
    simp only [flatParams, List.append_assoc]
    rw [List.getElem?_append_left (by omega)]
    exact flatten_getElem? h1 i j hi hj
  · intro j hj
    simp only [flatParams, List.append_assoc]
    rw [List.getElem?_append_right (by omega), List.getElem?_append_left (by omega), l1]
    simp only [Nat.add_sub_cancel_left, vget]
    rw [List.getD_eq_getElem _ _ (by omega), List.getElem?_eq_getElem (by omega)]
  · intro j hj k hk
    have := hlt2 j hj k hk
    simp only [flatParams, List.append_assoc]
    rw [List.getElem?_append_right (by omega), List.getElem?_append_right (by omega),
      List.getElem?_append_left (by omega), l1, h2]
    have : I * H + H + j * O + k - I * H - H = j * O + k := by omega
    rw [this]
    exact flatten_getElem? h3 j k hj hk
  · intro k hk
    simp only [flatParams, List.append_assoc]
    rw [List.getElem?_append_right (by omega), List.getElem?_append_right (by omega),
      List.getElem?_append_right (by omega), l1, h2, l3]
    have : I * H + H + H * O + k - I * H - H - H * O = k := by omega
    rw [this, vget, List.getD_eq_getElem _ _ (by omega), List.getElem?_eq_getElem (by omega)]

/-! ## Save followed by load -/

theorem flatParams_zeroNN [Zero R] (I H O : Nat) :
    flatParams (zeroNN I H O : NeuralNetwork R) = List.replicate (I * H + H + H * O + O) 0 := by
  rw [List.eq_replicate_iff]
  refine ⟨flatParams_length (wellShaped_zeroNN I H O), ?_⟩
  intro x hx
  simp only [flatParams, zeroNN, List.mem_append, List.mem_flatten] at hx
  rcases hx with ((⟨row, hrow, hx⟩ | hx) | ⟨row, hrow, hx⟩) | hx
  · rw [List.eq_of_mem_replicate hrow] at hx; exact List.eq_of_mem_replicate hx
  · exact List.eq_of_mem_replicate hx
  · rw [List.eq_of_mem_replicate hrow] at hx; exact List.eq_of_mem_replicate hx
  · exact List.eq_of_mem_replicate hx

theorem wellShaped_loadNN [Zero R] (filename : String) (tokens : List (Token R))
    {I H O : Nat} {nn : NeuralNetwork R} (h : WellShaped I H O nn) :
    WellShaped I H O (loadNN filename (some tokens) nn).1 := by
  obtain ⟨h1, h2, h3, h4⟩ := h
  obtain ⟨_, g1, g2, g3, g4⟩ := loadNN_flat filename tokens nn
  exact ⟨IsMat_of_map_length h1 g1, g2.trans h2, IsMat_of_map_length h3 g3, g4.trans h4⟩

/-- Loading what `saveNN` wrote, into a store of the same shape: the flat sequence of the
loaded store is the saved one, each number as printed. -/
theorem loadNN_saveNN_flat [Zero R] (fmt : R → R) (filename : String) {I H O : Nat}
    {saved nn : NeuralNetwork R} (hs : WellShaped I H O saved) (hn : WellShaped I H O nn) :
    flatParams (loadNN filename (written (saveNN fmt true saved).1) nn).1 =
      (flatParams saved).map fmt := by
  rw [saveNN_opened]
  show flatParams (loadNN filename (some (((flatParams saved).map fmt).map Token.num)) nn).1 = _
  rw [loadNN_flat_num, flatParams_length hn]
  rw [List.take_of_length_le (by simp [flatParams_length hs]),
    List.drop_of_length_le (by simp [flatParams_length hs, flatParams_length hn])]
  simp

theorem streamRound6_zero : streamRound6 0 = 0 := by simp [streamRound6]

theorem streamRound6_example : streamRound6 (1048577 / 1048576) = 1 := by
  have hlog : Int.log 10 |(1048577 / 1048576 : ℚ)| = 0 := by
    rw [abs_of_pos (by norm_num), Int.log_of_one_le_right _ (by norm_num)]
    have : ⌊(1048577 / 1048576 : ℚ)⌋₊ = 1 := by
      rw [Nat.floor_eq_iff (by norm_num)]
      norm_num
    rw [this]; simp
  have hfloor : ⌊(1048577 / 1048576 : ℚ) * 10 ^ (5 : ℤ)⌋ = 100000 := by
    rw [Int.floor_eq_iff]
    norm_num
  unfold streamRound6
  rw [if_neg (by norm_num)]
  simp only [hlog, sub_zero]
  unfold roundHalfEven
  simp only [hfloor]
  norm_num

/-! ## The loss as a differentiable function of the parameters (real arithmetic) -/

theorem hasDerivAt_sigmoid (z : ℝ) :
    HasDerivAt (sigmoid Real.exp) (sigmoid Real.exp z * (1 - sigmoid Real.exp z)) z := by
  have hpos : (1 + Real.exp (-z)) ≠ 0 := by have := Real.exp_pos (-z); positivity
  have h1 : HasDerivAt (fun z : ℝ => Real.exp (-z)) (Real.exp (-z) * (-1)) z :=
    (Real.hasDerivAt_exp (-z)).comp z (hasDerivAt_neg z)
  have h2 : HasDerivAt (fun z : ℝ => 1 + Real.exp (-z)) (Real.exp (-z) * (-1)) z :=
    h1.const_add 1
  have h3 := h2.inv hpos
  have hfun : sigmoid Real.exp = fun z : ℝ => (1 + Real.exp (-z))⁻¹ := by
    funext z; simp [sigmoid]
  rw [hfun]
  convert h3 using 1
  field_simp
  ring

/-- Chain rule through the network: when every parameter is a differentiable function of a
real `v`, so is the loss returned by `trainSample`. -/
theorem hasDerivAt_loss (I H O : Nat) (nnv : ℝ → NeuralNetwork ℝ) (input target : List ℝ)
    (v0 : ℝ) (dW1 dW2 : Nat → Nat → ℝ) (db1 db2 : Nat → ℝ)
    (h1 : ∀ i < I, ∀ j < H, HasDerivAt (fun v => mget (nnv v).w_input_hidden i j) (dW1 i j) v0)
    (h2 : ∀ j < H, HasDerivAt (fun v => vget (nnv v).b_hidden j) (db1 j) v0)
    (h3 : ∀ j < H, ∀ k < O,
      HasDerivAt (fun v => mget (nnv v).w_hidden_output j k) (dW2 j k) v0)
    (h4 : ∀ k < O, HasDerivAt (fun v => vget (nnv v).b_output k) (db2 k) v0)
    (hid out dhid dout : Nat → ℝ)
    (hhid : ∀ j, hid j = vget (forward Real.exp I H O (nnv v0) input (List.replicate H 0)
      (List.replicate O 0)).1 j)
    (hout : ∀ k, out k = vget (forward Real.exp I H O (nnv v0) input (List.replicate H 0)
      (List.replicate O 0)).2 k)
    (hdhid : ∀ j, dhid j = hid j * (1 - hid j) *
      (db1 j + ∑ i in Finset.range I, vget input i * dW1 i j))
    (hdout : ∀ k, dout k = out k * (1 - out k) * (db2 k + ∑ j in Finset.range H,
      (dhid j * mget (nnv v0).w_hidden_output j k + hid j * dW2 j k))) :
    HasDerivAt (fun v => (trainSample Real.exp I H O (nnv v) input target).1)
      ((∑ k in Finset.range O, 2 * (out k - vget target k) * dout k) / (O : ℝ)) v0 := by
  -- hidden activations
  have Hhid : ∀ j < H, HasDerivAt (fun v => vget (forward Real.exp I H O (nnv v) input
      (List.replicate H 0) (List.replicate O 0)).1 j) (dhid j) v0 := by
    intro j hj
    have hfun : (fun v => vget (forward Real.exp I H O (nnv v) input
        (List.replicate H 0) (List.replicate O 0)).1 j) =
        fun v => sigmoid Real.exp (vget (nnv v).b_hidden j +
          ∑ i in Finset.range I, vget input i * mget (nnv v).w_input_hidden i j) := by
      funext v
      exact forward_hidden Real.exp I H O (nnv v) input _ _ (by simp) j hj
    have hz : HasDerivAt (fun v => vget (nnv v).b_hidden j +
        ∑ i in Finset.range I, vget input i * mget (nnv v).w_input_hidden i j)
        (db1 j + ∑ i in Finset.range I, vget input i * dW1 i j) v0 :=
      (h2 j hj).add (HasDerivAt.sum (fun i hi =>
        (h1 i (Finset.mem_range.mp hi) j hj).const_mul (vget input i)))
    have hc := (hasDerivAt_sigmoid _).comp v0 hz
    rw [hfun]
    have hval : hid j = sigmoid Real.exp (vget (nnv v0).b_hidden j +
        ∑ i in Finset.range I, vget input i * mget (nnv v0).w_input_hidden i j) := by
      rw [hhid j]
      exact forward_hidden Real.exp I H O (nnv v0) input _ _ (by simp) j hj
    rw [hdhid j, hval]
    exact hc
  -- output activations
  have Hout : ∀ k < O, HasDerivAt (fun v => vget (forward Real.exp I H O (nnv v) input
      (List.replicate H 0) (List.replicate O 0)).2 k) (dout k) v0 := by
    intro k hk
    have hfun : (fun v => vget (forward Real.exp I H O (nnv v) input
        (List.replicate H 0) (List.replicate O 0)).2 k) =
        fun v => sigmoid Real.exp (vget (nnv v).b_output k + ∑ j in Finset.range H,
          vget (forward Real.exp I H O (nnv v) input (List.replicate H 0)
            (List.replicate O 0)).1 j * mget (nnv v).w_hidden_output j k) := by
      funext v
      exact forward_output Real.exp I H O (nnv v) input _ _ (by simp) k hk
    have hz : HasDerivAt (fun v => vget (nnv v).b_output k + ∑ j in Finset.range H,
          vget (forward Real.exp I H O (nnv v) input (List.replicate H 0)
            (List.replicate O 0)).1 j * mget (nnv v).w_hidden_output j k)
        (db2 k + ∑ j in Finset.range H,
          (dhid j * mget (nnv v0).w_hidden_output j k + hid j * dW2 j k)) v0 := by
      refine (h4 k hk).add (HasDerivAt.sum (fun j hj => ?_))
      have := (Hhid j (Finset.mem_range.mp hj)).mul (h3 j (Finset.mem_range.mp hj) k hk)
      rw [← hhid j] at this
      exact this
    have hc := (hasDerivAt_sigmoid _).comp v0 hz
    rw [hfun]
    have hval : out k = sigmoid Real.exp (vget (nnv v0).b_output k + ∑ j in Finset.range H,
          vget (forward Real.exp I H O (nnv v0) input (List.replicate H 0)
            (List.replicate O 0)).1 j * mget (nnv v0).w_hidden_output j k) := by
      rw [hout k]
      exact forward_output Real.exp I H O (nnv v0) input _ _ (by simp) k hk
    rw [hdout k, hval]
    exact hc
  -- the loss
  have hfun : (fun v => (trainSample Real.exp I H O (nnv v) input target).1) =
      fun v => (∑ k in Finset.range O,
        (vget (forward Real.exp I H O (nnv v) input (List.replicate H 0)
          (List.replicate O 0)).2 k - vget target k) *
        (vget (forward Real.exp I H O (nnv v) input (List.replicate H 0)
          (List.replicate O 0)).2 k - vget target k)) / (O : ℝ) := by
    funext v
    rw [trainSample_loss, loss_eq, (forward_length Real.exp I H O (nnv v) input _ _).2]
    simp
  rw [hfun]
  refine HasDerivAt.div_const ?_ _
  have hsum := HasDerivAt.sum (u := Finset.range O) (fun k hk =>
    ((Hout k (Finset.mem_range.mp hk)).sub_const (vget target k)).mul
      ((Hout k (Finset.mem_range.mp hk)).sub_const (vget target k)))
  convert hsum using 1
  refine Finset.sum_congr rfl (fun k _ => ?_)
  rw [← hout k]
  ring

theorem set_vget_same [Zero R] (b : List R) (c : Nat) (hc : c < b.length) :
    b.set c (vget b c) = b := by
  rw [vget, List.getD_eq_getElem _ _ hc, set_getElem_same]

theorem mset_mget_same [Zero R] {n m : Nat} {w : List (List R)} (hw : IsMat n m w)
    (a c : Nat) (ha : a < n) (hc : c < m) : mset w a c (mget w a c) = w := by
  obtain ⟨h1, h2⟩ := hw
  have hrow : (w.getD a []).length = m := by
    rw [List.getD_eq_getElem _ _ (by omega)]
    exact h2 _ (List.getElem_mem _)
  unfold mset mget
  have := set_vget_same (w.getD a []) c (by omega)
  rw [vget] at this
  rw [this, List.getD_eq_getElem _ _ (by omega), set_getElem_same]

/-- Partial derivative of the returned loss with respect to `b2[c]`. -/
theorem hasDerivAt_loss_b_output (I H O : Nat) (nn : NeuralNetwork ℝ) (input target : List ℝ)
    (hnn : WellShaped I H O nn) (c : Nat) (hc : c < O) :
    HasDerivAt (fun v => (trainSample Real.exp I H O
        { nn with b_output := nn.b_output.set c v } input target).1)
      (2 / (O : ℝ) * specDeltaOut (forward Real.exp I H O nn input (List.replicate H 0)
        (List.replicate O 0)).2 target c) (vget nn.b_output c) := by
  obtain ⟨s1, s2, s3, s4⟩ := hnn
  have hnn0 : ({ nn with b_output := nn.b_output.set c (vget nn.b_output c) } :
      NeuralNetwork ℝ) = nn := by
    rw [set_vget_same _ _ (by omega)]
  have h := hasDerivAt_loss I H O (fun v => { nn with b_output := nn.b_output.set c v })
    input target (vget nn.b_output c) (fun _ _ => 0) (fun _ _ => 0) (fun _ => 0)
    (fun k => if k = c then 1 else 0)
    (fun i _ j _ => by dsimp only; exact hasDerivAt_const _ _)
    (fun j _ => by dsimp only; exact hasDerivAt_const _ _)
    (fun j _ k _ => by dsimp only; exact hasDerivAt_const _ _)
    (fun k _ => by
      simp only [vget_set _ _ _ _ (show c < nn.b_output.length by omega)]
      by_cases hk : k = c
      · simp only [hk, if_true]; exact hasDerivAt_id _
      · simp only [hk, if_false]; exact hasDerivAt_const _ _)
    (fun j => vget (forward Real.exp I H O nn input (List.replicate H 0)
      (List.replicate O 0)).1 j)
    (fun k => vget (forward Real.exp I H O nn input (List.replicate H 0)
      (List.replicate O 0)).2 k)
    (fun _ => 0)
    (fun k => vget (forward Real.exp I H O nn input (List.replicate H 0)
        (List.replicate O 0)).2 k *
      (1 - vget (forward Real.exp I H O nn input (List.replicate H 0)
        (List.replicate O 0)).2 k) * (if k = c then 1 else 0))
    (fun j => by simp only []; rw [hnn0]) (fun k => by simp only []; rw [hnn0])
    (fun j => by simp) (fun k => by simp)
  convert h using 1
  simp only [mul_ite, mul_one, mul_zero]
  rw [Finset.sum_ite_eq' (Finset.range O) c, if_pos (Finset.mem_range.mpr hc), specDeltaOut]
  ring

/-- Partial derivative of the returned loss with respect to `W2[a][c]`. -/
theorem hasDerivAt_loss_w_hidden_output (I H O : Nat) (nn : NeuralNetwork ℝ)
    (input target : List ℝ) (hnn : WellShaped I H O nn) (a c : Nat) (ha : a < H) (hc : c < O) :
    HasDerivAt (fun v => (trainSample Real.exp I H O
        { nn with w_hidden_output := mset nn.w_hidden_output a c v } input target).1)
      (2 / (O : ℝ) * (specDeltaOut (forward Real.exp I H O nn input (List.replicate H 0) (List.replicate O 0)).2 target c * vget (forward Real.exp I H O nn input (List.replicate H 0) (List.replicate O 0)).1 a))
      (mget nn.w_hidden_output a c) := by
  obtain ⟨s1, s2, s3, s4⟩ := hnn
  have hnn0 : ({ nn with
      w_hidden_output := mset nn.w_hidden_output a c (mget nn.w_hidden_output a c) } :
      NeuralNetwork ℝ) = nn := by
    rw [mset_mget_same s3 a c ha hc]
  have h := hasDerivAt_loss I H O
    (fun v => { nn with w_hidden_output := mset nn.w_hidden_output a c v })
    input target (mget nn.w_hidden_output a c) (fun _ _ => 0)
    (fun j k => if j = a ∧ k = c then 1 else 0) (fun _ => 0) (fun _ => 0)
    (fun i _ j _ => by dsimp only; exact hasDerivAt_const _ _)
    (fun j _ => by dsimp only; exact hasDerivAt_const _ _)
    (fun j _ k _ => by
      simp only [mget_mset s3 a c _ ha hc]
      by_cases hjk : j = a ∧ k = c
      · simp only [hjk, and_self, if_true]; exact hasDerivAt_id _
      · simp only [hjk, if_false]; exact hasDerivAt_const _ _)
    (fun k _ => by dsimp only; exact hasDerivAt_const _ _)
    (fun j => vget (forward Real.exp I H O nn input (List.replicate H 0) (List.replicate O 0)).1 j) (fun k => vget (forward Real.exp I H O nn input (List.replicate H 0) (List.replicate O 0)).2 k) (fun _ => 0)
    (fun k => vget (forward Real.exp I H O nn input (List.replicate H 0) (List.replicate O 0)).2 k * (1 - vget (forward Real.exp I H O nn input (List.replicate H 0) (List.replicate O 0)).2 k) * (if k = c then vget (forward Real.exp I H O nn input (List.replicate H 0) (List.replicate O 0)).1 a else 0))
    (fun j => by simp only []; rw [hnn0]) (fun k => by simp only []; rw [hnn0])
    (fun j => by simp)
    (fun k => by
      by_cases hk : k = c
      · simp [hk, Finset.sum_ite_eq', ha]
      · simp [hk])
  convert h using 1
  simp only [mul_ite, mul_zero]
  rw [Finset.sum_ite_eq' (Finset.range O) c, if_pos (Finset.mem_range.mpr hc), specDeltaOut]
  ring

/-- Partial derivative of the returned loss with respect to `b1[c]`. -/
theorem hasDerivAt_loss_b_hidden (I H O : Nat) (nn : NeuralNetwork ℝ) (input target : List ℝ)
    (hnn : WellShaped I H O nn) (c : Nat) (hc : c < H) :
    HasDerivAt (fun v => (trainSample Real.exp I H O
        { nn with b_hidden := nn.b_hidden.set c v } input target).1)
      (2 / (O : ℝ) * specDeltaHid O nn.w_hidden_output (forward Real.exp I H O nn input (List.replicate H 0) (List.replicate O 0)).1 (forward Real.exp I H O nn input (List.replicate H 0) (List.replicate O 0)).2 target c)
      (vget nn.b_hidden c) := by
  obtain ⟨s1, s2, s3, s4⟩ := hnn
  have hnn0 : ({ nn with b_hidden := nn.b_hidden.set c (vget nn.b_hidden c) } :
      NeuralNetwork ℝ) = nn := by
    rw [set_vget_same _ _ (by omega)]
  have h := hasDerivAt_loss I H O (fun v => { nn with b_hidden := nn.b_hidden.set c v })
    input target (vget nn.b_hidden c) (fun _ _ => 0) (fun _ _ => 0)
    (fun j => if j = c then 1 else 0) (fun _ => 0)
    (fun i _ j _ => by dsimp only; exact hasDerivAt_const _ _)
    (fun j _ => by
      simp only [vget_set _ _ _ _ (show c < nn.b_hidden.length by omega)]
      by_cases hj : j = c
      · simp only [hj, if_true]; exact hasDerivAt_id _
      · simp only [hj, if_false]; exact hasDerivAt_const _ _)
    (fun j _ k _ => by dsimp only; exact hasDerivAt_const _ _)
    (fun k _ => by dsimp only; exact hasDerivAt_const _ _)
    (fun j => vget (forward Real.exp I H O nn input (List.replicate H 0) (List.replicate O 0)).1 j) (fun k => vget (forward Real.exp I H O nn input (List.replicate H 0) (List.replicate O 0)).2 k)
    (fun j => if j = c then vget (forward Real.exp I H O nn input (List.replicate H 0) (List.replicate O 0)).1 c * (1 - vget (forward Real.exp I H O nn input (List.replicate H 0) (List.replicate O 0)).1 c) else 0)
    (fun k => vget (forward Real.exp I H O nn input (List.replicate H 0) (List.replicate O 0)).2 k * (1 - vget (forward Real.exp I H O nn input (List.replicate H 0) (List.replicate O 0)).2 k) *
      (vget (forward Real.exp I H O nn input (List.replicate H 0) (List.replicate O 0)).1 c * (1 - vget (forward Real.exp I H O nn input (List.replicate H 0) (List.replicate O 0)).1 c) * mget nn.w_hidden_output c k))
    (fun j => by simp only []; rw [hnn0]) (fun k => by simp only []; rw [hnn0])
    (fun j => by
      by_cases hj : j = c
      · simp [hj]
      · simp [hj])
    (fun k => by simp [Finset.sum_ite_eq', hc])
  convert h using 1
  rw [specDeltaHid, div_eq_mul_inv, div_eq_mul_inv]
  simp only [Finset.sum_mul, Finset.mul_sum]
  refine Finset.sum_congr rfl (fun k _ => ?_)
  simp only [specDeltaOut]
  ring

/-- Partial derivative of the returned loss with respect to `W1[a][c]`. -/
theorem hasDerivAt_loss_w_input_hidden (I H O : Nat) (nn : NeuralNetwork ℝ)
    (input target : List ℝ) (hnn : WellShaped I H O nn) (a c : Nat) (ha : a < I) (hc : c < H) :
    HasDerivAt (fun v => (trainSample Real.exp I H O
        { nn with w_input_hidden := mset nn.w_input_hidden a c v } input target).1)
      (2 / (O : ℝ) * (specDeltaHid O nn.w_hidden_output (forward Real.exp I H O nn input (List.replicate H 0) (List.replicate O 0)).1 (forward Real.exp I H O nn input (List.replicate H 0) (List.replicate O 0)).2 target c * vget input a))
      (mget nn.w_input_hidden a c) := by
  obtain ⟨s1, s2, s3, s4⟩ := hnn
  have hnn0 : ({ nn with
      w_input_hidden := mset nn.w_input_hidden a c (mget nn.w_input_hidden a c) } :
      NeuralNetwork ℝ) = nn := by
    rw [mset_mget_same s1 a c ha hc]
  have h := hasDerivAt_loss I H O
    (fun v => { nn with w_input_hidden := mset nn.w_input_hidden a c v })
    input target (mget nn.w_input_hidden a c)
    (fun i j => if i = a ∧ j = c then 1 else 0) (fun _ _ => 0) (fun _ => 0) (fun _ => 0)
    (fun i _ j _ => by
      simp only [mget_mset s1 a c _ ha hc]
      by_cases hij : i = a ∧ j = c
      · simp only [hij, and_self, if_true]; exact hasDerivAt_id _
      · simp only [hij, if_false]; exact hasDerivAt_const _ _)
    (fun j _ => by dsimp only; exact hasDerivAt_const _ _)
    (fun j _ k _ => by dsimp only; exact hasDerivAt_const _ _)
    (fun k _ => by dsimp only; exact hasDerivAt_const _ _)
    (fun j => vget (forward Real.exp I H O nn input (List.replicate H 0) (List.replicate O 0)).1 j) (fun k => vget (forward Real.exp I H O nn input (List.replicate H 0) (List.replicate O 0)).2 k)
    (fun j => if j = c then vget (forward Real.exp I H O nn input (List.replicate H 0) (List.replicate O 0)).1 c * (1 - vget (forward Real.exp I H O nn input (List.replicate H 0) (List.replicate O 0)).1 c) * vget input a else 0)
    (fun k => vget (forward Real.exp I H O nn input (List.replicate H 0) (List.replicate O 0)).2 k * (1 - vget (forward Real.exp I H O nn input (List.replicate H 0) (List.replicate O 0)).2 k) *
      (vget (forward Real.exp I H O nn input (List.replicate H 0) (List.replicate O 0)).1 c * (1 - vget (forward Real.exp I H O nn input (List.replicate H 0) (List.replicate O 0)).1 c) * vget input a * mget nn.w_hidden_output c k))
    (fun j => by simp only []; rw [hnn0]) (fun k => by simp only []; rw [hnn0])
    (fun j => by
      by_cases hj : j = c
      · simp [hj, Finset.sum_ite_eq', ha]
      · simp [hj])
    (fun k => by simp [Finset.sum_ite_eq', hc])
  convert h using 1
  rw [specDeltaHid, div_eq_mul_inv, div_eq_mul_inv]
  simp only [Finset.sum_mul, Finset.mul_sum]
  refine Finset.sum_congr rfl (fun k _ => ?_)
  simp only [specDeltaOut]
  ring

/-! ## Claims -/

/-- C1: for every parameter set of shape `(I, H, O)` and every input of length `I`, `forward`
leaves `hidden[j] = 1/(1+e^(-(b1[j] + Σ_i input[i]*W1[i][j])))` for every hidden unit `j` and
`output[k] = 1/(1+e^(-(b2[k] + Σ_j hidden[j]*W2[j][k])))` for every output unit `k`; the buffers
keep their lengths. -/
theorem C1_forward_closed_form [Field R] (exp : R → R) (I H O : Nat) (nn : NeuralNetwork R)
    (input hidden output : List R) (_hnn : WellShaped I H O nn) (_hin : input.length = I)
    (hh : hidden.length = H) (ho : output.length = O) :
    (∀ j < H, vget (forward exp I H O nn input hidden output).1 j =
      1 / (1 + exp (-(vget nn.b_hidden j +
        ∑ i in Finset.range I, vget input i * mget nn.w_input_hidden i j)))) ∧
    (∀ k < O, vget (forward exp I H O nn input hidden output).2 k =
      1 / (1 + exp (-(vget nn.b_output k + ∑ j in Finset.range H,
        vget (forward exp I H O nn input hidden output).1 j * mget nn.w_hidden_output j k)))) ∧
    (forward exp I H O nn input hidden output).1.length = H ∧
    (forward exp I H O nn input hidden output).2.length = O := by
  refine ⟨fun j hj => ?_, fun k hk => ?_, ?_, ?_⟩
  · exact forward_hidden exp I H O nn input hidden output (by omega) j hj
  · exact forward_output exp I H O nn input hidden output (by omega) k hk
  · exact (forward_length exp I H O nn input hidden output).1.trans hh
  · exact (forward_length exp I H O nn input hidden output).2.trans ho

/-- Witness for C1: the all-zero store of shape `(2, 2, 1)` on input `[1, 0]`. -/
theorem C1_forward_closed_form_witness :
    WellShaped 2 2 1 (zeroNN 2 2 1 : NeuralNetwork ℝ) ∧
    vget (forward Real.exp 2 2 1 (zeroNN 2 2 1) [1, 0] [0, 0] [0]).1 1 =
      1 / (1 + Real.exp (-(vget (zeroNN 2 2 1 : NeuralNetwork ℝ).b_hidden 1 +
        ∑ i in Finset.range 2,
          vget [1, 0] i * mget (zeroNN 2 2 1 : NeuralNetwork ℝ).w_input_hidden i 1))) :=
  ⟨wellShaped_zeroNN 2 2 1,
   (C1_forward_closed_form Real.exp 2 2 1 (zeroNN 2 2 1) [1, 0] [0, 0] [0]
      (wellShaped_zeroNN 2 2 1) rfl rfl rfl).1 1 (by decide)⟩

/-- C2: `trainSample` leaves `W1[i][j] = W1_old[i][j] - 0.01 * δ_hid[j] * input[i]` and
`b1[j] = b1_old[j] - 0.01 * δ_hid[j]`, where
`δ_hid[j] = (Σ_k δ_out[k] * W2_old[j][k]) * hidden[j] * (1 - hidden[j])` is computed from the
store as it was before the call (in particular from the `W2` of before the call) and `hidden`,
`output` are the activations of the forward pass under that store. -/
theorem C2_trainSample_hidden_layer [Field R] (exp : R → R) (I H O : Nat)
    (nn : NeuralNetwork R) (input target : List R) (hnn : WellShaped I H O nn)
    (_hin : input.length = I) (_ht : target.length = O) :
    (∀ i < I, ∀ j < H,
      mget (trainSample exp I H O nn input target).2.w_input_hidden i j =
        mget nn.w_input_hidden i j - 0.01 *
          specDeltaHid O nn.w_hidden_output
            (forward exp I H O nn input (List.replicate H 0) (List.replicate O 0)).1
            (forward exp I H O nn input (List.replicate H 0) (List.replicate O 0)).2 target j *
          vget input i) ∧
    (∀ j < H,
      vget (trainSample exp I H O nn input target).2.b_hidden j =
        vget nn.b_hidden j - 0.01 *
          specDeltaHid O nn.w_hidden_output
            (forward exp I H O nn input (List.replicate H 0) (List.replicate O 0)).1
            (forward exp I H O nn input (List.replicate H 0) (List.replicate O 0)).2
            target j) ∧
    IsMat I H (trainSample exp I H O nn input target).2.w_input_hidden ∧
    (trainSample exp I H O nn input target).2.b_hidden.length = H := by
  have hw := trainSample_w_input_hidden exp I H O nn input target hnn.1
  have hb := trainSample_b_hidden exp I H O nn input target hnn.2.1
  exact ⟨fun i hi j hj => hw.2 i j hi hj, fun j hj => hb.2 j hj, hw.1, hb.1⟩

/-- Witness for C2: the all-zero store of shape `(2, 2, 1)`, sample `([1, 0], [1])`, entry
`b1[0]`. -/
theorem C2_trainSample_hidden_layer_witness :
    WellShaped 2 2 1 (zeroNN 2 2 1 : NeuralNetwork ℝ) ∧
    vget (trainSample Real.exp 2 2 1 (zeroNN 2 2 1) [1, 0] [1]).2.b_hidden 0 =
      vget (zeroNN 2 2 1 : NeuralNetwork ℝ).b_hidden 0 - 0.01 *
        specDeltaHid 1 (zeroNN 2 2 1 : NeuralNetwork ℝ).w_hidden_output
          (forward Real.exp 2 2 1 (zeroNN 2 2 1) [1, 0] (List.replicate 2 0)
            (List.replicate 1 0)).1
          (forward Real.exp 2 2 1 (zeroNN 2 2 1) [1, 0] (List.replicate 2 0)
            (List.replicate 1 0)).2 [1] 0 :=
  ⟨wellShaped_zeroNN 2 2 1,
   (C2_trainSample_hidden_layer Real.exp 2 2 1 (zeroNN 2 2 1) [1, 0] [1]
      (wellShaped_zeroNN 2 2 1) rfl rfl).2.1 0 (by decide)⟩

/-- C3: `trainSample` leaves `W2[j][k] = W2_old[j][k] - 0.01 * δ_out[k] * hidden[j]` and
`b2[k] = b2_old[k] - 0.01 * δ_out[k]`, where
`δ_out[k] = (output[k] - target[k]) * output[k] * (1 - output[k])` and `hidden`, `output` are
the activations of the forward pass under the store as it was before the call. -/
theorem C3_trainSample_output_layer [Field R] (exp : R → R) (I H O : Nat)
    (nn : NeuralNetwork R) (input target : List R) (hnn : WellShaped I H O nn)
    (_hin : input.length = I) (_ht : target.length = O) :
    (∀ j < H, ∀ k < O,
      mget (trainSample exp I H O nn input target).2.w_hidden_output j k =
        mget nn.w_hidden_output j k - 0.01 *
          specDeltaOut (forward exp I H O nn input (List.replicate H 0)
            (List.replicate O 0)).2 target k *
          vget (forward exp I H O nn input (List.replicate H 0) (List.replicate O 0)).1 j) ∧
    (∀ k < O,
      vget (trainSample exp I H O nn input target).2.b_output k =
        vget nn.b_output k - 0.01 *
          specDeltaOut (forward exp I H O nn input (List.replicate H 0)
            (List.replicate O 0)).2 target k) ∧
    IsMat H O (trainSample exp I H O nn input target).2.w_hidden_output ∧
    (trainSample exp I H O nn input target).2.b_output.length = O := by
  have hw := trainSample_w_hidden_output exp I H O nn input target hnn.2.2.1
  have hb := trainSample_b_output exp I H O nn input target hnn.2.2.2
  exact ⟨fun j hj k hk => hw.2 j k hj hk, fun k hk => hb.2 k hk, hw.1, hb.1⟩

/-- Witness for C3: the all-zero store of shape `(2, 2, 1)`, sample `([1, 0], [1])`, entry
`b2[0]`. -/
theorem C3_trainSample_output_layer_witness :
    WellShaped 2 2 1 (zeroNN 2 2 1 : NeuralNetwork ℝ) ∧
    vget (trainSample Real.exp 2 2 1 (zeroNN 2 2 1) [1, 0] [1]).2.b_output 0 =
      vget (zeroNN 2 2 1 : NeuralNetwork ℝ).b_output 0 - 0.01 *
        specDeltaOut (forward Real.exp 2 2 1 (zeroNN 2 2 1) [1, 0] (List.replicate 2 0)
          (List.replicate 1 0)).2 [1] 0 :=
  ⟨wellShaped_zeroNN 2 2 1,
   (C3_trainSample_output_layer Real.exp 2 2 1 (zeroNN 2 2 1) [1, 0] [1]
      (wellShaped_zeroNN 2 2 1) rfl rfl).2.1 0 (by decide)⟩

/-- C4: the value returned by `trainSample` is `(1/O) * Σ_k (output[k] - target[k])^2` with
`output` the forward result under the store as it was before the call; with all parameters zero
(any `I`, `H`, any input, `O = 1`, real arithmetic) it is `0.25` for target `[1]` and for
target `[0]`. -/
theorem C4_trainSample_returns_mse [Field R] (exp : R → R) (I H O : Nat)
    (nn : NeuralNetwork R) (input target : List R) (_hnn : WellShaped I H O nn)
    (_hin : input.length = I) (_ht : target.length = O) (_hO : 0 < O) :
    (trainSample exp I H O nn input target).1 =
      (1 / (O : R)) * ∑ k in Finset.range O,
        (vget (forward exp I H O nn input (List.replicate H 0) (List.replicate O 0)).2 k -
          vget target k) ^ 2 ∧
    (∀ (I H : Nat) (input : List ℝ),
      (trainSample Real.exp I H 1 (zeroNN I H 1) input [1]).1 = 0.25 ∧
      (trainSample Real.exp I H 1 (zeroNN I H 1) input [0]).1 = 0.25) := by
  constructor
  · rw [trainSample_loss, loss_eq, (forward_length exp I H O nn input _ _).2]
    simp only [List.length_replicate, pow_two]
    rw [div_eq_mul_inv, mul_comm, one_div]
  · intro I H input
    have h := forward_zeroNN_output Real.exp I H 1 input 0 (by decide)
    constructor
    · rw [trainSample_loss, loss_eq, (forward_length Real.exp I H 1 _ input _ _).2]
      simp only [List.length_replicate, Finset.sum_range_one, h]
      simp [sigmoid, vget]
      norm_num
    · rw [trainSample_loss, loss_eq, (forward_length Real.exp I H 1 _ input _ _).2]
      simp only [List.length_replicate, Finset.sum_range_one, h]
      simp [sigmoid, vget]
      norm_num

/-- Witness for C4: the all-zero store of shape `(2, 2, 1)`, sample `([1, 0], [1])`. -/
theorem C4_trainSample_returns_mse_witness :
    WellShaped 2 2 1 (zeroNN 2 2 1 : NeuralNetwork ℝ) ∧
    (trainSample Real.exp 2 2 1 (zeroNN 2 2 1) [1, 0] [1]).1 = 0.25 :=
  ⟨wellShaped_zeroNN 2 2 1,
   ((C4_trainSample_returns_mse Real.exp 2 2 1 (zeroNN 2 2 1) [1, 0] [1]
      (wellShaped_zeroNN 2 2 1) rfl rfl (by decide)).2 2 2 [1, 0]).1⟩

/-- C5, as stated, fails: with all parameters zero (shape `(1, 1, 1)`, input `[1]`, target
`[1]`) the returned loss `L` is differentiable in `b2[0]` with `dL/db2[0] = -1/4`, so a
gradient step on `L` would change `b2[0]` by `-eta * dL/db2[0] = 1/400`, while `trainSample`
changes it by `1/800`. -/
theorem C5_not_mse_gradient_step :
    HasDerivAt (fun v => (trainSample Real.exp 1 1 1
        { (zeroNN 1 1 1 : NeuralNetwork ℝ) with b_output := [v] } [1] [1]).1) (-1 / 4) 0 ∧
    vget (trainSample Real.exp 1 1 1 (zeroNN 1 1 1) [1] [1]).2.b_output 0 -
      vget (zeroNN 1 1 1 : NeuralNetwork ℝ).b_output 0 = 1 / 800 ∧
    vget (trainSample Real.exp 1 1 1 (zeroNN 1 1 1) [1] [1]).2.b_output 0 -
      vget (zeroNN 1 1 1 : NeuralNetwork ℝ).b_output 0 ≠
        -LEARNING_RATE * deriv (fun v => (trainSample Real.exp 1 1 1
          { (zeroNN 1 1 1 : NeuralNetwork ℝ) with b_output := [v] } [1] [1]).1) 0 := by
  have hout := forward_zeroNN_output Real.exp 1 1 1 [1] 0 (by decide)
  have hsig : sigmoid Real.exp 0 = 1 / 2 := by simp [sigmoid]; norm_num
  have hdelta : specDeltaOut (forward Real.exp 1 1 1 (zeroNN 1 1 1) [1] (List.replicate 1 0)
      (List.replicate 1 0)).2 [1] 0 = -1 / 8 := by
    rw [specDeltaOut, hout, hsig]
    simp [vget]
    norm_num
  have hd := hasDerivAt_loss_b_output 1 1 1 (zeroNN 1 1 1) [1] [1] (wellShaped_zeroNN 1 1 1)
    0 (by decide)
  rw [hdelta] at hd
  have hd2 : HasDerivAt (fun v => (trainSample Real.exp 1 1 1
      { (zeroNN 1 1 1 : NeuralNetwork ℝ) with b_output := [v] } [1] [1]).1) (-1 / 4) 0 := by
    convert hd using 1
    norm_num
  have hstep := (trainSample_b_output Real.exp 1 1 1 (zeroNN 1 1 1) [1] [1] rfl).2 0
    (by decide)
  rw [hdelta] at hstep
  have hchange : vget (trainSample Real.exp 1 1 1 (zeroNN 1 1 1) [1] [1]).2.b_output 0 -
      vget (zeroNN 1 1 1 : NeuralNetwork ℝ).b_output 0 = 1 / 800 := by
    rw [hstep]
    simp [LEARNING_RATE]
    norm_num
  refine ⟨hd2, hchange, ?_⟩
  rw [hchange, hd2.deriv]
  simp [LEARNING_RATE]
  norm_num

/-- C5, amended: over the reals, `trainSample` is a plain gradient-descent step on half the
summed squared error `E = (1/2) * Σ_k (output[k] - target[k])^2 = (O/2) * L`: the returned loss
`L` is differentiable in every entry `p` of `W1`, `b1`, `W2`, `b2`, and the call changes `p` by
exactly `-eta * (O/2) * dL/dp`, the derivative taken at the parameters of before the call. -/
theorem C5_gradient_step_half_squared_error (I H O : Nat) (nn : NeuralNetwork ℝ)
    (input target : List ℝ) (hnn : WellShaped I H O nn) (_hin : input.length = I)
    (_ht : target.length = O) (hO : 0 < O) :
    (∀ i < I, ∀ j < H,
      DifferentiableAt ℝ (fun v => (trainSample Real.exp I H O
        { nn with w_input_hidden := mset nn.w_input_hidden i j v } input target).1)
        (mget nn.w_input_hidden i j) ∧
      mget (trainSample Real.exp I H O nn input target).2.w_input_hidden i j - mget nn.w_input_hidden i j =
        -LEARNING_RATE * ((O : ℝ) / 2 * deriv (fun v => (trainSample Real.exp I H O
          { nn with w_input_hidden := mset nn.w_input_hidden i j v } input target).1)
          (mget nn.w_input_hidden i j))) ∧
    (∀ j < H,
      DifferentiableAt ℝ (fun v => (trainSample Real.exp I H O
        { nn with b_hidden := nn.b_hidden.set j v } input target).1) (vget nn.b_hidden j) ∧
      vget (trainSample Real.exp I H O nn input target).2.b_hidden j - vget nn.b_hidden j =
        -LEARNING_RATE * ((O : ℝ) / 2 * deriv (fun v => (trainSample Real.exp I H O
          { nn with b_hidden := nn.b_hidden.set j v } input target).1) (vget nn.b_hidden j))) ∧
    (∀ j < H, ∀ k < O,
      DifferentiableAt ℝ (fun v => (trainSample Real.exp I H O
        { nn with w_hidden_output := mset nn.w_hidden_output j k v } input target).1)
        (mget nn.w_hidden_output j k) ∧
      mget (trainSample Real.exp I H O nn input target).2.w_hidden_output j k - mget nn.w_hidden_output j k =
        -LEARNING_RATE * ((O : ℝ) / 2 * deriv (fun v => (trainSample Real.exp I H O
          { nn with w_hidden_output := mset nn.w_hidden_output j k v } input target).1)
          (mget nn.w_hidden_output j k))) ∧
    (∀ k < O,
      DifferentiableAt ℝ (fun v => (trainSample Real.exp I H O
        { nn with b_output := nn.b_output.set k v } input target).1) (vget nn.b_output k) ∧
      vget (trainSample Real.exp I H O nn input target).2.b_output k - vget nn.b_output k =
        -LEARNING_RATE * ((O : ℝ) / 2 * deriv (fun v => (trainSample Real.exp I H O
          { nn with b_output := nn.b_output.set k v } input target).1) (vget nn.b_output k))) := by
  have hO' : (O : ℝ) ≠ 0 := by exact_mod_cast hO.ne'
  have hcancel : ∀ g : ℝ, (O : ℝ) / 2 * (2 / (O : ℝ) * g) = g := by
    intro g; field_simp; ring
  refine ⟨fun i hi j hj => ?_, fun j hj => ?_, fun j hj k hk => ?_, fun k hk => ?_⟩
  · have hd := hasDerivAt_loss_w_input_hidden I H O nn input target hnn i j hi hj
    refine ⟨hd.differentiableAt, ?_⟩
    rw [hd.deriv, hcancel,
      (trainSample_w_input_hidden Real.exp I H O nn input target hnn.1).2 i j hi hj]
    ring
  · have hd := hasDerivAt_loss_b_hidden I H O nn input target hnn j hj
    refine ⟨hd.differentiableAt, ?_⟩
    rw [hd.deriv, hcancel,
      (trainSample_b_hidden Real.exp I H O nn input target hnn.2.1).2 j hj]
    ring
  · have hd := hasDerivAt_loss_w_hidden_output I H O nn input target hnn j k hj hk
    refine ⟨hd.differentiableAt, ?_⟩
    rw [hd.deriv, hcancel,
      (trainSample_w_hidden_output Real.exp I H O nn input target hnn.2.2.1).2 j k hj hk]
    ring
  · have hd := hasDerivAt_loss_b_output I H O nn input target hnn k hk
    refine ⟨hd.differentiableAt, ?_⟩
    rw [hd.deriv, hcancel,
      (trainSample_b_output Real.exp I H O nn input target hnn.2.2.2).2 k hk]
    ring

/-- Witness for C5 (amended): the all-zero store of shape `(2, 2, 1)`, sample `([1, 0], [1])`,
parameter `b2[0]`. -/
theorem C5_gradient_step_half_squared_error_witness :
    WellShaped 2 2 1 (zeroNN 2 2 1 : NeuralNetwork ℝ) ∧
    DifferentiableAt ℝ (fun v => (trainSample Real.exp 2 2 1
      { (zeroNN 2 2 1 : NeuralNetwork ℝ) with
        b_output := (zeroNN 2 2 1 : NeuralNetwork ℝ).b_output.set 0 v } [1, 0] [1]).1)
      (vget (zeroNN 2 2 1 : NeuralNetwork ℝ).b_output 0) :=
  ⟨wellShaped_zeroNN 2 2 1,
   ((C5_gradient_step_half_squared_error 2 2 1 (zeroNN 2 2 1) [1, 0] [1]
      (wellShaped_zeroNN 2 2 1) rfl rfl (by decide)).2.2.2 0 (by decide)).1⟩

theorem sigmoid_real_pos (z : ℝ) : 0 < sigmoid Real.exp z := by
  unfold sigmoid
  have := Real.exp_pos (-z)
  positivity

theorem sigmoid_real_lt_one (z : ℝ) : sigmoid Real.exp z < 1 := by
  unfold sigmoid
  have := Real.exp_pos (-z)
  rw [div_lt_one (by positivity)]
  linarith

/-- With a non-negative exponential the sigmoid lies in `(0, 1]`. -/
theorem sigmoid_range [LinearOrderedField R] (exp : R → R) (hexp : ∀ x, 0 ≤ exp x) (z : R) :
    0 < sigmoid exp z ∧ sigmoid exp z ≤ 1 := by
  have h := hexp (-z)
  have hpos : (0 : R) < 1 + exp (-z) := by linarith
  unfold sigmoid
  exact ⟨one_div_pos.mpr hpos, (div_le_one hpos).mpr (by linarith)⟩

theorem expUnderflow_nonneg [LinearOrderedField R] (e : R → R) (he : ∀ x, 0 ≤ e x) (x : R) :
    0 ≤ expUnderflow e x := by
  unfold expUnderflow
  split
  · exact le_rfl
  · exact he x

theorem expUnderflow_real_nonneg (x : ℝ) : 0 ≤ expUnderflow Real.exp x :=
  expUnderflow_nonneg Real.exp (fun y => (Real.exp_pos y).le) x

theorem wellShaped_saturatedStore [Field R] :
    WellShaped 2 2 1 (saturatedStore : NeuralNetwork R) := by
  simp [WellShaped, IsMat, saturatedStore]

/-- The forward pass of `saturatedStore` on the input `[1, 0]` when `std::exp` underflows:
the hidden activations are `1/2` and the output is exactly `1`. -/
theorem forward_saturatedStore (hidden output : List ℝ) (hh : hidden.length = 2)
    (ho : output.length = 1) :
    (∀ j < 2, vget (forward (expUnderflow Real.exp) 2 2 1 saturatedStore [1, 0]
      hidden output).1 j = 1 / 2) ∧
    vget (forward (expUnderflow Real.exp) 2 2 1 saturatedStore [1, 0] hidden output).2 0 = 1 := by
  have hhid : ∀ j < 2, vget (forward (expUnderflow Real.exp) 2 2 1 saturatedStore [1, 0]
      hidden output).1 j = 1 / 2 := by
    intro j hj
    rw [forward_hidden (expUnderflow Real.exp) 2 2 1 _ [1, 0] hidden output (by omega) j hj]
    have hz : vget (saturatedStore : NeuralNetwork ℝ).b_hidden j + ∑ i in Finset.range 2,
        vget ([1, 0] : List ℝ) i * mget (saturatedStore : NeuralNetwork ℝ).w_input_hidden i j
        = 0 := by
      interval_cases j <;> simp [saturatedStore, vget, mget, Finset.sum_range_succ]
    rw [hz]
    have h0 : ¬ ((-0 : ℝ) ≤ -746) := by norm_num
    simp only [sigmoid, expUnderflow, h0, if_false, neg_zero, Real.exp_zero]
    norm_num
  refine ⟨hhid, ?_⟩
  rw [forward_output (expUnderflow Real.exp) 2 2 1 _ [1, 0] hidden output (by omega) 0
    (by decide)]
  have hz : vget (saturatedStore : NeuralNetwork ℝ).b_output 0 + ∑ j in Finset.range 2,
      vget (forward (expUnderflow Real.exp) 2 2 1 saturatedStore [1, 0] hidden output).1 j *
        mget (saturatedStore : NeuralNetwork ℝ).w_hidden_output j 0 = 800 := by
    simp [saturatedStore, vget, mget, Finset.sum_range_succ]
  rw [hz]
  have h800 : (-800 : ℝ) ≤ -746 := by norm_num
  simp only [sigmoid, expUnderflow, h800, if_true]
  norm_num

/-- In exact real arithmetic, for every store and every input, every hidden activation and
every output component written by `forward` lies strictly between 0 and 1. -/
theorem forward_range_exact (I H O : Nat) (nn : NeuralNetwork ℝ) (input hidden output : List ℝ)
    (hh : hidden.length = H) (ho : output.length = O) :
    (∀ k < O, 0 < vget (forward Real.exp I H O nn input hidden output).2 k ∧
      vget (forward Real.exp I H O nn input hidden output).2 k < 1) ∧
    (∀ j < H, 0 < vget (forward Real.exp I H O nn input hidden output).1 j ∧
      vget (forward Real.exp I H O nn input hidden output).1 j < 1) := by
  constructor
  · intro k hk
    rw [forward_output Real.exp I H O nn input hidden output (by omega) k hk]
    exact ⟨sigmoid_real_pos _, sigmoid_real_lt_one _⟩
  · intro j hj
    rw [forward_hidden Real.exp I H O nn input hidden output (by omega) j hj]
    exact ⟨sigmoid_real_pos _, sigmoid_real_lt_one _⟩

/-- C6, as stated, fails: the store `saturatedStore` of shape `(2, 2, 1)` has finite
parameters (`b2[0] = 800`, all others `0`) and the input `[1, 0]` has components in `[0, 1]`;
the hidden activations are `1/2`, the output pre-activation is `800`, `std::exp(-800)`
underflows to `0`, and `forward` (of `main.cpp` and of `test.cpp`) writes the output
`1 / (1 + 0)`, which is exactly `1`, not a value strictly below `1`. -/
theorem C6_output_exactly_one :
    WellShaped 2 2 1 (saturatedStore : NeuralNetwork ℝ) ∧
    (∀ i < 2, 0 ≤ vget ([1, 0] : List ℝ) i ∧ vget ([1, 0] : List ℝ) i ≤ 1) ∧
    vget (forward (expUnderflow Real.exp) 2 2 1 saturatedStore [1, 0] [0, 0] [0]).2 0 = 1 ∧
    vget (Test.forward (expUnderflow Real.exp) 2 2 1 saturatedStore [1, 0] [0, 0] [0]).2 0 = 1 ∧
    ¬ (vget (forward (expUnderflow Real.exp) 2 2 1 saturatedStore [1, 0] [0, 0] [0]).2 0 < 1) := by
  have hr : ∀ i < 2, 0 ≤ vget ([1, 0] : List ℝ) i ∧ vget ([1, 0] : List ℝ) i ≤ 1 := by
    intro i hi
    interval_cases i <;> simp [vget]
  have h1 := (forward_saturatedStore [0, 0] [0] rfl rfl).2
  refine ⟨wellShaped_saturatedStore, hr, h1, h1, ?_⟩
  rw [h1]
  exact lt_irrefl 1

/-- C6, amended: for every store of shape `(I, H, O)` and every input of length `I` with
components in `[0, 1]`, whatever non-negative values `std::exp` returns (`0` on underflow
included), every hidden activation and every output component written by `forward` lies in
the closed interval `[0, 1]`; so the prediction `output[0]` lies in `[0, 1]`.  (Where
`std::exp` overflows to `+inf` the quotient is `0`, also in the interval; that value is
outside the field model.) -/
theorem C6_forward_range_closed [LinearOrderedField R] (exp : R → R) (hexp : ∀ x, 0 ≤ exp x)
    (I H O : Nat) (nn : NeuralNetwork R) (input hidden output : List R)
    (_hnn : WellShaped I H O nn) (_hin : input.length = I)
    (_hrange : ∀ i < I, 0 ≤ vget input i ∧ vget input i ≤ 1)
    (hh : hidden.length = H) (ho : output.length = O) :
    (∀ k < O, 0 ≤ vget (forward exp I H O nn input hidden output).2 k ∧
      vget (forward exp I H O nn input hidden output).2 k ≤ 1) ∧
    (∀ j < H, 0 ≤ vget (forward exp I H O nn input hidden output).1 j ∧
      vget (forward exp I H O nn input hidden output).1 j ≤ 1) ∧
    (∀ k < O, 0 ≤ vget (Test.forward exp I H O nn input hidden output).2 k ∧
      vget (Test.forward exp I H O nn input hidden output).2 k ≤ 1) ∧
    (0 < O → 0 ≤ vget (Test.forward exp I H O nn input hidden output).2 0 ∧
      vget (Test.forward exp I H O nn input hidden output).2 0 ≤ 1) := by
  have hout : ∀ k < O, 0 ≤ vget (forward exp I H O nn input hidden output).2 k ∧
      vget (forward exp I H O nn input hidden output).2 k ≤ 1 := by
    intro k hk
    rw [forward_output exp I H O nn input hidden output (by omega) k hk]
    exact ⟨(sigmoid_range exp hexp _).1.le, (sigmoid_range exp hexp _).2⟩
  refine ⟨hout, ?_, hout, fun hO => hout 0 hO⟩
  intro j hj
  rw [forward_hidden exp I H O nn input hidden output (by omega) j hj]
  exact ⟨(sigmoid_range exp hexp _).1.le, (sigmoid_range exp hexp _).2⟩

/-- Witness for C6 (amended): the store `saturatedStore` on input `[1, 0]`, with the
exponential that underflows. -/
theorem C6_forward_range_closed_witness :
    (∀ x : ℝ, 0 ≤ expUnderflow Real.exp x) ∧
    WellShaped 2 2 1 (saturatedStore : NeuralNetwork ℝ) ∧
    (∀ i < 2, 0 ≤ vget ([1, 0] : List ℝ) i ∧ vget ([1, 0] : List ℝ) i ≤ 1) ∧
    0 ≤ vget (forward (expUnderflow Real.exp) 2 2 1 saturatedStore [1, 0] [0, 0] [0]).2 0 ∧
    vget (forward (expUnderflow Real.exp) 2 2 1 saturatedStore [1, 0] [0, 0] [0]).2 0 ≤ 1 :=
  have hr : ∀ i < 2, 0 ≤ vget ([1, 0] : List ℝ) i ∧ vget ([1, 0] : List ℝ) i ≤ 1 := by
    intro i hi
    interval_cases i <;> simp [vget]
  ⟨expUnderflow_real_nonneg, wellShaped_saturatedStore, hr,
   (C6_forward_range_closed (expUnderflow Real.exp) expUnderflow_real_nonneg 2 2 1
      saturatedStore [1, 0] [0, 0] [0] wellShaped_saturatedStore rfl hr rfl rfl).1 0
      (by decide)⟩

/-- C7: for every store of shape `(I, H, O)`, `saveNN` writes exactly `I*H + H + H*O + O`
lines into the opened file: line `i*H + j` is `W1[i][j]`, line `I*H + j` is `b1[j]`, line
`I*H + H + j*O + k` is `W2[j][k]` and line `I*H + H + H*O + k` is `b2[k]`, each as printed by
the stream (`fmt`). -/
theorem C7_saveNN_layout [Zero R] (fmt : R → R) (I H O : Nat) (nn : NeuralNetwork R)
    (hnn : WellShaped I H O nn) :
    ∃ lines : List R, (saveNN fmt true nn).1 = some lines ∧
      lines.length = I * H + H + H * O + O ∧
      (∀ i < I, ∀ j < H, lines[i * H + j]? = some (fmt (mget nn.w_input_hidden i j))) ∧
      (∀ j < H, lines[I * H + j]? = some (fmt (vget nn.b_hidden j))) ∧
      (∀ j < H, ∀ k < O,
        lines[I * H + H + j * O + k]? = some (fmt (mget nn.w_hidden_output j k))) ∧
      (∀ k < O, lines[I * H + H + H * O + k]? = some (fmt (vget nn.b_output k))) := by
  obtain ⟨p1, p2, p3, p4⟩ := flatParams_getElem? hnn
  refine ⟨(flatParams nn).map fmt, by rw [saveNN_opened], ?_, ?_, ?_, ?_, ?_⟩
  · rw [List.length_map, flatParams_length hnn]
  · intro i hi j hj; rw [List.getElem?_map, p1 i hi j hj]; rfl
  · intro j hj; rw [List.getElem?_map, p2 j hj]; rfl
  · intro j hj k hk; rw [List.getElem?_map, p3 j hj k hk]; rfl
  · intro k hk; rw [List.getElem?_map, p4 k hk]; rfl

/-- Witness for C7: the all-zero store of shape `(2, 2, 1)` writes nine lines. -/
theorem C7_saveNN_layout_witness :
    WellShaped 2 2 1 (zeroNN 2 2 1 : NeuralNetwork ℚ) ∧
    ∃ lines : List ℚ, (saveNN streamRound6 true (zeroNN 2 2 1)).1 = some lines ∧
      lines.length = 9 :=
  ⟨wellShaped_zeroNN 2 2 1,
   (C7_saveNN_layout streamRound6 2 2 1 (zeroNN 2 2 1) (wellShaped_zeroNN 2 2 1)).imp
     (fun _ h => ⟨h.1, h.2.1⟩)⟩

/-- C8, as stated, fails: the store `roundTripStore` holds `W1[0][0] = 1 + 2^-20`; `saveNN`
prints it with the default precision of 6 significant digits, as `1`, and `loadNN` reads back
`W1[0][0] = 1`, which is not the saved value. -/
theorem C8_round_trip_counterexample :
    WellShaped 1 1 1 roundTripStore ∧
    mget roundTripStore.w_input_hidden 0 0 = 1048577 / 1048576 ∧
    mget (loadNN "Network.csv" (written (saveNN streamRound6 true roundTripStore).1)
      (zeroNN 1 1 1)).1.w_input_hidden 0 0 = 1 ∧
    mget (loadNN "Network.csv" (written (saveNN streamRound6 true roundTripStore).1)
      (zeroNN 1 1 1)).1.w_input_hidden 0 0 ≠ mget roundTripStore.w_input_hidden 0 0 := by
  have hs : WellShaped 1 1 1 roundTripStore := by
    simp [WellShaped, IsMat, roundTripStore]
  have hsaved : mget roundTripStore.w_input_hidden 0 0 = 1048577 / 1048576 := rfl
  have hloaded : mget (loadNN "Network.csv" (written (saveNN streamRound6 true roundTripStore).1)
      (zeroNN 1 1 1)).1.w_input_hidden 0 0 = 1 := by
    have hflat := loadNN_saveNN_flat streamRound6 "Network.csv" hs (wellShaped_zeroNN 1 1 1)
    have hpos := (flatParams_getElem? (wellShaped_loadNN "Network.csv"
      (((flatParams roundTripStore).map streamRound6).map Token.num)
      (wellShaped_zeroNN 1 1 1))).1 0 (by decide) 0 (by decide)
    have hlines : (flatParams roundTripStore).map streamRound6 = [1, 0, 0, 0] := by
      simp [flatParams, roundTripStore, streamRound6_example, streamRound6_zero]
    rw [saveNN_opened] at hflat ⊢
    change flatParams (loadNN "Network.csv"
      (some (((flatParams roundTripStore).map streamRound6).map Token.num))
      (zeroNN 1 1 1)).1 = _ at hflat
    rw [hflat, hlines] at hpos
    show mget (loadNN "Network.csv"
      (some (((flatParams roundTripStore).map streamRound6).map Token.num))
      (zeroNN 1 1 1)).1.w_input_hidden 0 0 = 1
    rw [hlines]
    exact (Option.some.inj hpos).symm
  refine ⟨hs, hsaved, hloaded, ?_⟩
  rw [hloaded, hsaved]
  norm_num

/-- C8, amended: loading the file written by `saveNN` into a store of the same shape yields a
store of that shape whose entries are, entry for entry, the saved ones as printed by the stream
(`fmt`: under the default precision, the value rounded to 6 significant digits); when printing
changes none of the saved values, the loaded parameters equal the saved ones. -/
theorem C8_round_trip_as_printed [Zero R] (fmt : R → R) (filename : String) (I H O : Nat)
    (saved nn : NeuralNetwork R) (hs : WellShaped I H O saved) (hn : WellShaped I H O nn) :
    WellShaped I H O (loadNN filename (written (saveNN fmt true saved).1) nn).1 ∧
    (∀ i < I, ∀ j < H,
      mget (loadNN filename (written (saveNN fmt true saved).1) nn).1.w_input_hidden i j =
        fmt (mget saved.w_input_hidden i j)) ∧
    (∀ j < H, vget (loadNN filename (written (saveNN fmt true saved).1) nn).1.b_hidden j =
        fmt (vget saved.b_hidden j)) ∧
    (∀ j < H, ∀ k < O,
      mget (loadNN filename (written (saveNN fmt true saved).1) nn).1.w_hidden_output j k =
        fmt (mget saved.w_hidden_output j k)) ∧
    (∀ k < O, vget (loadNN filename (written (saveNN fmt true saved).1) nn).1.b_output k =
        fmt (vget saved.b_output k)) ∧
    ((∀ x ∈ flatParams saved, fmt x = x) →
      flatParams (loadNN filename (written (saveNN fmt true saved).1) nn).1 = flatParams saved) := by
  have hflat := loadNN_saveNN_flat fmt filename hs hn
  have hshape : WellShaped I H O
      (loadNN filename (written (saveNN fmt true saved).1) nn).1 := by
    rw [saveNN_opened]; exact wellShaped_loadNN filename _ hn
  obtain ⟨p1, p2, p3, p4⟩ := flatParams_getElem? hshape
  obtain ⟨q1, q2, q3, q4⟩ := flatParams_getElem? hs
  rw [hflat] at p1 p2 p3 p4
  refine ⟨hshape, ?_, ?_, ?_, ?_, ?_⟩
  · intro i hi j hj
    have := p1 i hi j hj
    rw [List.getElem?_map, q1 i hi j hj] at this
    exact (Option.some.inj this).symm
  · intro j hj
    have := p2 j hj
    rw [List.getElem?_map, q2 j hj] at this
    exact (Option.some.inj this).symm
  · intro j hj k hk
    have := p3 j hj k hk
    rw [List.getElem?_map, q3 j hj k hk] at this
    exact (Option.some.inj this).symm
  · intro k hk
    have := p4 k hk
    rw [List.getElem?_map, q4 k hk] at this
    exact (Option.some.inj this).symm
  · intro hfix
    rw [hflat]
    conv_rhs => rw [← List.map_id (flatParams saved)]
    exact List.map_congr_left (fun x hx => by simpa using hfix x hx)

/-- Witness for C8 (amended): saving `roundTripStore` and loading it into the all-zero store
of shape `(1, 1, 1)` gives `W1[0][0] = streamRound6 (1 + 2^-20)`. -/
theorem C8_round_trip_as_printed_witness :
    WellShaped 1 1 1 roundTripStore ∧ WellShaped 1 1 1 (zeroNN 1 1 1 : NeuralNetwork ℚ) ∧
    mget (loadNN "Network.csv" (written (saveNN streamRound6 true roundTripStore).1)
      (zeroNN 1 1 1)).1.w_input_hidden 0 0 =
        streamRound6 (mget roundTripStore.w_input_hidden 0 0) :=
  have hs : WellShaped 1 1 1 roundTripStore := by simp [WellShaped, IsMat, roundTripStore]
  ⟨hs, wellShaped_zeroNN 1 1 1,
   (C8_round_trip_as_printed streamRound6 "Network.csv" 1 1 1 roundTripStore (zeroNN 1 1 1)
      hs (wellShaped_zeroNN 1 1 1)).2.1 0 (by decide) 0 (by decide)⟩

/-- C9, as stated, fails: the file `1e999 2 3` holds three well-formed numbers, fewer than the
9 parameters of shape `(2, 2, 1)`, but its first numeral is beyond the range of `double`: the
extraction stores `DBL_MAX` in `W1[0][0]` and sets `failbit`, every later extraction does
nothing, and the second and third parameter keep the value `0` of the all-zero store instead
of taking the file's `2` and `3`; `loadNN` prints the success line all the same. -/
theorem C9_out_of_range_numeral :
    ([Token.huge DBL_MAX, Token.num 2, Token.num 3] : List (Token ℚ)).length <
      2 * 2 + 2 + 2 * 1 + 1 ∧
    (loadNN "Network.csv" (some [Token.huge DBL_MAX, Token.num 2, Token.num 3])
      (zeroNN 2 2 1 : NeuralNetwork ℚ)).2 = ["Network loaded successfully"] ∧
    flatParams (loadNN "Network.csv" (some [Token.huge DBL_MAX, Token.num 2, Token.num 3])
      (zeroNN 2 2 1 : NeuralNetwork ℚ)).1 = [DBL_MAX, 0, 0, 0, 0, 0, 0, 0, 0] ∧
    mget (loadNN "Network.csv" (some [Token.huge DBL_MAX, Token.num 2, Token.num 3])
      (zeroNN 2 2 1 : NeuralNetwork ℚ)).1.w_input_hidden 0 1 ≠ 2 := by
  have hflat : flatParams (loadNN "Network.csv"
      (some [Token.huge DBL_MAX, Token.num 2, Token.num 3])
      (zeroNN 2 2 1 : NeuralNetwork ℚ)).1 = [DBL_MAX, 0, 0, 0, 0, 0, 0, 0, 0] := by
    rw [(loadNN_flat "Network.csv" _ _).1, flatParams_zeroNN]
    rfl
  have hpos := (flatParams_getElem? (wellShaped_loadNN "Network.csv"
    [Token.huge DBL_MAX, Token.num 2, Token.num 3]
    (wellShaped_zeroNN (R := ℚ) 2 2 1))).1 0 (by decide) 1 (by decide)
  rw [hflat] at hpos
  have h01 : mget (loadNN "Network.csv" (some [Token.huge DBL_MAX, Token.num 2, Token.num 3])
      (zeroNN 2 2 1 : NeuralNetwork ℚ)).1.w_input_hidden 0 1 = 0 :=
    (Option.some.inj hpos).symm
  refine ⟨by decide, by rw [loadNN_opened], hflat, ?_⟩
  rw [h01]
  norm_num

/-- C9, amended: for every store of shape `(I, H, O)` and every opened weight file holding
`n < I*H + H + H*O + O` numerals, each within the range of `double`, `loadNN` reports a
successful load, keeps the shape, and leaves the flat parameter sequence equal to the file
followed by the old parameters from position `n` on; for the all-zero store of the inference
program these are zeros. -/
theorem C9_loadNN_short_file [Zero R] (filename : String) (I H O : Nat) (nn : NeuralNetwork R)
    (file : List R) (hnn : WellShaped I H O nn)
    (hshort : file.length < I * H + H + H * O + O) :
    (loadNN filename (some (file.map Token.num)) nn).2 = ["Network loaded successfully"] ∧
    WellShaped I H O (loadNN filename (some (file.map Token.num)) nn).1 ∧
    flatParams (loadNN filename (some (file.map Token.num)) nn).1 =
      file ++ (flatParams nn).drop file.length ∧
    flatParams (loadNN filename (some (file.map Token.num)) (zeroNN I H O)).1 =
      file ++ List.replicate (I * H + H + H * O + O - file.length) 0 := by
  refine ⟨by rw [loadNN_opened], wellShaped_loadNN filename _ hnn, ?_, ?_⟩
  · rw [loadNN_flat_num filename file nn, flatParams_length hnn,
      List.take_of_length_le (by omega)]
  · rw [loadNN_flat_num filename file _, flatParams_length (wellShaped_zeroNN I H O),
      List.take_of_length_le (by omega), flatParams_zeroNN, List.drop_replicate]

/-- Witness for C9 (amended): three numerals loaded into the all-zero store of shape
`(2, 2, 1)`. -/
theorem C9_loadNN_short_file_witness :
    WellShaped 2 2 1 (zeroNN 2 2 1 : NeuralNetwork ℚ) ∧
    ([1, 2, 3] : List ℚ).length < 2 * 2 + 2 + 2 * 1 + 1 ∧
    flatParams (loadNN "Network.csv" (some (([1, 2, 3] : List ℚ).map Token.num))
      (zeroNN 2 2 1 : NeuralNetwork ℚ)).1 =
      [1, 2, 3] ++ List.replicate (2 * 2 + 2 + 2 * 1 + 1 - ([1, 2, 3] : List ℚ).length) 0 :=
  ⟨wellShaped_zeroNN 2 2 1, by decide,
   (C9_loadNN_short_file "Network.csv" 2 2 1 (zeroNN 2 2 1) [1, 2, 3]
      (wellShaped_zeroNN 2 2 1) (by decide)).2.2.2⟩

/-- C10, as stated, fails: the file `1e999 2 3 4 5 6 7 8 9` holds exactly the 9 numbers of
shape `(2, 2, 1)`, but its first numeral is beyond the range of `double`: the extraction
stores `DBL_MAX` in `W1[0][0]` and sets `failbit`, every later extraction does nothing, and
the other eight parameters, among them all of `b1`, `W2` and `b2`, stay at the value `0` they
had before the load; the flat parameter sequence is not the file's sequence. -/
theorem C10_out_of_range_numeral :
    ([Token.huge DBL_MAX, Token.num 2, Token.num 3, Token.num 4, Token.num 5, Token.num 6,
      Token.num 7, Token.num 8, Token.num 9] : List (Token ℚ)).length =
      2 * 2 + 2 + 2 * 1 + 1 ∧
    flatParams (loadNN "Network.csv" (some [Token.huge DBL_MAX, Token.num 2, Token.num 3,
      Token.num 4, Token.num 5, Token.num 6, Token.num 7, Token.num 8, Token.num 9])
      (zeroNN 2 2 1 : NeuralNetwork ℚ)).1 = [DBL_MAX, 0, 0, 0, 0, 0, 0, 0, 0] ∧
    vget (loadNN "Network.csv" (some [Token.huge DBL_MAX, Token.num 2, Token.num 3,
      Token.num 4, Token.num 5, Token.num 6, Token.num 7, Token.num 8, Token.num 9])
      (zeroNN 2 2 1 : NeuralNetwork ℚ)).1.b_output 0 = 0 ∧
    vget (loadNN "Network.csv" (some [Token.huge DBL_MAX, Token.num 2, Token.num 3,
      Token.num 4, Token.num 5, Token.num 6, Token.num 7, Token.num 8, Token.num 9])
      (zeroNN 2 2 1 : NeuralNetwork ℚ)).1.b_output 0 ≠ 9 := by
  have hflat : flatParams (loadNN "Network.csv" (some [Token.huge DBL_MAX, Token.num 2,
      Token.num 3, Token.num 4, Token.num 5, Token.num 6, Token.num 7, Token.num 8,
      Token.num 9]) (zeroNN 2 2 1 : NeuralNetwork ℚ)).1 =
      [DBL_MAX, 0, 0, 0, 0, 0, 0, 0, 0] := by
    rw [(loadNN_flat "Network.csv" _ _).1, flatParams_zeroNN]
    rfl
  have hpos := (flatParams_getElem? (wellShaped_loadNN "Network.csv"
    [Token.huge DBL_MAX, Token.num 2, Token.num 3, Token.num 4, Token.num 5, Token.num 6,
      Token.num 7, Token.num 8, Token.num 9]
    (wellShaped_zeroNN (R := ℚ) 2 2 1))).2.2.2 0 (by decide)
  rw [hflat] at hpos
  have h0 : vget (loadNN "Network.csv" (some [Token.huge DBL_MAX, Token.num 2, Token.num 3,
      Token.num 4, Token.num 5, Token.num 6, Token.num 7, Token.num 8, Token.num 9])
      (zeroNN 2 2 1 : NeuralNetwork ℚ)).1.b_output 0 = 0 :=
    (Option.some.inj hpos).symm
  refine ⟨by decide, hflat, h0, ?_⟩
  rw [h0]
  norm_num

/-- C10, amended: for every store of shape `(I, H, O)` and every opened weight file with
exactly `I*H + H + H*O + O` numerals, each within the range of `double`, after `loadNN` the
flat parameter sequence equals the file (every number of the file is consumed into a
parameter, whatever the store held before), the shape is kept, and each entity holds the
file's numbers at its positions. -/
theorem C10_loadNN_full_file [Zero R] (filename : String) (I H O : Nat) (nn : NeuralNetwork R)
    (file : List R) (hnn : WellShaped I H O nn)
    (hfull : file.length = I * H + H + H * O + O) :
    flatParams (loadNN filename (some (file.map Token.num)) nn).1 = file ∧
    WellShaped I H O (loadNN filename (some (file.map Token.num)) nn).1 ∧
    (∀ i < I, ∀ j < H, file[i * H + j]? =
      some (mget (loadNN filename (some (file.map Token.num)) nn).1.w_input_hidden i j)) ∧
    (∀ j < H, file[I * H + j]? =
      some (vget (loadNN filename (some (file.map Token.num)) nn).1.b_hidden j)) ∧
    (∀ j < H, ∀ k < O, file[I * H + H + j * O + k]? =
      some (mget (loadNN filename (some (file.map Token.num)) nn).1.w_hidden_output j k)) ∧
    (∀ k < O, file[I * H + H + H * O + k]? =
      some (vget (loadNN filename (some (file.map Token.num)) nn).1.b_output k)) := by
  have hflat : flatParams (loadNN filename (some (file.map Token.num)) nn).1 = file := by
    rw [loadNN_flat_num filename file nn, flatParams_length hnn,
      List.take_of_length_le (by omega),
      List.drop_of_length_le (by rw [flatParams_length hnn]; omega)]
    simp
  have hshape := wellShaped_loadNN filename (file.map Token.num) hnn
  have hpos := flatParams_getElem? hshape
  rw [hflat] at hpos
  exact ⟨hflat, hshape, hpos⟩

/-- Witness for C10 (amended): nine numerals loaded into the all-zero store of shape
`(2, 2, 1)`. -/
theorem C10_loadNN_full_file_witness :
    WellShaped 2 2 1 (zeroNN 2 2 1 : NeuralNetwork ℚ) ∧
    ([1, 2, 3, 4, 5, 6, 7, 8, 9] : List ℚ).length = 2 * 2 + 2 + 2 * 1 + 1 ∧
    flatParams (loadNN "Network.csv"
      (some (([1, 2, 3, 4, 5, 6, 7, 8, 9] : List ℚ).map Token.num))
      (zeroNN 2 2 1 : NeuralNetwork ℚ)).1 = [1, 2, 3, 4, 5, 6, 7, 8, 9] :=
  ⟨wellShaped_zeroNN 2 2 1, by decide,
   (C10_loadNN_full_file "Network.csv" 2 2 1 (zeroNN 2 2 1) [1, 2, 3, 4, 5, 6, 7, 8, 9]
      (wellShaped_zeroNN 2 2 1) (by decide)).1⟩

theorem forLoop_id {σ : Type} (body : Nat → σ → σ) (h : ∀ i s, body i s = s) (n : Nat) (s : σ) :
    forLoop n body s = s := by
  induction n with
  | zero => rfl
  | succ n ih => rw [forLoop, h, ih]

theorem saveNN_not_opened [Zero R] (fmt : R → R) (nn : NeuralNetwork R) :
    saveNN fmt false nn = (none, ["Network save complete."]) := by
  simp [saveNN, put]

theorem Test.forward_eq [Field R] (exp : R → R) (I H O : Nat) (nn : NeuralNetwork R)
    (input hidden output : List R) :
    Test.forward exp I H O nn input hidden output = forward exp I H O nn input hidden output :=
  rfl

/-- C11: when the weight file cannot be opened, `loadNN` prints only the failure line (not the
success line) and returns the store unchanged; the all-zero store of the inference program
stays all zero, and `main` of `test.cpp` goes on to print the prediction `sigmoid 0` of that
store with exit status 0. -/
theorem C11_loadNN_unopenable [Field R] (exp : R → R) (filename image_file : String)
    (nn : NeuralNetwork R) (I H O : Nat) (resized : List (List Nat))
    (hn : filename.isEmpty = false) (hi : image_file.isEmpty = false) :
    (loadNN filename none nn).1 = nn ∧
    (loadNN filename none nn).2 = ["Cannont open file: " ++ filename] ∧
    "Network loaded successfully" ∉ (loadNN filename none nn).2 ∧
    flatParams (loadNN filename none (zeroNN I H O : NeuralNetwork R)).1 =
      List.replicate (I * H + H + H * O + O) 0 ∧
    Test.main exp filename image_file none (some resized) =
      (0, ["Cannont open file: " ++ filename, "Predecit: "], some (Test.sigmoid exp 0)) := by
  refine ⟨rfl, rfl, ?_, flatParams_zeroNN I H O, ?_⟩
  · intro hmem
    have h : "Network loaded successfully" = "Cannont open file: " ++ filename := by
      simpa [loadNN] using hmem
    have h2 := congrArg String.data h
    simp [String.data_append] at h2
  · have hout : ∀ X : List R, vget (Test.forward exp Test.INPUT_SIZE Test.HIDDEN_SIZE
        Test.NUM_CLASSES (zeroNN Test.INPUT_SIZE Test.HIDDEN_SIZE Test.NUM_CLASSES) X
        (List.replicate Test.HIDDEN_SIZE 0) (List.replicate Test.NUM_CLASSES 0)).2 0 =
        Test.sigmoid exp 0 := fun X =>
      forward_zeroNN_output exp Test.INPUT_SIZE Test.HIDDEN_SIZE Test.NUM_CLASSES X 0
        (by decide)
    simp only [Test.main, hn, hi, Bool.or_self, Bool.false_eq_true, if_false, Test.loadIMG,
      loadNN, hout]
    rfl

/-- Witness for C11: an unopenable `Network.csv`, image `img.png`, real arithmetic. -/
theorem C11_loadNN_unopenable_witness :
    ("Network.csv" : String).isEmpty = false ∧ ("img.png" : String).isEmpty = false ∧
    (loadNN "Network.csv" none (zeroNN 2 2 1 : NeuralNetwork ℝ)).1 = zeroNN 2 2 1 :=
  ⟨by decide, by decide,
   (C11_loadNN_unopenable Real.exp "Network.csv" "img.png" (zeroNN 2 2 1) 2 2 1 []
      (by decide) (by decide)).1⟩

/-- C12, evaluated on the code: when the destination cannot be opened, `saveNN` writes
nothing, returns normally and prints `Network save complete.`; it reports no failure. -/
theorem C12_saveNN_unopenable_reports_success :
    saveNN streamRound6 false (zeroNN 2 2 1) = (none, ["Network save complete."]) :=
  saveNN_not_opened streamRound6 (zeroNN 2 2 1)

/-- C13: over the reals, with all weights and biases zero, for every input every hidden
activation and every output activation written by `forward` equals 0.5; for shape `(2, 2, 1)`
the vectors are `[0.5, 0.5]` and `[0.5]`, whatever the input. -/
theorem C13_zero_parameters_give_half :
    (∀ (I H O : Nat) (input hidden output : List ℝ), hidden.length = H → output.length = O →
      (∀ j < H, vget (forward Real.exp I H O (zeroNN I H O) input hidden output).1 j = 0.5) ∧
      (∀ k < O, vget (forward Real.exp I H O (zeroNN I H O) input hidden output).2 k = 0.5)) ∧
    (∀ (input : List ℝ) (h0 h1 o0 : ℝ),
      forward Real.exp 2 2 1 (zeroNN 2 2 1) input [h0, h1] [o0] = ([0.5, 0.5], [0.5])) := by
  have hsig : sigmoid Real.exp 0 = 0.5 := by simp [sigmoid]; norm_num
  constructor
  · intro I H O input hidden output hh ho
    constructor
    · intro j hj
      rw [forward_hidden Real.exp I H O _ input hidden output (by omega) j hj]
      simp [zeroNN, vget_replicate_zero, mget_replicate_zero, hsig]
    · intro k hk
      rw [forward_output Real.exp I H O _ input hidden output (by omega) k hk]
      simp [zeroNN, vget_replicate_zero, mget_replicate_zero, hsig]
  · intro input h0 h1 o0
    simp [forward, forLoop, zeroNN, vget, mget, hsig]

/-- Witness for C13: shape `(2, 2, 1)`, input `[1, 0]`, zeroed buffers. -/
theorem C13_zero_parameters_give_half_witness :
    vget (forward Real.exp 2 2 1 (zeroNN 2 2 1) [1, 0] [0, 0] [0]).2 0 = 0.5 :=
  ((C13_zero_parameters_give_half.1 2 2 1 [1, 0] [0, 0] [0] rfl rfl).2) 0 (by decide)

/-- C16: the `forward` (and `sigmoid`) of `test.cpp` is the same function as the one of
`main.cpp`; both programs fix the shape `(1024, 64, 1)`; and `loadNN` reads the flat order
that `saveNN` writes: `saveNN` writes `W1` row-major, `b1`, `W2` row-major, `b2`, and a file
of full length (numerals within the range of `double`, as `saveNN` writes them) loaded into a
store of shape `(I, H, O)` fills that same sequence, so saving the loaded store (with exact
printing) writes the file back. -/
theorem C16_same_forward_constants_order [Field R] (exp : R → R) :
    (∀ (I H O : Nat) (nn : NeuralNetwork R) (input hidden output : List R),
      Test.forward exp I H O nn input hidden output =
        forward exp I H O nn input hidden output) ∧
    (∀ z : R, Test.sigmoid exp z = sigmoid exp z) ∧
    (Test.INPUT_SIZE, Test.HIDDEN_SIZE, Test.NUM_CLASSES) = (1024, 64, 1) ∧
    (INPUT_SIZE, HIDDEN_SIZE, NUM_CLASSES) = (1024, 64, 1) ∧
    (∀ (fmt : R → R) (nn : NeuralNetwork R),
      (saveNN fmt true nn).1 = some ((flatParams nn).map fmt)) ∧
    (∀ (I H O : Nat) (nn : NeuralNetwork R) (filename : String) (file : List R),
      WellShaped I H O nn → file.length = I * H + H + H * O + O →
      flatParams (loadNN filename (some (file.map Token.num)) nn).1 = file ∧
      (saveNN id true (loadNN filename (some (file.map Token.num)) nn).1).1 = some file) := by
  refine ⟨fun _ _ _ _ _ _ _ => rfl, fun _ => rfl, by decide, by decide, ?_, ?_⟩
  · intro fmt nn; rw [saveNN_opened]
  · intro I H O nn filename file hnn hlen
    have hflat : flatParams (loadNN filename (some (file.map Token.num)) nn).1 = file := by
      rw [loadNN_flat_num filename file nn, flatParams_length hnn,
        List.take_of_length_le (by omega),
        List.drop_of_length_le (by rw [flatParams_length hnn]; omega)]
      simp
    refine ⟨hflat, ?_⟩
    rw [saveNN_opened, hflat]
    simp

/-- Witness for C16: nine numbers loaded into the all-zero store of shape `(2, 2, 1)` and
saved again. -/
theorem C16_same_forward_constants_order_witness :
    WellShaped 2 2 1 (zeroNN 2 2 1 : NeuralNetwork ℝ) ∧
    (saveNN id true (loadNN "Network.csv"
      (some (([1, 2, 3, 4, 5, 6, 7, 8, 9] : List ℝ).map Token.num))
      (zeroNN 2 2 1 : NeuralNetwork ℝ)).1).1 = some [1, 2, 3, 4, 5, 6, 7, 8, 9] :=
  ⟨wellShaped_zeroNN 2 2 1,
   ((C16_same_forward_constants_order Real.exp).2.2.2.2.2 2 2 1 (zeroNN 2 2 1)
      "Network.csv" [1, 2, 3, 4, 5, 6, 7, 8, 9] (wellShaped_zeroNN 2 2 1) (by decide)).2⟩

/-- The output activation of the forward pass run by `trainSample` lies in `(0, 1)`. -/
theorem trainSample_output_range (I H O : Nat) (nn : NeuralNetwork ℝ) (input : List ℝ)
    (k : Nat) (hk : k < O) :
    0 < vget (forward Real.exp I H O nn input (List.replicate H 0) (List.replicate O 0)).2 k ∧
    vget (forward Real.exp I H O nn input (List.replicate H 0) (List.replicate O 0)).2 k < 1 := by
  rw [forward_output Real.exp I H O nn input _ _ (by simp) k hk]
  exact ⟨sigmoid_real_pos _, sigmoid_real_lt_one _⟩

theorem trainSample_hidden_range (I H O : Nat) (nn : NeuralNetwork ℝ) (input : List ℝ)
    (j : Nat) (hj : j < H) :
    0 < vget (forward Real.exp I H O nn input (List.replicate H 0) (List.replicate O 0)).1 j ∧
    vget (forward Real.exp I H O nn input (List.replicate H 0) (List.replicate O 0)).1 j < 1 := by
  rw [forward_hidden Real.exp I H O nn input _ _ (by simp) j hj]
  exact ⟨sigmoid_real_pos _, sigmoid_real_lt_one _⟩

theorem learningRate_nonneg [LinearOrderedField R] : (0 : R) ≤ LEARNING_RATE := by
  simp [LEARNING_RATE]
  norm_num

/-- In exact real arithmetic, with `O = 1`, one `trainSample` call strictly increases `b2[0]`
for target `[1]` and strictly decreases it for target `[0]`. -/
theorem output_bias_strict_exact (I H : Nat) (nn : NeuralNetwork ℝ)
    (input : List ℝ) (hnn : WellShaped I H 1 nn) :
    vget nn.b_output 0 < vget (trainSample Real.exp I H 1 nn input [1]).2.b_output 0 ∧
    vget (trainSample Real.exp I H 1 nn input [0]).2.b_output 0 < vget nn.b_output 0 := by
  obtain ⟨hpos, hlt⟩ := trainSample_output_range I H 1 nn input 0 (by decide)
  have h1 : specDeltaOut (forward Real.exp I H 1 nn input (List.replicate H 0)
      (List.replicate 1 0)).2 [1] 0 < 0 := by
    rw [specDeltaOut]
    have : vget ([1] : List ℝ) 0 = 1 := rfl
    rw [this]
    have hneg : vget (forward Real.exp I H 1 nn input (List.replicate H 0)
      (List.replicate 1 0)).2 0 - 1 < 0 := by linarith
    have hp : 0 < 1 - vget (forward Real.exp I H 1 nn input (List.replicate H 0)
      (List.replicate 1 0)).2 0 := by linarith
    exact mul_neg_of_neg_of_pos (mul_neg_of_neg_of_pos hneg hpos) hp
  have h0 : 0 < specDeltaOut (forward Real.exp I H 1 nn input (List.replicate H 0)
      (List.replicate 1 0)).2 [0] 0 := by
    rw [specDeltaOut]
    have : vget ([0] : List ℝ) 0 = 0 := rfl
    rw [this, sub_zero]
    have hp : 0 < 1 - vget (forward Real.exp I H 1 nn input (List.replicate H 0)
      (List.replicate 1 0)).2 0 := by linarith
    exact mul_pos (mul_pos hpos hpos) hp
  have hη : (0 : ℝ) < LEARNING_RATE := by simp [LEARNING_RATE]; norm_num
  constructor
  · rw [(trainSample_b_output Real.exp I H 1 nn input [1] hnn.2.2.2).2 0 (by decide)]
    nlinarith [mul_pos hη (neg_pos.mpr h1)]
  · rw [(trainSample_b_output Real.exp I H 1 nn input [0] hnn.2.2.2).2 0 (by decide)]
    nlinarith [mul_pos hη h0]

/-- C20, as stated, fails: for the store `saturatedStore` (shape `(2, 2, 1)`, `b2[0] = 800`,
all other parameters `0`) and the input `[1, 0]` the output activation is exactly `1`
(`std::exp(-800)` underflows to `0`), the output error signal for target `[0]` is
`(1 - 0) * 1 * (1 - 1) = 0`, and the `trainSample` call leaves `b2[0]` at `800`: it does not
strictly decrease. -/
theorem C20_saturated_bias_stays :
    WellShaped 2 2 1 (saturatedStore : NeuralNetwork ℝ) ∧
    vget (saturatedStore : NeuralNetwork ℝ).b_output 0 = 800 ∧
    specDeltaOut (forward (expUnderflow Real.exp) 2 2 1 saturatedStore [1, 0]
      (List.replicate 2 0) (List.replicate 1 0)).2 [0] 0 = 0 ∧
    vget (trainSample (expUnderflow Real.exp) 2 2 1 saturatedStore [1, 0] [0]).2.b_output 0 =
      800 ∧
    ¬ (vget (trainSample (expUnderflow Real.exp) 2 2 1 saturatedStore [1, 0] [0]).2.b_output 0 <
      vget (saturatedStore : NeuralNetwork ℝ).b_output 0) := by
  have hb : vget (saturatedStore : NeuralNetwork ℝ).b_output 0 = 800 := rfl
  have ho := (forward_saturatedStore (List.replicate 2 0) (List.replicate 1 0) rfl rfl).2
  have hd : specDeltaOut (forward (expUnderflow Real.exp) 2 2 1 saturatedStore [1, 0]
      (List.replicate 2 0) (List.replicate 1 0)).2 [0] 0 = 0 := by
    rw [specDeltaOut, ho]
    simp
  have ht : vget (trainSample (expUnderflow Real.exp) 2 2 1 saturatedStore [1, 0]
      [0]).2.b_output 0 = 800 := by
    rw [(trainSample_b_output (expUnderflow Real.exp) 2 2 1 saturatedStore [1, 0] [0]
      rfl).2 0 (by decide), hd, hb]
    simp
  refine ⟨wellShaped_saturatedStore, hb, hd, ht, ?_⟩
  rw [ht, hb]
  exact lt_irrefl 800

/-- C20, amended: with `O = 1`, for every store of shape `(I, H, 1)` and every input with
components in `[0, 1]`, whatever non-negative values `std::exp` returns (`0` on underflow
included), one
`trainSample` call never moves the output bias away from the label: `b2[0]` does not decrease
for target `[1]` and does not increase for target `[0]`; the output error signal is at most
zero for target `[1]` and at least zero for target `[0]`, and it is zero, leaving `b2[0]`
where it was, when the output activation is exactly `1` or exactly `0`. -/
theorem C20_output_bias_not_away_from_label [LinearOrderedField R] (exp : R → R)
    (hexp : ∀ x, 0 ≤ exp x) (I H : Nat) (nn : NeuralNetwork R)
    (input : List R) (hnn : WellShaped I H 1 nn) (_hin : input.length = I)
    (_hrange : ∀ i < I, 0 ≤ vget input i ∧ vget input i ≤ 1) :
    vget nn.b_output 0 ≤ vget (trainSample exp I H 1 nn input [1]).2.b_output 0 ∧
    vget (trainSample exp I H 1 nn input [0]).2.b_output 0 ≤ vget nn.b_output 0 ∧
    specDeltaOut (forward exp I H 1 nn input (List.replicate H 0)
      (List.replicate 1 0)).2 [1] 0 ≤ 0 ∧
    0 ≤ specDeltaOut (forward exp I H 1 nn input (List.replicate H 0)
      (List.replicate 1 0)).2 [0] 0 ∧
    ((vget (forward exp I H 1 nn input (List.replicate H 0) (List.replicate 1 0)).2 0 = 1 ∨
      vget (forward exp I H 1 nn input (List.replicate H 0) (List.replicate 1 0)).2 0 = 0) →
      vget (trainSample exp I H 1 nn input [1]).2.b_output 0 = vget nn.b_output 0 ∧
      vget (trainSample exp I H 1 nn input [0]).2.b_output 0 = vget nn.b_output 0) := by
  have hrange : 0 < vget (forward exp I H 1 nn input (List.replicate H 0)
      (List.replicate 1 0)).2 0 ∧
      vget (forward exp I H 1 nn input (List.replicate H 0) (List.replicate 1 0)).2 0 ≤ 1 := by
    rw [forward_output exp I H 1 nn input _ _ (by simp) 0 (by decide)]
    exact sigmoid_range exp hexp _
  obtain ⟨hpos, hle⟩ := hrange
  have hη : (0 : R) ≤ LEARNING_RATE := learningRate_nonneg
  have e1 := (trainSample_b_output exp I H 1 nn input [1] hnn.2.2.2).2 0 (by decide)
  have e0 := (trainSample_b_output exp I H 1 nn input [0] hnn.2.2.2).2 0 (by decide)
  have v1 : vget ([1] : List R) 0 = 1 := rfl
  have v0 : vget ([0] : List R) 0 = 0 := rfl
  have h1 : specDeltaOut (forward exp I H 1 nn input (List.replicate H 0)
      (List.replicate 1 0)).2 [1] 0 ≤ 0 := by
    rw [specDeltaOut, v1]
    have hneg : vget (forward exp I H 1 nn input (List.replicate H 0)
      (List.replicate 1 0)).2 0 - 1 ≤ 0 := by linarith
    have hp : 0 ≤ 1 - vget (forward exp I H 1 nn input (List.replicate H 0)
      (List.replicate 1 0)).2 0 := by linarith
    exact mul_nonpos_of_nonpos_of_nonneg (mul_nonpos_of_nonpos_of_nonneg hneg hpos.le) hp
  have h0 : 0 ≤ specDeltaOut (forward exp I H 1 nn input (List.replicate H 0)
      (List.replicate 1 0)).2 [0] 0 := by
    rw [specDeltaOut, v0, sub_zero]
    have hp : 0 ≤ 1 - vget (forward exp I H 1 nn input (List.replicate H 0)
      (List.replicate 1 0)).2 0 := by linarith
    exact mul_nonneg (mul_nonneg hpos.le hpos.le) hp
  refine ⟨?_, ?_, h1, h0, ?_⟩
  · rw [e1]
    have := mul_nonneg hη (neg_nonneg.mpr h1)
    rw [mul_neg] at this
    linarith
  · rw [e0]
    have := mul_nonneg hη h0
    linarith
  · intro hsat
    have hz1 : specDeltaOut (forward exp I H 1 nn input (List.replicate H 0)
        (List.replicate 1 0)).2 [1] 0 = 0 := by
      rw [specDeltaOut, v1]
      rcases hsat with h | h <;> rw [h] <;> simp
    have hz0 : specDeltaOut (forward exp I H 1 nn input (List.replicate H 0)
        (List.replicate 1 0)).2 [0] 0 = 0 := by
      rw [specDeltaOut, v0]
      rcases hsat with h | h <;> rw [h] <;> simp
    rw [e1, e0, hz1, hz0]
    simp

/-- Witness for C20 (amended): the store `saturatedStore` on input `[1, 0]`, with the
exponential that underflows. -/
theorem C20_output_bias_not_away_from_label_witness :
    (∀ x : ℝ, 0 ≤ expUnderflow Real.exp x) ∧
    WellShaped 2 2 1 (saturatedStore : NeuralNetwork ℝ) ∧
    (∀ i < 2, 0 ≤ vget ([1, 0] : List ℝ) i ∧ vget ([1, 0] : List ℝ) i ≤ 1) ∧
    vget (trainSample (expUnderflow Real.exp) 2 2 1 saturatedStore [1, 0] [0]).2.b_output 0 ≤
      vget (saturatedStore : NeuralNetwork ℝ).b_output 0 :=
  have hr : ∀ i < 2, 0 ≤ vget ([1, 0] : List ℝ) i ∧ vget ([1, 0] : List ℝ) i ≤ 1 := by
    intro i hi
    interval_cases i <;> simp [vget]
  ⟨expUnderflow_real_nonneg, wellShaped_saturatedStore, hr,
   (C20_output_bias_not_away_from_label (expUnderflow Real.exp) expUnderflow_real_nonneg 2 2
      saturatedStore [1, 0] wellShaped_saturatedStore rfl hr).2.1⟩

theorem wellShaped_trainSample [Field R] (exp : R → R) (I H O : Nat) (nn : NeuralNetwork R)
    (input target : List R) (hnn : WellShaped I H O nn) :
    WellShaped I H O (trainSample exp I H O nn input target).2 :=
  ⟨(trainSample_w_input_hidden exp I H O nn input target hnn.1).1,
   (trainSample_b_hidden exp I H O nn input target hnn.2.1).1,
   (trainSample_w_hidden_output exp I H O nn input target hnn.2.2.1).1,
   (trainSample_b_output exp I H O nn input target hnn.2.2.2).1⟩

theorem hiddenSymmetric_zeroNN [Zero R] (I H O : Nat) :
    HiddenSymmetric I H O (zeroNN I H O : NeuralNetwork R) := by
  intro j _ j' _
  simp [zeroNN, vget_replicate_zero, mget_replicate_zero]

/-- One training step keeps identical hidden units identical. -/
theorem hiddenSymmetric_trainSample [Field R] (exp : R → R) (I H O : Nat)
    (nn : NeuralNetwork R) (input target : List R) (hnn : WellShaped I H O nn)
    (hsym : HiddenSymmetric I H O nn) :
    HiddenSymmetric I H O (trainSample exp I H O nn input target).2 := by
  intro j hj j' hj'
  obtain ⟨s1, s2, s3⟩ := hsym j hj j' hj'
  have hhid : vget (forward exp I H O nn input (List.replicate H 0) (List.replicate O 0)).1 j = vget (forward exp I H O nn input (List.replicate H 0) (List.replicate O 0)).1 j' := by
    rw [forward_hidden exp I H O nn input _ _ (by simp) j hj,
      forward_hidden exp I H O nn input _ _ (by simp) j' hj', s2]
    congr 2
    exact Finset.sum_congr rfl (fun i hi => by rw [s1 i (Finset.mem_range.mp hi)])
  have hdh : specDeltaHid O nn.w_hidden_output (forward exp I H O nn input (List.replicate H 0) (List.replicate O 0)).1 (forward exp I H O nn input (List.replicate H 0) (List.replicate O 0)).2 target j =
      specDeltaHid O nn.w_hidden_output (forward exp I H O nn input (List.replicate H 0) (List.replicate O 0)).1 (forward exp I H O nn input (List.replicate H 0) (List.replicate O 0)).2 target j' := by
    rw [specDeltaHid, specDeltaHid, hhid]
    congr 2
    exact Finset.sum_congr rfl (fun k hk => by rw [s3 k (Finset.mem_range.mp hk)])
  refine ⟨fun i hi => ?_, ?_, fun k hk => ?_⟩
  · rw [(trainSample_w_input_hidden exp I H O nn input target hnn.1).2 i j hi hj,
      (trainSample_w_input_hidden exp I H O nn input target hnn.1).2 i j' hi hj',
      s1 i hi, hdh]
  · rw [(trainSample_b_hidden exp I H O nn input target hnn.2.1).2 j hj,
      (trainSample_b_hidden exp I H O nn input target hnn.2.1).2 j' hj', s2, hdh]
  · rw [(trainSample_w_hidden_output exp I H O nn input target hnn.2.2.1).2 j k hj hk,
      (trainSample_w_hidden_output exp I H O nn input target hnn.2.2.1).2 j' k hj' hk,
      s3 k hk, hhid]

theorem trainSeq_invariant [Field R] (exp : R → R) (I H O : Nat)
    (samples : List (List R × List R)) (nn : NeuralNetwork R) (hnn : WellShaped I H O nn)
    (hsym : HiddenSymmetric I H O nn) :
    WellShaped I H O (trainSeq exp I H O samples nn) ∧
    HiddenSymmetric I H O (trainSeq exp I H O samples nn) := by
  induction samples generalizing nn with
  | nil => exact ⟨hnn, hsym⟩
  | cons s samples ih =>
    exact ih _ (wellShaped_trainSample exp I H O nn s.1 s.2 hnn)
      (hiddenSymmetric_trainSample exp I H O nn s.1 s.2 hnn hsym)

/-- C19: hidden-unit symmetry is an invariant of `trainSample`: for a store of shape
`(I, H, O)` whose hidden units all carry identical parameters, the store after the call has
the same property, for every input and target; hence after any sequence of `trainSample`
calls starting from the all-zero store no two hidden units differ. -/
theorem C19_hidden_symmetry_invariant [Field R] (exp : R → R) (I H O : Nat)
    (nn : NeuralNetwork R) (input target : List R) (hnn : WellShaped I H O nn)
    (_hin : input.length = I) (_ht : target.length = O)
    (hsym : HiddenSymmetric I H O nn) :
    HiddenSymmetric I H O (trainSample exp I H O nn input target).2 ∧
    (∀ samples : List (List R × List R),
      HiddenSymmetric I H O (trainSeq exp I H O samples (zeroNN I H O))) :=
  ⟨hiddenSymmetric_trainSample exp I H O nn input target hnn hsym,
   fun samples => (trainSeq_invariant exp I H O samples (zeroNN I H O)
     (wellShaped_zeroNN I H O) (hiddenSymmetric_zeroNN I H O)).2⟩

/-- Witness for C19: the all-zero store of shape `(2, 2, 1)`, sample `([1, 0], [1])`. -/
theorem C19_hidden_symmetry_invariant_witness :
    WellShaped 2 2 1 (zeroNN 2 2 1 : NeuralNetwork ℝ) ∧
    HiddenSymmetric 2 2 1 (zeroNN 2 2 1 : NeuralNetwork ℝ) ∧
    HiddenSymmetric 2 2 1 (trainSample Real.exp 2 2 1 (zeroNN 2 2 1) [1, 0] [1]).2 :=
  ⟨wellShaped_zeroNN 2 2 1, hiddenSymmetric_zeroNN 2 2 1,
   (C19_hidden_symmetry_invariant Real.exp 2 2 1 (zeroNN 2 2 1) [1, 0] [1]
      (wellShaped_zeroNN 2 2 1) rfl rfl (hiddenSymmetric_zeroNN 2 2 1)).1⟩

/-! ## The epoch loop -/

theorem trainSeq_append [Field R] (exp : R → R) (I H O : Nat)
    (a b : List (List R × List R)) (nn : NeuralNetwork R) :
    trainSeq exp I H O (a ++ b) nn = trainSeq exp I H O b (trainSeq exp I H O a nn) := by
  simp [trainSeq, List.foldl_append]

theorem zip_take_succ (X Y : List (List R)) (n : Nat) (hX : n < X.length)
    (hY : n < Y.length) :
    (X.zip Y).take (n + 1) = (X.zip Y).take n ++ [(X.getD n [], Y.getD n [])] := by
  have hz : n < (X.zip Y).length := by simp [List.length_zip]; omega
  rw [List.take_succ, List.getElem?_eq_getElem hz, List.getElem_zip,
    List.getD_eq_getElem _ _ hX, List.getD_eq_getElem _ _ hY]
  rfl

/-- The inner loop of an epoch after `n` iterations: the accumulated loss and the store. -/
theorem trainEpoch_loop [Field R] (exp : R → R) (I H O : Nat) (X Y : List (List R))
    (nn : NeuralNetwork R) (hXY : X.length = Y.length) (n : Nat) (hn : n ≤ X.length) :
    forLoop n (fun i (st : R × NeuralNetwork R) =>
      let r := trainSample exp I H O st.2 (X.getD i []) (Y.getD i [])
      (st.1 + r.1, r.2)) (0, nn) =
    (∑ i in Finset.range n,
      (trainSample exp I H O (trainSeq exp I H O ((X.zip Y).take i) nn)
        (X.getD i []) (Y.getD i [])).1,
     trainSeq exp I H O ((X.zip Y).take n) nn) := by
  induction n with
  | zero => simp [forLoop, trainSeq]
  | succ n ih =>
    simp only [forLoop]
    rw [ih (by omega), zip_take_succ X Y n (by omega) (by omega), trainSeq_append,
      Finset.sum_range_succ]
    rfl

theorem trainEpoch_eq [Field R] (exp : R → R) (I H O : Nat) (X Y : List (List R))
    (nn : NeuralNetwork R) (hXY : X.length = Y.length) :
    trainEpoch exp I H O X Y nn =
    (∑ i in Finset.range X.length,
      (trainSample exp I H O (trainSeq exp I H O ((X.zip Y).take i) nn)
        (X.getD i []) (Y.getD i [])).1,
     trainSeq exp I H O (X.zip Y) nn) := by
  rw [trainEpoch, trainEpoch_loop exp I H O X Y nn hXY X.length le_rfl,
    List.take_of_length_le (by simp [List.length_zip, hXY])]

/-- The store after `e` rounds of the epoch loop. -/
theorem trainEpochs_loop [Field R] (exp : R → R) (I H O : Nat) (X Y : List (List R))
    (nn : NeuralNetwork R) (hXY : X.length = Y.length) (e : Nat) :
    (forLoop e (fun epoch (st : NeuralNetwork R × List (Nat × R)) =>
      let r := trainEpoch exp I H O X Y st.1
      if epoch % 50 = 0 then (r.2, st.2 ++ [(epoch, r.1 / (X.length : R))])
      else (r.2, st.2)) (nn, [])).1 =
    trainSeq exp I H O (List.replicate e (X.zip Y)).flatten nn := by
  induction e with
  | zero => simp [forLoop, trainSeq]
  | succ e ih =>
    simp only [forLoop]
    rw [List.replicate_succ', List.flatten_append, trainSeq_append, ← ih]
    split
    · simp [trainEpoch_eq exp I H O X Y _ hXY]
    · simp [trainEpoch_eq exp I H O X Y _ hXY]

theorem length_flatten_replicate {α : Type} (e : Nat) (l : List α) :
    (List.replicate e l).flatten.length = e * l.length := by
  induction e with
  | zero => simp
  | succ e ih => rw [List.replicate_succ, List.flatten_cons, List.length_append, ih]; ring

theorem flatten_replicate_nil {α : Type} (e : Nat) :
    (List.replicate e ([] : List α)).flatten = [] := by
  induction e with
  | zero => rfl
  | succ e ih => rw [List.replicate_succ, List.flatten_cons, ih]; rfl

/-- C18: the epoch loop runs exactly 500 epochs: for a data set of `n` samples the store after
training is the result of the `500 * n` successive `trainSample` calls that visit samples
`0 .. n-1` in stored order in each epoch; the total loss of an epoch is the sum of the `n`
losses returned in it; and for an empty data set the store is unchanged. -/
theorem C18_epoch_loop [Field R] (exp : R → R) (I H O : Nat) (X Y : List (List R))
    (nn : NeuralNetwork R) (hXY : X.length = Y.length) :
    (trainEpochs exp I H O X Y nn).1 =
      trainSeq exp I H O (List.replicate 500 (X.zip Y)).flatten nn ∧
    (List.replicate 500 (X.zip Y)).flatten.length = 500 * X.length ∧
    (∀ nn0 : NeuralNetwork R,
      (trainEpoch exp I H O X Y nn0).1 = ∑ i in Finset.range X.length,
        (trainSample exp I H O (trainSeq exp I H O ((X.zip Y).take i) nn0)
          (X.getD i []) (Y.getD i [])).1 ∧
      (trainEpoch exp I H O X Y nn0).2 = trainSeq exp I H O (X.zip Y) nn0) ∧
    (trainEpochs exp I H O [] [] nn).1 = nn := by
  refine ⟨trainEpochs_loop exp I H O X Y nn hXY 500, ?_, ?_, ?_⟩
  · rw [length_flatten_replicate, List.length_zip, hXY, min_self]
  · intro nn0
    rw [trainEpoch_eq exp I H O X Y nn0 hXY]
    exact ⟨rfl, rfl⟩
  · have := trainEpochs_loop exp I H O [] [] nn rfl 500
    rw [trainEpochs, EPOCHS, this, List.zip_nil_left, flatten_replicate_nil]
    rfl

/-- Witness for C18: the two-sample data set `([1,0],[1]), ([0,1],[0])` from the all-zero
store of shape `(2, 2, 1)`. -/
theorem C18_epoch_loop_witness :
    ([[1, 0], [0, 1]] : List (List ℝ)).length = ([[1], [0]] : List (List ℝ)).length ∧
    (trainEpochs Real.exp 2 2 1 [[1, 0], [0, 1]] [[1], [0]] (zeroNN 2 2 1)).1 =
      trainSeq Real.exp 2 2 1
        (List.replicate 500 (([[1, 0], [0, 1]] : List (List ℝ)).zip [[1], [0]])).flatten
        (zeroNN 2 2 1) :=
  ⟨rfl, (C18_epoch_loop Real.exp 2 2 1 [[1, 0], [0, 1]] [[1], [0]] (zeroNN 2 2 1) rfl).1⟩

/-! ## The data set loader -/

/-- The loop over the directory entries of one folder. -/
theorem loadDataset_folder [Field R] (t : R) (entries : List (Option (List (List Nat))))
    (X Y : List (List R)) (count : Nat) :
    entries.foldl (fun (acc : List (List R) × List (List R) × Nat) img_file =>
      match img_file with
      | none => acc
      | some resized =>
        (acc.1 ++ [pixels resized], acc.2.1 ++ [List.replicate NUM_CLASSES t], acc.2.2 + 1))
      (X, Y, count) =
    (X ++ (entries.filterMap id).map pixels,
     Y ++ List.replicate (entries.filterMap id).length [t],
     count + (entries.filterMap id).length) := by
  induction entries generalizing X Y count with
  | nil => simp
  | cons e entries ih =>
    cases e with
    | none => simpa using ih X Y count
    | some resized =>
      rw [List.foldl_cons, ih]
      simp [NUM_CLASSES, List.replicate_succ, Nat.add_comm, Nat.add_left_comm]

theorem ite_prod_same {α β γ : Type} (c : Prop) [Decidable c] (a : α) (b : β) (x y : γ) :
    (if c then (a, b, x) else (a, b, y)) = (a, b, if c then x else y) := by
  split <;> rfl

/-- The samples `loadDataset` appends: first those of `class_a`, then those of `class_b`. -/
theorem loadDataset_eq [Field R] (path : String)
    (fs : String → Option (List (Option (List (List Nat))))) (X Y : List (List R)) :
    (loadDataset path fs X Y).1 =
      X ++ (decodable fs (path ++ "/" ++ "class_a")).map pixels ++
        (decodable fs (path ++ "/" ++ "class_b")).map pixels ∧
    (loadDataset path fs X Y).2.1 =
      Y ++ List.replicate (decodable fs (path ++ "/" ++ "class_a")).length [1] ++
        List.replicate (decodable fs (path ++ "/" ++ "class_b")).length [0] := by
  unfold loadDataset decodable
  simp only [List.length_cons, List.length_nil, forLoop, List.getD_cons_zero,
    List.getD_cons_succ, loadDataset_folder]
  cases hA : fs (path ++ "/" ++ "class_a") <;> cases hB : fs (path ++ "/" ++ "class_b") <;>
    simp [ite_prod_same]

/-- C17: `loadDataset` appends one sample per decodable image, those of `class_a` first and
then those of `class_b`; every `class_a` sample gets target `[1]` and every `class_b` sample
target `[0]`; a missing folder contributes nothing and an undecodable entry is skipped.  With
three valid images in `class_a` and `class_b` missing the data set has exactly three samples,
all with target `[1]`. -/
theorem C17_loadDataset_samples [Field R] (path : String)
    (fs : String → Option (List (Option (List (List Nat))))) (X Y : List (List R)) :
    (loadDataset path fs X Y).1 =
      X ++ (decodable fs (path ++ "/" ++ "class_a")).map pixels ++
        (decodable fs (path ++ "/" ++ "class_b")).map pixels ∧
    (loadDataset path fs X Y).2.1 =
      Y ++ List.replicate (decodable fs (path ++ "/" ++ "class_a")).length [1] ++
        List.replicate (decodable fs (path ++ "/" ++ "class_b")).length [0] ∧
    (∀ folder, fs folder = none → decodable fs folder = []) ∧
    (∀ folder entries, fs folder = some entries →
      decodable fs folder = entries.filterMap id) ∧
    (∀ g1 g2 g3 : List (List Nat),
      fs (path ++ "/" ++ "class_a") = some [some g1, some g2, some g3] →
      fs (path ++ "/" ++ "class_b") = none →
      (loadDataset path fs ([] : List (List R)) []).1 = [pixels g1, pixels g2, pixels g3] ∧
      (loadDataset path fs ([] : List (List R)) []).2.1 = [[1], [1], [1]]) := by
  refine ⟨(loadDataset_eq path fs X Y).1, (loadDataset_eq path fs X Y).2, ?_, ?_, ?_⟩
  · intro folder h; simp [decodable, h]
  · intro folder entries h; simp [decodable, h]
  · intro g1 g2 g3 hA hB
    rw [(loadDataset_eq path fs [] []).1, (loadDataset_eq path fs [] []).2]
    simp [decodable, hA, hB, List.replicate_succ]

/-- Witness for C17: `class_a` holds three decodable images and one undecodable entry,
`class_b` is missing. -/
theorem C17_loadDataset_samples_witness :
    (loadDataset "data"
      (fun folder => if folder = "data/class_a" then
        some [some [[255]], none, some [[0]], some [[51]]] else none)
      ([] : List (List ℝ)) []).2.1 = [[1], [1], [1]] := by
  have h := (C17_loadDataset_samples (R := ℝ) "data"
    (fun folder => if folder = "data/class_a" then
      some [some [[255]], none, some [[0]], some [[51]]] else none) [] []).2.1
  rw [h]
  have hA : ("data" ++ "/" ++ "class_a" : String) = "data/class_a" := by decide
  have hB : ("data" ++ "/" ++ "class_b" : String) ≠ "data/class_a" := by decide
  simp [decodable, hA, hB, List.replicate_succ]

/-! ## Repeated training on one sample (real arithmetic) -/

theorem sigmoid_real_mono {z z' : ℝ} (h : z ≤ z') :
    sigmoid Real.exp z ≤ sigmoid Real.exp z' := by
  unfold sigmoid
  have h1 : Real.exp (-z') ≤ Real.exp (-z) := Real.exp_le_exp.mpr (by linarith)
  have h2 := Real.exp_pos (-z')
  exact one_div_le_one_div_of_le (by positivity) (by linarith)

theorem learningRate_pos : (0 : ℝ) < LEARNING_RATE := by
  simp [LEARNING_RATE]; norm_num

/-- The pre-activation of the single output unit. -/
theorem trainSample_loss_single (I H : Nat) (nn : NeuralNetwork ℝ) (input target : List ℝ) :
    (trainSample Real.exp I H 1 nn input target).1 =
      (sigmoid Real.exp (vget nn.b_output 0 + ∑ j in Finset.range H,
        vget (forward Real.exp I H 1 nn input (List.replicate H 0) (List.replicate 1 0)).1 j * mget nn.w_hidden_output j 0) - vget target 0) ^ 2 := by
  rw [trainSample_loss, loss_eq, (forward_length Real.exp I H 1 nn input _ _).2]
  simp only [List.length_replicate, Finset.sum_range_one, Nat.cast_one, div_one]
  rw [forward_output Real.exp I H 1 nn input _ _ (by simp) 0 (by decide)]
  ring

/-- One step on a sample whose output error signal has sign `-u` (`u = 1` for target 1,
`u = -1` for target 0), from a store whose hidden-to-output weights have sign `u`: the
weights keep that sign and the output pre-activation moves in direction `u`. -/
theorem single_sample_step (I H : Nat) (nn : NeuralNetwork ℝ) (input target : List ℝ) (u : ℝ)
    (hnn : WellShaped I H 1 nn) (hx : ∀ i < I, 0 ≤ vget input i) (hu : u * u = 1)
    (hd : u * specDeltaOut (forward Real.exp I H 1 nn input (List.replicate H 0) (List.replicate 1 0)).2 target 0 < 0)
    (hinv : ∀ j < H, 0 ≤ u * mget nn.w_hidden_output j 0) :
    (∀ j < H, 0 ≤ u * mget (trainSample Real.exp I H 1 nn input target).2.w_hidden_output j 0) ∧
    u * (vget nn.b_output 0 + ∑ j in Finset.range H,
      vget (forward Real.exp I H 1 nn input (List.replicate H 0) (List.replicate 1 0)).1 j * mget nn.w_hidden_output j 0) ≤
    u * (vget (trainSample Real.exp I H 1 nn input target).2.b_output 0 + ∑ j in Finset.range H,
      vget (forward Real.exp I H 1 (trainSample Real.exp I H 1 nn input target).2 input (List.replicate H 0) (List.replicate 1 0)).1 j *
        mget (trainSample Real.exp I H 1 nn input target).2.w_hidden_output j 0) := by
  have hη := learningRate_pos
  have hh : ∀ j < H, 0 < vget (forward Real.exp I H 1 nn input (List.replicate H 0) (List.replicate 1 0)).1 j ∧ vget (forward Real.exp I H 1 nn input (List.replicate H 0) (List.replicate 1 0)).1 j < 1 :=
    fun j hj => trainSample_hidden_range I H 1 nn input j hj
  -- the hidden error signal is never positive
  have hdh : ∀ j < H, specDeltaHid 1 nn.w_hidden_output (forward Real.exp I H 1 nn input (List.replicate H 0) (List.replicate 1 0)).1 (forward Real.exp I H 1 nn input (List.replicate H 0) (List.replicate 1 0)).2 target j ≤ 0 := by
    intro j hj
    rw [specDeltaHid, Finset.sum_range_one]
    have h1 : specDeltaOut (forward Real.exp I H 1 nn input (List.replicate H 0) (List.replicate 1 0)).2 target 0 * mget nn.w_hidden_output j 0 =
        (u * specDeltaOut (forward Real.exp I H 1 nn input (List.replicate H 0) (List.replicate 1 0)).2 target 0) * (u * mget nn.w_hidden_output j 0) := by
      have : (u * specDeltaOut (forward Real.exp I H 1 nn input (List.replicate H 0) (List.replicate 1 0)).2 target 0) * (u * mget nn.w_hidden_output j 0) =
          (u * u) * (specDeltaOut (forward Real.exp I H 1 nn input (List.replicate H 0) (List.replicate 1 0)).2 target 0 * mget nn.w_hidden_output j 0) := by ring
      rw [this, hu, one_mul]
    have h2 : specDeltaOut (forward Real.exp I H 1 nn input (List.replicate H 0) (List.replicate 1 0)).2 target 0 * mget nn.w_hidden_output j 0 ≤ 0 := by
      rw [h1]; exact mul_nonpos_of_nonpos_of_nonneg hd.le (hinv j hj)
    have h3 : 0 ≤ vget (forward Real.exp I H 1 nn input (List.replicate H 0) (List.replicate 1 0)).1 j * (1 - vget (forward Real.exp I H 1 nn input (List.replicate H 0) (List.replicate 1 0)).1 j) :=
      mul_nonneg (hh j hj).1.le (by linarith [(hh j hj).2])
    have : specDeltaOut (forward Real.exp I H 1 nn input (List.replicate H 0) (List.replicate 1 0)).2 target 0 * mget nn.w_hidden_output j 0 * vget (forward Real.exp I H 1 nn input (List.replicate H 0) (List.replicate 1 0)).1 j *
        (1 - vget (forward Real.exp I H 1 nn input (List.replicate H 0) (List.replicate 1 0)).1 j) = (specDeltaOut (forward Real.exp I H 1 nn input (List.replicate H 0) (List.replicate 1 0)).2 target 0 * mget nn.w_hidden_output j 0) *
        (vget (forward Real.exp I H 1 nn input (List.replicate H 0) (List.replicate 1 0)).1 j * (1 - vget (forward Real.exp I H 1 nn input (List.replicate H 0) (List.replicate 1 0)).1 j)) := by ring
    rw [this]
    exact mul_nonpos_of_nonpos_of_nonneg h2 h3
  -- hidden activations do not decrease
  have hhid : ∀ j < H, vget (forward Real.exp I H 1 nn input (List.replicate H 0) (List.replicate 1 0)).1 j ≤
      vget (forward Real.exp I H 1 (trainSample Real.exp I H 1 nn input target).2 input (List.replicate H 0) (List.replicate 1 0)).1 j := by
    intro j hj
    rw [forward_hidden Real.exp I H 1 nn input _ _ (by simp) j hj,
      forward_hidden Real.exp I H 1 (trainSample Real.exp I H 1 nn input target).2 input _ _ (by simp) j hj]
    apply sigmoid_real_mono
    rw [(trainSample_b_hidden Real.exp I H 1 nn input target hnn.2.1).2 j hj]
    have hb : vget nn.b_hidden j ≤ vget nn.b_hidden j -
        LEARNING_RATE * specDeltaHid 1 nn.w_hidden_output (forward Real.exp I H 1 nn input (List.replicate H 0) (List.replicate 1 0)).1 (forward Real.exp I H 1 nn input (List.replicate H 0) (List.replicate 1 0)).2 target j := by
      nlinarith [mul_nonneg hη.le (neg_nonneg.mpr (hdh j hj))]
    refine add_le_add hb (Finset.sum_le_sum (fun i hi => ?_))
    have hi' := Finset.mem_range.mp hi
    rw [(trainSample_w_input_hidden Real.exp I H 1 nn input target hnn.1).2 i j hi' hj]
    have h4 : 0 ≤ LEARNING_RATE * (-(specDeltaHid 1 nn.w_hidden_output (forward Real.exp I H 1 nn input (List.replicate H 0) (List.replicate 1 0)).1 (forward Real.exp I H 1 nn input (List.replicate H 0) (List.replicate 1 0)).2 target j)) *
        (vget input i * vget input i) :=
      mul_nonneg (mul_nonneg hη.le (neg_nonneg.mpr (hdh j hj)))
        (mul_nonneg (hx i hi') (hx i hi'))
    nlinarith [h4]
  -- hidden-to-output weights move in direction `u`
  have hw : ∀ j < H, u * mget nn.w_hidden_output j 0 ≤ u * mget (trainSample Real.exp I H 1 nn input target).2.w_hidden_output j 0 := by
    intro j hj
    rw [(trainSample_w_hidden_output Real.exp I H 1 nn input target hnn.2.2.1).2 j 0 hj
      (by decide)]
    have h5 : 0 ≤ LEARNING_RATE * (-(u * specDeltaOut (forward Real.exp I H 1 nn input (List.replicate H 0) (List.replicate 1 0)).2 target 0)) * vget (forward Real.exp I H 1 nn input (List.replicate H 0) (List.replicate 1 0)).1 j :=
      mul_nonneg (mul_nonneg hη.le (neg_nonneg.mpr hd.le)) (hh j hj).1.le
    nlinarith [h5]
  have hb2 : u * vget nn.b_output 0 ≤ u * vget (trainSample Real.exp I H 1 nn input target).2.b_output 0 := by
    rw [(trainSample_b_output Real.exp I H 1 nn input target hnn.2.2.2).2 0 (by decide)]
    nlinarith [mul_pos hη (neg_pos.mpr hd)]
  refine ⟨fun j hj => le_trans (hinv j hj) (hw j hj), ?_⟩
  rw [mul_add, mul_add, Finset.mul_sum, Finset.mul_sum]
  refine add_le_add hb2 (Finset.sum_le_sum (fun j hj => ?_))
  have hj' := Finset.mem_range.mp hj
  have e1 : u * (vget (forward Real.exp I H 1 nn input (List.replicate H 0) (List.replicate 1 0)).1 j * mget nn.w_hidden_output j 0) =
      vget (forward Real.exp I H 1 nn input (List.replicate H 0) (List.replicate 1 0)).1 j * (u * mget nn.w_hidden_output j 0) := by ring
  have e2 : u * (vget (forward Real.exp I H 1 (trainSample Real.exp I H 1 nn input target).2 input (List.replicate H 0)
      (List.replicate 1 0)).1 j * mget (trainSample Real.exp I H 1 nn input target).2.w_hidden_output j 0) =
      vget (forward Real.exp I H 1 (trainSample Real.exp I H 1 nn input target).2 input (List.replicate H 0)
      (List.replicate 1 0)).1 j * (u * mget (trainSample Real.exp I H 1 nn input target).2.w_hidden_output j 0) := by ring
  rw [e1, e2]
  exact mul_le_mul (hhid j hj') (hw j hj') (hinv j hj') (le_trans (hh j hj').1.le (hhid j hj'))

theorem specDeltaOut_target_one (I H : Nat) (nn : NeuralNetwork ℝ) (input : List ℝ) :
    specDeltaOut (forward Real.exp I H 1 nn input (List.replicate H 0) (List.replicate 1 0)).2 [1] 0 < 0 := by
  obtain ⟨hpos, hlt⟩ := trainSample_output_range I H 1 nn input 0 (by decide)
  rw [specDeltaOut]
  have : vget ([1] : List ℝ) 0 = 1 := rfl
  rw [this]
  exact mul_neg_of_neg_of_pos (mul_neg_of_neg_of_pos (by linarith) hpos) (by linarith)

theorem specDeltaOut_target_zero (I H : Nat) (nn : NeuralNetwork ℝ) (input : List ℝ) :
    0 < specDeltaOut (forward Real.exp I H 1 nn input (List.replicate H 0) (List.replicate 1 0)).2 [0] 0 := by
  obtain ⟨hpos, hlt⟩ := trainSample_output_range I H 1 nn input 0 (by decide)
  rw [specDeltaOut]
  have : vget ([0] : List ℝ) 0 = 0 := rfl
  rw [this, sub_zero]
  exact mul_pos (mul_pos hpos hpos) (by linarith)

theorem trainRepeated_succ [Field R] (exp : R → R) (I H O : Nat) (input target : List R)
    (n : Nat) (nn : NeuralNetwork R) :
    trainRepeated exp I H O input target (n + 1) nn =
      (trainSample exp I H O (trainRepeated exp I H O input target n nn) input target).2 := rfl

/-- Along repeated training on one sample from the all-zero store, the hidden-to-output
weights keep the sign `u` of the direction in which the output has to move. -/
theorem trainRepeated_invariant (I H : Nat) (input target : List ℝ) (u : ℝ)
    (hx : ∀ i < I, 0 ≤ vget input i) (hu : u * u = 1)
    (hsign : ∀ nn : NeuralNetwork ℝ, u * specDeltaOut (forward Real.exp I H 1 nn input (List.replicate H 0) (List.replicate 1 0)).2 target 0 < 0) (n : Nat) :
    WellShaped I H 1 (trainRepeated Real.exp I H 1 input target n (zeroNN I H 1)) ∧ ∀ j < H, 0 ≤ u * mget (trainRepeated Real.exp I H 1 input target n (zeroNN I H 1)).w_hidden_output j 0 := by
  induction n with
  | zero =>
    refine ⟨wellShaped_zeroNN I H 1, fun j _ => ?_⟩
    have : mget (trainRepeated Real.exp I H 1 input target 0 (zeroNN I H 1)).w_hidden_output
        j 0 = 0 := mget_replicate_zero H 1 j 0
    rw [this, mul_zero]
  | succ n ih =>
    rw [trainRepeated_succ]
    exact ⟨wellShaped_trainSample Real.exp I H 1 _ input target ih.1,
      (single_sample_step I H _ input target u ih.1 hx hu (hsign _) ih.2).1⟩

/-- C15: over the reals, starting from the all-zero store of shape `(I, H, 1)`, for every
input with components in `[0, 1]` and target `[1]` or `[0]`, the losses returned by repeated
`trainSample` calls on that one sample never increase: the loss returned by call `n + 2` is
at most the loss returned by call `n + 1`, for every `n`. -/
theorem C15_single_sample_losses_nonincreasing (I H : Nat) (input target : List ℝ)
    (_hin : input.length = I) (hrange : ∀ i < I, 0 ≤ vget input i ∧ vget input i ≤ 1)
    (ht : target = [1] ∨ target = [0]) (n : Nat) :
    (trainSample Real.exp I H 1
      (trainRepeated Real.exp I H 1 input target (n + 1) (zeroNN I H 1)) input target).1 ≤
    (trainSample Real.exp I H 1 (trainRepeated Real.exp I H 1 input target n (zeroNN I H 1)) input target).1 := by
  have hx : ∀ i < I, 0 ≤ vget input i := fun i hi => (hrange i hi).1
  rw [trainSample_loss_single, trainSample_loss_single, trainRepeated_succ]
  rcases ht with ht | ht
  · subst ht
    have hsign : ∀ nn : NeuralNetwork ℝ, (1 : ℝ) * specDeltaOut (forward Real.exp I H 1 nn input (List.replicate H 0) (List.replicate 1 0)).2 [1] 0 < 0 :=
      fun nn => by rw [one_mul]; exact specDeltaOut_target_one I H nn input
    obtain ⟨hw, hinv⟩ := trainRepeated_invariant I H input [1] 1 hx (by norm_num) hsign n
    have hz := (single_sample_step I H _ input [1] 1 hw hx (by norm_num) (hsign _) hinv).2
    rw [one_mul, one_mul] at hz
    have hm := sigmoid_real_mono hz
    have hlt := sigmoid_real_lt_one (vget (trainSample Real.exp I H 1
      (trainRepeated Real.exp I H 1 input [1] n (zeroNN I H 1)) input [1]).2.b_output 0 +
      ∑ j in Finset.range H, vget (forward Real.exp I H 1 (trainSample Real.exp I H 1
        (trainRepeated Real.exp I H 1 input [1] n (zeroNN I H 1)) input [1]).2 input
        (List.replicate H 0) (List.replicate 1 0)).1 j *
        mget (trainSample Real.exp I H 1 (trainRepeated Real.exp I H 1 input [1] n
          (zeroNN I H 1)) input [1]).2.w_hidden_output j 0)
    have : vget ([1] : List ℝ) 0 = 1 := rfl
    rw [this]
    nlinarith [hm, hlt]
  · subst ht
    have hsign : ∀ nn : NeuralNetwork ℝ, (-1 : ℝ) * specDeltaOut (forward Real.exp I H 1 nn input (List.replicate H 0) (List.replicate 1 0)).2 [0] 0 < 0 :=
      fun nn => by nlinarith [specDeltaOut_target_zero I H nn input]
    obtain ⟨hw, hinv⟩ := trainRepeated_invariant I H input [0] (-1) hx (by norm_num) hsign n
    have hz := (single_sample_step I H _ input [0] (-1) hw hx (by norm_num) (hsign _) hinv).2
    rw [neg_one_mul, neg_one_mul] at hz
    have hz' := neg_le_neg_iff.mp hz
    have hm := sigmoid_real_mono hz'
    have hpos := sigmoid_real_pos (vget (trainSample Real.exp I H 1
      (trainRepeated Real.exp I H 1 input [0] n (zeroNN I H 1)) input [0]).2.b_output 0 +
      ∑ j in Finset.range H, vget (forward Real.exp I H 1 (trainSample Real.exp I H 1
        (trainRepeated Real.exp I H 1 input [0] n (zeroNN I H 1)) input [0]).2 input
        (List.replicate H 0) (List.replicate 1 0)).1 j *
        mget (trainSample Real.exp I H 1 (trainRepeated Real.exp I H 1 input [0] n
          (zeroNN I H 1)) input [0]).2.w_hidden_output j 0)
    have : vget ([0] : List ℝ) 0 = 0 := rfl
    rw [this, sub_zero, sub_zero]
    nlinarith [hm, hpos]

/-- Witness for C15: shape `(2, 2, 1)`, input `[1, 0]`, target `[1]`, first two calls. -/
theorem C15_single_sample_losses_nonincreasing_witness :
    (∀ i < 2, 0 ≤ vget ([1, 0] : List ℝ) i ∧ vget ([1, 0] : List ℝ) i ≤ 1) ∧
    (trainSample Real.exp 2 2 1
      (trainRepeated Real.exp 2 2 1 [1, 0] [1] 1 (zeroNN 2 2 1)) [1, 0] [1]).1 ≤
    (trainSample Real.exp 2 2 1
      (trainRepeated Real.exp 2 2 1 [1, 0] [1] 0 (zeroNN 2 2 1)) [1, 0] [1]).1 :=
  have hr : ∀ i < 2, 0 ≤ vget ([1, 0] : List ℝ) i ∧ vget ([1, 0] : List ℝ) i ≤ 1 := by
    intro i hi
    interval_cases i <;> simp [vget]
  ⟨hr, C15_single_sample_losses_nonincreasing 2 2 [1, 0] [1] rfl hr (Or.inl rfl) 0⟩

/-! ## Soundness of the fixed-point arithmetic -/

theorem scale_cast : ((scale : Nat) : ℝ) = 1000000000000000 := by
  simp [scale]

theorem scale_pos : (0 : ℝ) < ((scale : Nat) : ℝ) := by
  rw [scale_cast]; norm_num

theorem scale_pos_nat : 0 < scale := by
  unfold scale; norm_num

theorem tsub_eq (a b : Nat) : Nat.sub a b = a - b := rfl

theorem tadd_eq (a b : Nat) : Nat.add a b = a + b := rfl

theorem tmul_eq (a b : Nat) : Nat.mul a b = a * b := rfl

theorem cast_add (a b : Nat) : ((Nat.add a b : Nat) : ℝ) = (a : ℝ) + (b : ℝ) := by
  rw [tadd_eq]; push_cast; rfl

theorem cast_mul (a b : Nat) : ((Nat.mul a b : Nat) : ℝ) = (a : ℝ) * (b : ℝ) := by
  rw [tmul_eq]; push_cast; rfl

/-- Truncated subtraction is at least the difference. -/
theorem le_cast_tsub (a b : Nat) : (a : ℝ) - (b : ℝ) ≤ ((Nat.sub a b : Nat) : ℝ) := by
  rw [tsub_eq]
  rcases le_total b a with h | h
  · rw [Nat.cast_sub h]
  · rw [Nat.sub_eq_zero_of_le h]
    have : (a : ℝ) ≤ (b : ℝ) := by exact_mod_cast h
    simp
    linarith

/-- Truncated subtraction is at most any nonnegative bound of the difference. -/
theorem cast_tsub_le (a b : Nat) (r : ℝ) (h0 : 0 ≤ r) (h : (a : ℝ) - (b : ℝ) ≤ r) :
    ((Nat.sub a b : Nat) : ℝ) ≤ r := by
  rw [tsub_eq]
  rcases le_total b a with h' | h'
  · rw [Nat.cast_sub h']; exact h
  · rw [Nat.sub_eq_zero_of_le h']; simpa using h0

theorem cast_tsub_of_le (a b : Nat) (h : b ≤ a) :
    ((Nat.sub a b : Nat) : ℝ) = (a : ℝ) - (b : ℝ) := by
  rw [tsub_eq]
  exact Nat.cast_sub h

theorem cast_tsub_tsub (a b : Nat) :
    ((Nat.sub a b : Nat) : ℝ) - ((Nat.sub b a : Nat) : ℝ) = (a : ℝ) - (b : ℝ) := by
  rw [tsub_eq, tsub_eq]
  rcases le_total b a with h | h
  · rw [Nat.cast_sub h, Nat.sub_eq_zero_of_le h]; simp
  · rw [Nat.cast_sub h, Nat.sub_eq_zero_of_le h]; simp

theorem fdiv_le (a b : Nat) : ((Nat.div a b : Nat) : ℝ) ≤ (a : ℝ) / (b : ℝ) :=
  Nat.cast_div_le

theorem fdiv_ge (a b : Nat) (hb : 0 < b) : (a : ℝ) / (b : ℝ) - 1 ≤ ((Nat.div a b : Nat) : ℝ) := by
  have hb' : (0 : ℝ) < (b : ℝ) := by exact_mod_cast hb
  have h : a < a / b * b + b := Nat.lt_div_mul_add hb
  have h' : (a : ℝ) < ((a / b : Nat) : ℝ) * (b : ℝ) + (b : ℝ) := by exact_mod_cast h
  show (a : ℝ) / (b : ℝ) - 1 ≤ ((a / b : Nat) : ℝ)
  rw [sub_le_iff_le_add, div_le_iff₀ hb']
  nlinarith

theorem le_cdiv (a b : Nat) (hb : 0 < b) : (a : ℝ) / (b : ℝ) ≤ ((cdiv a b : Nat) : ℝ) := by
  have hb' : (0 : ℝ) < (b : ℝ) := by exact_mod_cast hb
  have h : (b - 1) + a < ((b - 1) + a) / b * b + b := Nat.lt_div_mul_add hb
  have h2 : a ≤ ((b - 1) + a) / b * b := by omega
  have h' : (a : ℝ) ≤ ((((b - 1) + a) / b : Nat) : ℝ) * (b : ℝ) := by exact_mod_cast h2
  unfold cdiv
  show (a : ℝ) / (b : ℝ) ≤ ((((b - 1) + a) / b : Nat) : ℝ)
  rw [div_le_iff₀ hb']
  exact h'

theorem Bd.bound_add {a b : Bd} {x y : ℝ} (hx : a.Mem x) (hy : b.Mem y) :
    (a.add b).Mem (x + y) := by
  unfold Bd.Mem at *
  unfold Bd.add
  rw [cast_add, cast_add]
  linarith

theorem Sg.mem_add {a b : Sg} {x y : ℝ} (hx : a.Mem x) (hy : b.Mem y) :
    (a.add b).Mem (x + y) := by
  refine ⟨Bd.bound_add hx.1 hy.1, ?_⟩
  rw [neg_add]
  exact Bd.bound_add hx.2 hy.2

theorem Sg.mem_sub {a b : Sg} {x y : ℝ} (hx : a.Mem x) (hy : b.Mem y) :
    (a.sub b).Mem (x - y) := by
  have e : -(x - y) = -x + y := by ring
  refine ⟨?_, ?_⟩
  · rw [sub_eq_add_neg]
    exact Bd.bound_add hx.1 hy.2
  · rw [e]
    exact Bd.bound_add hx.2 hy.1

theorem Bd.bound_div100 {a : Bd} {x : ℝ} (hx : a.Mem x) : a.div100.Mem (x / 100) := by
  unfold Bd.Mem at *
  unfold Bd.div100
  have h1 := le_cdiv a.p 100 (by norm_num)
  have h2 := fdiv_le a.q 100
  push_cast at h1 h2
  linarith

theorem Sg.mem_div100 {a : Sg} {x : ℝ} (hx : a.Mem x) : a.div100.Mem (x / 100) := by
  refine ⟨Bd.bound_div100 hx.1, ?_⟩
  rw [← neg_div]
  exact Bd.bound_div100 hx.2

theorem Bd.bound_pmul {y : Pv} {a : Bd} {v x : ℝ} (hv : y.Mem v) (hx : a.Mem x) :
    (a.pmul y).Mem (v * x) := by
  have hS := scale_pos
  have hv0 : (0 : ℝ) ≤ v * (scale : ℝ) := le_trans (Nat.cast_nonneg _) hv.1
  have hp0 : (0 : ℝ) ≤ (a.p : ℝ) := Nat.cast_nonneg _
  have hq0 : (0 : ℝ) ≤ (a.q : ℝ) := Nat.cast_nonneg _
  unfold Bd.Mem at *
  unfold Bd.pmul
  have h1 := le_cdiv (Nat.mul y.hi a.p) scale scale_pos_nat
  have h2 := fdiv_le (Nat.mul y.lo a.q) scale
  rw [cast_mul] at h1 h2
  have e : v * x * (scale : ℝ) = (v * (scale : ℝ)) * (x * (scale : ℝ)) / (scale : ℝ) := by
    field_simp; ring
  have k1 : (v * (scale : ℝ)) * (x * (scale : ℝ)) ≤
      (v * (scale : ℝ)) * ((a.p : ℝ) - (a.q : ℝ)) :=
    mul_le_mul_of_nonneg_left (by linarith) hv0
  have k2 : (v * (scale : ℝ)) * (a.p : ℝ) ≤ (y.hi : ℝ) * (a.p : ℝ) :=
    mul_le_mul_of_nonneg_right hv.2 hp0
  have k3 : (y.lo : ℝ) * (a.q : ℝ) ≤ (v * (scale : ℝ)) * (a.q : ℝ) :=
    mul_le_mul_of_nonneg_right hv.1 hq0
  have key : (v * (scale : ℝ)) * (x * (scale : ℝ)) ≤
      (y.hi : ℝ) * (a.p : ℝ) - (y.lo : ℝ) * (a.q : ℝ) := by linarith
  have key2 := div_le_div_of_nonneg_right key hS.le
  rw [sub_div] at key2
  rw [e]
  linarith

theorem Sg.mem_pmul {y : Pv} {a : Sg} {v x : ℝ} (hv : y.Mem v) (hx : a.Mem x) :
    (Sg.pmul y a).Mem (v * x) := by
  refine ⟨Bd.bound_pmul hv hx.1, ?_⟩
  rw [← mul_neg]
  exact Bd.bound_pmul hv hx.2

theorem Pv.mem_mul {p q : Pv} {x y : ℝ} (hx : p.Mem x) (hy : q.Mem y) :
    (p.mul q).Mem (x * y) := by
  have hS := scale_pos
  have hx0 : (0 : ℝ) ≤ x * (scale : ℝ) := le_trans (Nat.cast_nonneg _) hx.1
  have hy0 : (0 : ℝ) ≤ y * (scale : ℝ) := le_trans (Nat.cast_nonneg _) hy.1
  have e : x * y * (scale : ℝ) = (x * (scale : ℝ)) * (y * (scale : ℝ)) / (scale : ℝ) := by
    field_simp; ring
  unfold Pv.Mem Pv.mul
  rw [e]
  constructor
  · refine le_trans (fdiv_le _ _) (div_le_div_of_nonneg_right ?_ hS.le)
    rw [cast_mul]
    exact mul_le_mul hx.1 hy.1 (Nat.cast_nonneg _) hx0
  · refine le_trans (div_le_div_of_nonneg_right ?_ hS.le) (le_cdiv _ _ scale_pos_nat)
    rw [cast_mul]
    exact mul_le_mul hx.2 hy.2 hy0 (Nat.cast_nonneg _)

theorem Pv.mem_oneSub {p : Pv} {x : ℝ} (hx : p.Mem x) (h1 : x ≤ 1) : p.oneSub.Mem (1 - x) := by
  have hS := scale_pos
  unfold Pv.Mem Pv.oneSub
  have e : (1 - x) * (scale : ℝ) = (scale : ℝ) - x * (scale : ℝ) := by ring
  rw [e]
  constructor
  · refine cast_tsub_le _ _ _ ?_ ?_
    · nlinarith
    · linarith [hx.2]
  · exact le_trans (by linarith [hx.1]) (le_cast_tsub scale p.lo)

theorem Pv.mem_sum {p q : Pv} {x y : ℝ} (hx : p.Mem x) (hy : q.Mem y) :
    (p.add q).Mem (x + y) := by
  unfold Pv.Mem Pv.add
  rw [cast_add, cast_add, add_mul]
  exact ⟨add_le_add hx.1 hy.1, add_le_add hx.2 hy.2⟩

theorem Pv.mem_toSg {p : Pv} {x : ℝ} (hx : p.Mem x) : p.toSg.Mem x := by
  unfold Sg.Mem Bd.Mem Pv.toSg
  constructor
  · simp only [Nat.cast_zero]; linarith [hx.2]
  · simp only [Nat.cast_zero]; linarith [hx.1]

theorem Sg.mem_zero : Sg.zero.Mem 0 := by
  unfold Sg.Mem Bd.Mem Sg.zero
  simp

theorem hstep_err (P M j acc k : Nat) (T : ℝ) (hk : k = scale * (j + 1))
    (hP : 256 * P ≤ scale) (hM : 256 * M ≤ scale)
    (hT0 : 0 ≤ T) (hT2 : T ≤ 2) (he : |(acc : ℝ) - (scale : ℝ) * T| ≤ 2) :
    0 ≤ 1 + ((P : ℝ) - (M : ℝ)) / (scale : ℝ) * T / ((j : ℝ) + 1) ∧
    1 + ((P : ℝ) - (M : ℝ)) / (scale : ℝ) * T / ((j : ℝ) + 1) ≤ 2 ∧
    |((hstep P M k acc : Nat) : ℝ) -
      (scale : ℝ) * (1 + ((P : ℝ) - (M : ℝ)) / (scale : ℝ) * T / ((j : ℝ) + 1))| ≤ 2 := by
  have hS := scale_pos
  have hj : (0 : ℝ) < (j : ℝ) + 1 := by positivity
  have hkpos : 0 < k := by
    rw [hk]; unfold scale; positivity
  have hkr : (k : ℝ) = (scale : ℝ) * ((j : ℝ) + 1) := by
    rw [hk]; push_cast; ring
  have hkr0 : (0 : ℝ) < (k : ℝ) := by exact_mod_cast hkpos
  have hPr : 256 * (P : ℝ) ≤ (scale : ℝ) := by exact_mod_cast hP
  have hMr : 256 * (M : ℝ) ≤ (scale : ℝ) := by exact_mod_cast hM
  have hP0 : (0 : ℝ) ≤ (P : ℝ) := Nat.cast_nonneg _
  have hM0 : (0 : ℝ) ≤ (M : ℝ) := Nat.cast_nonneg _
  obtain ⟨he1, he2⟩ := abs_le.mp he
  have ha0 : (0 : ℝ) ≤ (P : ℝ) / (k : ℝ) := div_nonneg hP0 hkr0.le
  have hb0 : (0 : ℝ) ≤ (M : ℝ) / (k : ℝ) := div_nonneg hM0 hkr0.le
  have hSk : (scale : ℝ) ≤ (k : ℝ) := by
    rw [hkr]
    have : (0 : ℝ) ≤ (scale : ℝ) * (j : ℝ) := mul_nonneg hS.le (Nat.cast_nonneg j)
    linarith
  have ha : (P : ℝ) / (k : ℝ) ≤ 1 / 256 := by
    rw [div_le_div_iff₀ hkr0 (by norm_num)]; linarith
  have hb : (M : ℝ) / (k : ℝ) ≤ 1 / 256 := by
    rw [div_le_div_iff₀ hkr0 (by norm_num)]; linarith
  have eT : ((P : ℝ) - (M : ℝ)) / (scale : ℝ) * T / ((j : ℝ) + 1) =
      (P : ℝ) / (k : ℝ) * T - (M : ℝ) / (k : ℝ) * T := by
    rw [hkr]; field_simp; ring
  have eST : (scale : ℝ) * (1 + ((P : ℝ) - (M : ℝ)) / (scale : ℝ) * T / ((j : ℝ) + 1)) =
      (scale : ℝ) + (P : ℝ) / (k : ℝ) * ((scale : ℝ) * T) -
        (M : ℝ) / (k : ℝ) * ((scale : ℝ) * T) := by
    rw [hkr]; field_simp; ring
  have hA1 := fdiv_le (Nat.mul P acc) k
  have hA2 := fdiv_ge (Nat.mul P acc) k hkpos
  have hB1 := fdiv_le (Nat.mul M acc) k
  have hB2 := fdiv_ge (Nat.mul M acc) k hkpos
  rw [cast_mul, mul_div_right_comm] at hA1 hA2 hB1 hB2
  have pa1 := mul_nonneg ha0 (sub_nonneg.mpr he2)
  have pa2 := mul_nonneg ha0 (sub_nonneg.mpr he1)
  have pb1 := mul_nonneg hb0 (sub_nonneg.mpr he2)
  have pb2 := mul_nonneg hb0 (sub_nonneg.mpr he1)
  have pT1 := mul_nonneg ha0 hT0
  have pT2 := mul_nonneg hb0 hT0
  have pT3 := mul_nonneg ha0 (sub_nonneg.mpr hT2)
  have pT4 := mul_nonneg hb0 (sub_nonneg.mpr hT2)
  have pST : (0 : ℝ) ≤ (scale : ℝ) * T := mul_nonneg hS.le hT0
  have pa3 := mul_nonneg (sub_nonneg.mpr ha) pST
  have pb3 := mul_nonneg (sub_nonneg.mpr hb) pST
  have hST2 : (scale : ℝ) * T ≤ (scale : ℝ) * 2 := mul_le_mul_of_nonneg_left hT2 hS.le
  have hS1 : (1000 : ℝ) ≤ (scale : ℝ) := by rw [scale_cast]; norm_num
  have hle : Nat.div (Nat.mul M acc) k ≤ Nat.add scale (Nat.div (Nat.mul P acc) k) := by
    have : ((Nat.div (Nat.mul M acc) k : Nat) : ℝ) ≤
        ((Nat.add scale (Nat.div (Nat.mul P acc) k) : Nat) : ℝ) := by
      rw [cast_add]
      have : (0 : ℝ) ≤ ((Nat.div (Nat.mul P acc) k : Nat) : ℝ) := Nat.cast_nonneg _
      linarith
    exact Nat.cast_le.mp this
  have ecast : ((hstep P M k acc : Nat) : ℝ) =
      (scale : ℝ) + ((Nat.div (Nat.mul P acc) k : Nat) : ℝ) -
        ((Nat.div (Nat.mul M acc) k : Nat) : ℝ) := by
    unfold hstep
    rw [cast_tsub_of_le _ _ hle, cast_add]
  refine ⟨?_, ?_, ?_⟩
  · rw [eT]; linarith
  · rw [eT]; linarith
  · rw [ecast, eST, abs_le]
    constructor <;> linarith

theorem expPM_horner (P M : Nat) (hP : 256 * P ≤ scale) (hM : 256 * M ≤ scale) :
    |((expPM P M : Nat) : ℝ) -
      (scale : ℝ) * hornerF (((P : ℝ) - (M : ℝ)) / (scale : ℝ)) 5 1| ≤ 2 := by
  have h0 : |((scale : Nat) : ℝ) - (scale : ℝ) * 1| ≤ 2 := by simp
  have k5 : 5000000000000000 = scale * (4 + 1) := by norm_num [scale]
  have k4 : 4000000000000000 = scale * (3 + 1) := by norm_num [scale]
  have k3 : 3000000000000000 = scale * (2 + 1) := by norm_num [scale]
  have k2 : 2000000000000000 = scale * (1 + 1) := by norm_num [scale]
  have k1 : 1000000000000000 = scale * (0 + 1) := by norm_num [scale]
  have s5 := hstep_err P M 4 scale 5000000000000000 1 k5 hP hM (by norm_num) (by norm_num) h0
  have s4 := hstep_err P M 3 _ 4000000000000000 _ k4 hP hM s5.1 s5.2.1 s5.2.2
  have s3 := hstep_err P M 2 _ 3000000000000000 _ k3 hP hM s4.1 s4.2.1 s4.2.2
  have s2 := hstep_err P M 1 _ 2000000000000000 _ k2 hP hM s3.1 s3.2.1 s3.2.2
  have s1 := hstep_err P M 0 _ 1000000000000000 _ k1 hP hM s2.1 s2.2.1 s2.2.2
  unfold expPM
  simp only [hornerF]
  exact s1.2.2

theorem hornerF_five (x : ℝ) :
    hornerF x 5 1 = ∑ m in Finset.range 6, x ^ m / (m.factorial : ℝ) := by
  simp [hornerF, Finset.sum_range_succ, Nat.factorial]
  field_simp
  ring

/-- The Taylor polynomial of degree 5 is within `1 / scale` of the exponential on
`[-1/256, 1/256]`. -/
theorem exp_sub_hornerF (x : ℝ) (hx : |x| ≤ 1 / 256) :
    |Real.exp x - hornerF x 5 1| * (scale : ℝ) ≤ 1 := by
  have hS := scale_pos
  have hb := Real.exp_bound (x := x) (le_trans hx (by norm_num)) (n := 6) (by norm_num)
  have hpow : |x| ^ 6 ≤ (1 / 256) ^ 6 := pow_le_pow_left₀ (abs_nonneg _) hx 6
  have hc : (((6 : ℕ).succ : ℝ) / (((6 : ℕ).factorial : ℝ) * ((6 : ℕ) : ℝ))) = 7 / 4320 := by
    norm_num [Nat.factorial]
  rw [hc, ← hornerF_five] at hb
  have h2 : |x| ^ 6 * (7 / 4320) ≤ (1 / 256) ^ 6 * (7 / 4320) :=
    mul_le_mul_of_nonneg_right hpow (by norm_num)
  have h3 : ((1 : ℝ) / 256) ^ 6 * (7 / 4320) * (scale : ℝ) ≤ 1 := by
    rw [scale_cast]; norm_num
  calc |Real.exp x - hornerF x 5 1| * (scale : ℝ)
      ≤ ((1 / 256) ^ 6 * (7 / 4320)) * (scale : ℝ) :=
        mul_le_mul_of_nonneg_right (le_trans hb h2) hS.le
    _ ≤ 1 := h3

/-- The value of `expPM` is within 3 units of the exponential at a fixed-point argument of
size at most `1/256`. -/
theorem expPM_mem (P M : Nat) (hP : 256 * P ≤ scale) (hM : 256 * M ≤ scale) :
    |Real.exp (((P : ℝ) - (M : ℝ)) / (scale : ℝ)) * (scale : ℝ) - ((expPM P M : Nat) : ℝ)| ≤ 3 := by
  have hS := scale_pos
  have hPr : 256 * (P : ℝ) ≤ (scale : ℝ) := by exact_mod_cast hP
  have hMr : 256 * (M : ℝ) ≤ (scale : ℝ) := by exact_mod_cast hM
  have hP0 : (0 : ℝ) ≤ (P : ℝ) := Nat.cast_nonneg _
  have hM0 : (0 : ℝ) ≤ (M : ℝ) := Nat.cast_nonneg _
  have hx : |((P : ℝ) - (M : ℝ)) / (scale : ℝ)| ≤ 1 / 256 := by
    rw [abs_le]
    constructor
    · rw [le_div_iff₀ hS]; linarith
    · rw [div_le_iff₀ hS]; linarith
  have hT := abs_le.mp (expPM_horner P M hP hM)
  have hE := exp_sub_hornerF _ hx
  rw [← abs_of_pos hS, ← abs_mul, abs_of_pos hS, sub_mul] at hE
  have hE2 := abs_le.mp hE
  rw [abs_le]
  constructor <;> linarith [hT.1, hT.2, hE2.1, hE2.2]

/-- Scaled lower bound of a sigmoid value from a scaled upper bound of the exponential. -/
theorem sigmoid_lower (t D S : ℝ) (ht : 0 < t) (hS : 0 < S) (hD : S + S * t ≤ D) :
    S * S / D ≤ 1 / (1 + t) * S := by
  have hD0 : 0 < D := by nlinarith [mul_pos hS ht]
  have h1t : 0 < 1 + t := by linarith
  rw [div_le_iff₀ hD0, one_div, inv_mul_eq_div, div_mul_eq_mul_div, le_div_iff₀ h1t]
  nlinarith [mul_nonneg hS.le (sub_nonneg.mpr hD)]

/-- Scaled upper bound of a sigmoid value from a scaled lower bound of the exponential. -/
theorem sigmoid_upper (t D S : ℝ) (ht : 0 < t) (hS : 0 < S) (hD0 : 0 < D) (hD : D ≤ S + S * t) :
    1 / (1 + t) * S ≤ S * S / D := by
  have h1t : 0 < 1 + t := by linarith
  rw [le_div_iff₀ hD0, one_div, inv_mul_eq_div, div_mul_eq_mul_div, div_le_iff₀ h1t]
  nlinarith [mul_nonneg hS.le (sub_nonneg.mpr hD)]

theorem Bd.small_le {a : Bd} (h : a.small = true) : 256 * a.p ≤ scale + 256 * a.q := by
  unfold Bd.small at h
  have := Nat.le_of_ble_eq_true h
  rw [tadd_eq, tmul_eq, tmul_eq] at this
  exact this

/-- The enclosure of the sigmoid. -/
theorem sigN_mem {z : Sg} {x : ℝ} (hx : z.Mem x) : (sigN z).Mem (sigmoid Real.exp x) := by
  have hS := scale_pos
  have hSn := scale_pos_nat
  have p := sigmoid_real_pos x
  have q := sigmoid_real_lt_one x
  have ht := Real.exp_pos (-x)
  obtain ⟨hu, hn⟩ := hx
  unfold Bd.Mem at hu hn
  unfold sigN
  cases hg : (z.u.small && z.n.small)
  · simp only [cond_false]
    unfold Pv.Mem
    constructor
    · simp only [Nat.cast_zero]; positivity
    · nlinarith
  · simp only [cond_true]
    rw [Bool.and_eq_true] at hg
    have g1 := Bd.small_le hg.1
    have g2 := Bd.small_le hg.2
    have hsum : z.u.q + z.n.q ≤ z.u.p + z.n.p := by
      have : (z.u.q : ℝ) + (z.n.q : ℝ) ≤ (z.u.p : ℝ) + (z.n.p : ℝ) := by linarith
      exact_mod_cast this
    have hP1 : 256 * (Nat.sub z.n.p z.n.q) ≤ scale := by
      rw [tsub_eq]; omega
    have hM1 : 256 * (Nat.sub z.n.q z.n.p) ≤ scale := by
      rw [tsub_eq]; omega
    have hP0 : 256 * (Nat.sub z.u.q z.u.p) ≤ scale := by
      rw [tsub_eq]; omega
    have hM0 : 256 * (Nat.sub z.u.p z.u.q) ≤ scale := by
      rw [tsub_eq]; omega
    have e1 := abs_le.mp (expPM_mem _ _ hP1 hM1)
    have e0 := abs_le.mp (expPM_mem _ _ hP0 hM0)
    rw [cast_tsub_tsub] at e1 e0
    have hy1 : -x ≤ ((z.n.p : ℝ) - (z.n.q : ℝ)) / (scale : ℝ) := by
      rw [le_div_iff₀ hS]; linarith
    have hy0 : ((z.u.q : ℝ) - (z.u.p : ℝ)) / (scale : ℝ) ≤ -x := by
      rw [div_le_iff₀ hS]; linarith
    have m1 := mul_le_mul_of_nonneg_right (Real.exp_le_exp.mpr hy1) hS.le
    have m0 := mul_le_mul_of_nonneg_right (Real.exp_le_exp.mpr hy0) hS.le
    have eSS : ((1000000000000000000000000000000 : Nat) : ℝ) = (scale : ℝ) * (scale : ℝ) := by
      rw [scale_cast]; norm_num
    have hsc := scale_cast
    unfold Pv.Mem sigmoid
    constructor
    · refine le_trans (fdiv_le _ _) ?_
      rw [eSS]
      refine sigmoid_lower _ _ _ ht hS ?_
      rw [cast_add]
      push_cast
      linarith [e1.1, e1.2]
    · have hpos : 0 < Nat.add scale
          (Nat.sub (expPM (Nat.sub z.u.q z.u.p) (Nat.sub z.u.p z.u.q)) 3) :=
        Nat.lt_of_lt_of_le hSn (Nat.le_add_right _ _)
      refine le_trans ?_ (le_cdiv _ _ hpos)
      rw [eSS]
      have hsub : ((Nat.sub (expPM (Nat.sub z.u.q z.u.p) (Nat.sub z.u.p z.u.q)) 3 : Nat) : ℝ) ≤
          Real.exp (-x) * (scale : ℝ) := by
        refine cast_tsub_le _ _ _ (by positivity) ?_
        push_cast
        linarith [e0.1, e0.2]
      refine sigmoid_upper _ _ _ ht hS (by exact_mod_cast hpos) ?_
      rw [cast_add]
      linarith

/-! ## The 500-epoch run on two samples -/

theorem trainSample_sym_first (p : Sym5 ℝ) :
    (trainSample Real.exp 2 2 1 p.toNN [1, 0] [1]).2 = (symStep Real.exp true p).toNN := by
  simp only [trainSample, forward, forLoop, Sym5.toNN, vget, mget, mset, sigmoid_derivative,
    symStep, symOutput, LEARNING_RATE, List.getD_cons_zero, List.getD_cons_succ, List.set_cons_zero,
    List.set_cons_succ, List.replicate, if_true]
  simp only [NeuralNetwork.mk.injEq, List.cons.injEq, and_true]
  and_intros <;> ring_nf

theorem trainSample_sym_second (p : Sym5 ℝ) :
    (trainSample Real.exp 2 2 1 p.toNN [0, 1] [0]).2 = (symStep Real.exp false p).toNN := by
  simp only [trainSample, forward, forLoop, Sym5.toNN, vget, mget, mset, sigmoid_derivative,
    symStep, symOutput, LEARNING_RATE, List.getD_cons_zero, List.getD_cons_succ, List.set_cons_zero,
    List.set_cons_succ, List.replicate, Bool.false_eq_true, if_false]
  simp only [NeuralNetwork.mk.injEq, List.cons.injEq, and_true]
  and_intros <;> ring_nf

theorem meanLoss_sym (p : Sym5 ℝ) :
    meanLoss Real.exp 2 2 1 [[1, 0], [0, 1]] [[1], [0]] p.toNN =
      ((symOutput Real.exp p p.a1 - 1) * (symOutput Real.exp p p.a1 - 1) +
        symOutput Real.exp p p.a2 * symOutput Real.exp p p.a2) / 2 := by
  simp only [meanLoss, loss, forward, forLoop, Sym5.toNN, vget, mget, symOutput,
    List.getD_cons_zero, List.getD_cons_succ, List.set_cons_zero, List.set_cons_succ,
    List.replicate, List.length_cons, List.length_nil]
  simp
  ring_nf

theorem outH_mem {b : Box} {p : Sym5 ℝ} (h : b.Mem p) {hI : Pv} {hv : ℝ} (hh : hI.Mem hv) :
    (outH b hI).Mem (sigmoid Real.exp (p.d + (hv * p.w + hv * p.w))) :=
  sigN_mem (Sg.mem_add h.2.2.2.2
    (Sg.mem_add (Sg.mem_pmul hh h.2.2.2.1) (Sg.mem_pmul hh h.2.2.2.1)))

theorem outN_mem {b : Box} {p : Sym5 ℝ} (h : b.Mem p) {a : Sg} {x : ℝ} (ha : a.Mem x) :
    (outN b a).Mem (symOutput Real.exp p x) :=
  outH_mem h (sigN_mem (Sg.mem_add h.2.2.1 ha))

theorem sqd_mem {o : Pv} {x : ℝ} (ho : o.Mem x) (h1 : x ≤ 1) : (sqd o).Mem (x * (1 - x)) :=
  Pv.mem_mul ho (Pv.mem_oneSub ho h1)

theorem stepM_mem_first {b : Box} {p : Sym5 ℝ} (h : b.Mem p) {hI mI : Pv} {hv m : ℝ}
    (hh : hI.Mem hv) (hh1 : hv ≤ 1) (hm : mI.Mem m) :
    (stepM true b hI mI).Mem
      ⟨p.a1 + m * (hv * (1 - hv)) * p.w / 100, p.a2, p.c + m * (hv * (1 - hv)) * p.w / 100,
        p.w + hv * (m / 100), p.d + m / 100⟩ := by
  obtain ⟨h1, h2, h3, h4, h5⟩ := h
  have hg := Sg.mem_div100 (Sg.mem_pmul (Pv.mem_mul hm (sqd_mem hh hh1)) h4)
  have hm100 := Sg.mem_div100 (Pv.mem_toSg hm)
  exact ⟨Sg.mem_add h1 hg, h2, Sg.mem_add h3 hg, Sg.mem_add h4 (Sg.mem_pmul hh hm100),
    Sg.mem_add h5 hm100⟩

theorem stepM_mem_second {b : Box} {p : Sym5 ℝ} (h : b.Mem p) {hI mI : Pv} {hv m : ℝ}
    (hh : hI.Mem hv) (hh1 : hv ≤ 1) (hm : mI.Mem m) :
    (stepM false b hI mI).Mem
      ⟨p.a1, p.a2 - m * (hv * (1 - hv)) * p.w / 100, p.c - m * (hv * (1 - hv)) * p.w / 100,
        p.w - hv * (m / 100), p.d - m / 100⟩ := by
  obtain ⟨h1, h2, h3, h4, h5⟩ := h
  have hg := Sg.mem_div100 (Sg.mem_pmul (Pv.mem_mul hm (sqd_mem hh hh1)) h4)
  have hm100 := Sg.mem_div100 (Pv.mem_toSg hm)
  exact ⟨h1, Sg.mem_sub h2 hg, Sg.mem_sub h3 hg, Sg.mem_sub h4 (Sg.mem_pmul hh hm100),
    Sg.mem_sub h5 hm100⟩

theorem symStep_first (p : Sym5 ℝ) (hv o : ℝ) (hhv : hv = sigmoid Real.exp (p.c + p.a1))
    (ho : o = symOutput Real.exp p p.a1) :
    symStep Real.exp true p =
      ⟨p.a1 + (1 - o) * (o * (1 - o)) * (hv * (1 - hv)) * p.w / 100, p.a2,
        p.c + (1 - o) * (o * (1 - o)) * (hv * (1 - hv)) * p.w / 100,
        p.w + hv * ((1 - o) * (o * (1 - o)) / 100), p.d + (1 - o) * (o * (1 - o)) / 100⟩ := by
  subst hhv ho
  simp only [symStep, if_true, Sym5.mk.injEq]
  refine ⟨?_, trivial, ?_, ?_, ?_⟩ <;> ring

theorem symStep_second (p : Sym5 ℝ) (hv o : ℝ) (hhv : hv = sigmoid Real.exp (p.c + p.a2))
    (ho : o = symOutput Real.exp p p.a2) :
    symStep Real.exp false p =
      ⟨p.a1, p.a2 - o * (o * (1 - o)) * (hv * (1 - hv)) * p.w / 100,
        p.c - o * (o * (1 - o)) * (hv * (1 - hv)) * p.w / 100,
        p.w - hv * (o * (o * (1 - o)) / 100), p.d - o * (o * (1 - o)) / 100⟩ := by
  subst hhv ho
  simp only [symStep, Bool.false_eq_true, if_false, Sym5.mk.injEq]
  refine ⟨trivial, ?_, ?_, ?_, ?_⟩ <;> ring

theorem stepN_mem (first : Bool) {b : Box} {p : Sym5 ℝ} (h : b.Mem p) :
    (stepN first b).Mem (symStep Real.exp first p) := by
  cases first
  · have hh := sigN_mem (Sg.mem_add h.2.2.1 h.2.1)
    have ho := outN_mem h h.2.1
    have o1 := (sigmoid_real_lt_one _ : symOutput Real.exp p p.a2 < 1).le
    have h1 := (sigmoid_real_lt_one (p.c + p.a2)).le
    rw [symStep_second p _ _ rfl rfl]
    exact stepM_mem_second h hh h1 (Pv.mem_mul ho (sqd_mem ho o1))
  · have hh := sigN_mem (Sg.mem_add h.2.2.1 h.1)
    have ho := outN_mem h h.1
    have o1 := (sigmoid_real_lt_one _ : symOutput Real.exp p p.a1 < 1).le
    have h1 := (sigmoid_real_lt_one (p.c + p.a1)).le
    rw [symStep_first p _ _ rfl rfl]
    exact stepM_mem_first h hh h1 (Pv.mem_mul (Pv.mem_oneSub ho o1) (sqd_mem ho o1))

theorem iterN_mem (n : Nat) {b : Box} {p : Sym5 ℝ} (h : b.Mem p) :
    (iterN n b).Mem (symIter Real.exp n p) := by
  induction n generalizing b p with
  | zero => exact h
  | succ n ih => exact ih (stepN_mem false (stepN_mem true h))

theorem totN_mem {b : Box} {p : Sym5 ℝ} (h : b.Mem p) :
    (totN b).Mem ((symOutput Real.exp p p.a1 - 1) * (symOutput Real.exp p p.a1 - 1) +
      symOutput Real.exp p p.a2 * symOutput Real.exp p p.a2) := by
  have hA := outN_mem h h.1
  have hB := outN_mem h h.2.1
  have o1 := (sigmoid_real_lt_one _ : symOutput Real.exp p p.a1 < 1).le
  have e : (symOutput Real.exp p p.a1 - 1) * (symOutput Real.exp p p.a1 - 1) =
      (1 - symOutput Real.exp p p.a1) * (1 - symOutput Real.exp p p.a1) := by ring
  rw [e]
  exact Pv.mem_sum (Pv.mem_mul (Pv.mem_oneSub hA o1) (Pv.mem_oneSub hA o1)) (Pv.mem_mul hB hB)

theorem box0_mem : box0.Mem ⟨0, 0, 0, 0, 0⟩ :=
  ⟨Sg.mem_zero, Sg.mem_zero, Sg.mem_zero, Sg.mem_zero, Sg.mem_zero⟩

theorem Bd.bound_mono {a b : Bd} {x : ℝ} (h : a.leb b = true) (hx : a.Mem x) : b.Mem x := by
  unfold Bd.Mem at *
  unfold Bd.leb at h
  rw [Bool.and_eq_true] at h
  have h1 : (a.p : ℝ) ≤ (b.p : ℝ) := by exact_mod_cast Nat.le_of_ble_eq_true h.1
  have h2 : (b.q : ℝ) ≤ (a.q : ℝ) := by exact_mod_cast Nat.le_of_ble_eq_true h.2
  linarith

theorem Sg.mem_mono {a b : Sg} {x : ℝ} (h : a.leb b = true) (hx : a.Mem x) : b.Mem x := by
  unfold Sg.leb at h
  rw [Bool.and_eq_true] at h
  exact ⟨Bd.bound_mono h.1 hx.1, Bd.bound_mono h.2 hx.2⟩

theorem Box.mem_widen {b e : Box} {p : Sym5 ℝ} (hle : Box.leb b e = true) (h : b.Mem p) :
    e.Mem p := by
  simp only [Box.leb, Bool.and_eq_true] at hle
  obtain ⟨⟨⟨⟨l1, l2⟩, l3⟩, l4⟩, l5⟩ := hle
  obtain ⟨h1, h2, h3, h4, h5⟩ := h
  exact ⟨Sg.mem_mono l1 h1, Sg.mem_mono l2 h2, Sg.mem_mono l3 h3, Sg.mem_mono l4 h4,
    Sg.mem_mono l5 h5⟩

theorem symIter_add [Field R] (exp : R → R) (m n : Nat) (p : Sym5 R) :
    symIter exp (m + n) p = symIter exp n (symIter exp m p) := by
  induction m generalizing p with
  | zero => simp [symIter]
  | succ m ih =>
    rw [Nat.succ_add]
    exact ih (symEpoch exp p)

/-- Each checkpoint encloses the 25 epochs run from the checkpoint before it. -/
theorem checkpoint_step :
    ∀ k, k < 20 → Box.leb (iterN 25 (checkpoint k)) (checkpoint (k + 1)) = true := by
  decide!

theorem checkpoint_mem (k : Nat) (hk : k ≤ 20) :
    (checkpoint k).Mem (symIter Real.exp (25 * k) ⟨0, 0, 0, 0, 0⟩) := by
  induction k with
  | zero => exact box0_mem
  | succ k ih =>
    rw [Nat.mul_succ, symIter_add]
    exact Box.mem_widen (checkpoint_step k (by omega)) (iterN_mem 25 (ih (by omega)))

theorem totN_final :
    (totN (checkpoint 20)).lo = 500000041552384 ∧
    (totN (checkpoint 20)).hi = 500000041562948 := by
  decide!

theorem trainSeq_sym (n : Nat) (p : Sym5 ℝ) :
    trainSeq Real.exp 2 2 1
      (List.replicate n (([[1, 0], [0, 1]] : List (List ℝ)).zip [[1], [0]])).flatten p.toNN =
      (symIter Real.exp n p).toNN := by
  induction n generalizing p with
  | zero => rfl
  | succ n ih =>
    rw [List.replicate_succ, List.flatten_cons, trainSeq_append, symIter, ← ih]
    congr 1
    show (trainSample Real.exp 2 2 1 (trainSample Real.exp 2 2 1 p.toNN [1, 0] [1]).2
      [0, 1] [0]).2 = _
    rw [trainSample_sym_first, trainSample_sym_second]
    rfl

theorem zeroNN_sym : (zeroNN 2 2 1 : NeuralNetwork ℝ) = (⟨0, 0, 0, 0, 0⟩ : Sym5 ℝ).toNN := rfl

theorem trainEpochs_eq_trainSeq [Field R] (exp : R → R) (I H O : Nat) (X Y : List (List R))
    (nn : NeuralNetwork R) (hXY : X.length = Y.length) :
    (trainEpochs exp I H O X Y nn).1 =
      trainSeq exp I H O (List.replicate 500 (X.zip Y)).flatten nn :=
  trainEpochs_loop exp I H O X Y nn hXY 500

theorem half_bounds (T : ℝ) (h1 : (500000041552384 : ℝ) ≤ T * 1000000000000000)
    (h2 : T * 1000000000000000 ≤ (500000041562948 : ℝ)) :
    (0.25 : ℝ) < T / 2 ∧ T / 2 < 0.2500001 := by
  constructor
  · norm_num
    linarith
  · norm_num
    linarith

/-- The mean loss after the 500 epochs, enclosed. -/
theorem meanLoss_after_training_bounds :
    (0.25 : ℝ) < meanLoss Real.exp 2 2 1 [[1, 0], [0, 1]] [[1], [0]]
      (trainEpochs Real.exp 2 2 1 [[1, 0], [0, 1]] [[1], [0]] (zeroNN 2 2 1)).1 ∧
    meanLoss Real.exp 2 2 1 [[1, 0], [0, 1]] [[1], [0]]
      (trainEpochs Real.exp 2 2 1 [[1, 0], [0, 1]] [[1], [0]] (zeroNN 2 2 1)).1 <
        0.2500001 := by
  have hrun : (trainEpochs Real.exp 2 2 1 [[1, 0], [0, 1]] [[1], [0]] (zeroNN 2 2 1)).1 =
      (symIter Real.exp 500 ⟨0, 0, 0, 0, 0⟩).toNN := by
    rw [trainEpochs_eq_trainSeq Real.exp 2 2 1 [[1, 0], [0, 1]] [[1], [0]] _ rfl, zeroNN_sym,
      trainSeq_sym 500]
  rw [hrun, meanLoss_sym]
  have hm := totN_mem (checkpoint_mem 20 (le_refl 20))
  have h500 : 25 * 20 = 500 := by norm_num
  rw [h500] at hm
  obtain ⟨hlo, hhi⟩ := totN_final
  unfold Pv.Mem at hm
  rw [hlo, hhi, scale_cast] at hm
  push_cast at hm
  exact half_bounds _ hm.1 hm.2

theorem meanLoss_zeroNN :
    meanLoss Real.exp 2 2 1 [[1, 0], [0, 1]] [[1], [0]] (zeroNN 2 2 1) = 0.25 := by
  rw [zeroNN_sym, meanLoss_sym]
  simp [symOutput, sigmoid]
  norm_num

/-- C14, as stated, fails: in shape `(2, 2, 1)`, from the all-zero store, after the 500 epochs
of the epoch loop over `([1,0],[1]), ([0,1],[0])` the mean loss of the two samples is not
below the mean loss `0.25` of the all-zero store (real arithmetic). -/
theorem C14_mean_loss_not_lowered :
    meanLoss Real.exp 2 2 1 [[1, 0], [0, 1]] [[1], [0]] (zeroNN 2 2 1) = 0.25 ∧
    ¬ (meanLoss Real.exp 2 2 1 [[1, 0], [0, 1]] [[1], [0]]
      (trainEpochs Real.exp 2 2 1 [[1, 0], [0, 1]] [[1], [0]] (zeroNN 2 2 1)).1 < 0.25) :=
  ⟨meanLoss_zeroNN, not_lt.mpr meanLoss_after_training_bounds.1.le⟩

/-- C14, amended: in shape `(2, 2, 1)` with `eta = 0.01`, from the all-zero store, after the
500 epochs of the epoch loop over `([1,0],[1]), ([0,1],[0])` the mean loss of the two samples
is slightly above the mean loss `0.25` of the all-zero store: it lies strictly between `0.25`
and `0.2500001` (real arithmetic). -/
theorem C14_mean_loss_after_training :
    meanLoss Real.exp 2 2 1 [[1, 0], [0, 1]] [[1], [0]] (zeroNN 2 2 1) = 0.25 ∧
    (0.25 : ℝ) < meanLoss Real.exp 2 2 1 [[1, 0], [0, 1]] [[1], [0]]
      (trainEpochs Real.exp 2 2 1 [[1, 0], [0, 1]] [[1], [0]] (zeroNN 2 2 1)).1 ∧
    meanLoss Real.exp 2 2 1 [[1, 0], [0, 1]] [[1], [0]]
      (trainEpochs Real.exp 2 2 1 [[1, 0], [0, 1]] [[1], [0]] (zeroNN 2 2 1)).1 <
        0.2500001 :=
  ⟨meanLoss_zeroNN, meanLoss_after_training_bounds.1, meanLoss_after_training_bounds.2⟩

end Classifier
